import Mathlib

/-!
Verification development for the notebridge reconciliation engine
(src/notebridge.py).  The Python code is shallowly embedded: note contents
are lists of characters, the concrete regular-expression operations that the
code performs on them are implemented as executable scanners whose semantics
match Python's `re` backtracking behaviour on exactly the patterns the code
uses, and the stateful sync operations are modelled as pure functions on
explicit state values.  Nondeterministic inputs of the code (fresh UUIDs,
the current wall-clock time, library parsing of timestamps) appear as
explicit parameters of the corresponding definitions.
-/

set_option maxRecDepth 10000

namespace Notebridge

/-- Note contents are modelled as lists of characters (Python strings are
scanned character by character by the regex engine). -/
abbrev Str := List Char

/-- Convenience conversion from Lean string literals. -/
def lit (s : String) : Str := s.toList

/-- The ASCII apostrophe (quote) character used by the YAML sync-time
pattern. -/
def quoteChar : Char := Char.ofNat 39

/-- Characters matched by the character class `[a-f0-9-]` of the
`notebridge_id` patterns. -/
def isHexDash (c : Char) : Bool :=
  (97 ≤ c.toNat && c.toNat ≤ 102) || (48 ≤ c.toNat && c.toNat ≤ 57) || c.toNat == 45

/-- Characters matched by Python's `\s` class; the embedded contents are
ASCII, where `\s` is exactly space, tab, newline, carriage return, form feed
and vertical tab. -/
def isPyWs (c : Char) : Bool :=
  c.toNat == 32 || c.toNat == 9 || c.toNat == 10 || c.toNat == 13 ||
  c.toNat == 12 || c.toNat == 11

/-- Boolean literal-prefix test on character lists. -/
def hasPfx : Str → Str → Bool
  | [], _ => true
  | _ :: _, [] => false
  | p :: ps, c :: cs => p == c && hasPfx ps cs

/-- Whether `pat` occurs as a substring (models `re.search` for a plain
literal pattern such as `notebridge_`). -/
def containsSub (pat : Str) : Str → Bool
  | [] => hasPfx pat []
  | c :: cs => hasPfx pat (c :: cs) || containsSub pat cs

/-- Length of the maximal whitespace run at the head of `s` (what a greedy
`\s*` consumes when nothing has to follow it). -/
def wsCount (s : Str) : Nat := (s.takeWhile isPyWs).length

/-- Index of the last newline of a list, if any. -/
def lastNLIdx : Str → Option Nat
  | [] => none
  | c :: cs =>
    match lastNLIdx cs with
    | some i => some (i + 1)
    | none => if c == '\n' then some 0 else none

/-- Number of characters consumed by a greedy `\s*\n` at the head of `s`:
the maximal whitespace run is scanned and the match ends at its last
newline (backtracking semantics); fails when the run holds no newline. -/
def wsThroughLastNL (s : Str) : Option Nat :=
  match lastNLIdx (s.takeWhile isPyWs) with
  | some i => some (i + 1)
  | none => none

/-- Python's string `<` comparison (lexicographic by code point), used by
`clean_duplicate_sync_info` to pick the latest sync time. -/
def pyStrLt : Str → Str → Bool
  | [], [] => false
  | [], _ :: _ => true
  | _ :: _, [] => false
  | a :: as, b :: bs =>
    if a.toNat < b.toNat then true
    else if b.toNat < a.toNat then false
    else pyStrLt as bs

/-!  Generic regex-scan drivers.  A capturing matcher maps a suffix of the
content to `some (capture, consumed)` when the pattern matches at that
position (`consumed ≥ 1` characters), a removal matcher just to the
consumed length.  `re.findall` / `re.sub` scan left to right and continue
after the end of each match (non-overlapping); this is implemented
structurally with a skip counter. -/

/-- Scanner core for `re.findall`: collect the captures of all
non-overlapping leftmost matches.  `skip` counts characters still inside a
previous match. -/
def findAllGo (M : Str → Option (Str × Nat)) : Str → Nat → List Str
  | [], _ => []
  | _ :: cs, skip + 1 => findAllGo M cs skip
  | c :: cs, 0 =>
    match M (c :: cs) with
    | some (cap, k) => cap :: findAllGo M cs (k - 1)
    | none => findAllGo M cs 0

/-- All captures of a pattern in a content, in order (`re.findall`). -/
def findAllCaps (M : Str → Option (Str × Nat)) (s : Str) : List Str :=
  findAllGo M s 0

/-- First capture of a pattern in a content (`re.search`). -/
def searchCap (M : Str → Option (Str × Nat)) : Str → Option Str
  | [] => (M []).map Prod.fst
  | c :: cs =>
    match M (c :: cs) with
    | some (cap, _) => some cap
    | none => searchCap M cs

/-- Scanner core for `re.sub(pat, '', s)`: drop every non-overlapping
leftmost match. -/
def subRmGo (M : Str → Option Nat) : Str → Nat → Str
  | [], _ => []
  | _ :: cs, skip + 1 => subRmGo M cs skip
  | c :: cs, 0 =>
    match M (c :: cs) with
    | some k => subRmGo M cs (k - 1)
    | none => c :: subRmGo M cs 0

/-- Removal substitution (`re.sub(pat, '', s)`). -/
def subRm (M : Str → Option Nat) (s : Str) : Str := subRmGo M s 0

/-- Scanner core for `re.sub(pat, repl, s)` with a fixed replacement; the
replacement is emitted in place of the match and is not rescanned. -/
def subReplGo (M : Str → Option Nat) (repl : Str) : Str → Nat → Str
  | [], _ => []
  | _ :: cs, skip + 1 => subReplGo M repl cs skip
  | c :: cs, 0 =>
    match M (c :: cs) with
    | some k => repl ++ subReplGo M repl cs (k - 1)
    | none => c :: subReplGo M repl cs 0

/-- Fixed-replacement substitution. -/
def subRepl (M : Str → Option Nat) (repl : Str) (s : Str) : Str :=
  subReplGo M repl s 0

/-- Scanner core for a MULTILINE anchored `re.sub(r'^...', '', s)`: the
matcher is only tried at line starts.  `atLS` tracks whether the current
position follows a newline (or is the string start). -/
def subRmMLGo (M : Str → Option Nat) : Str → Nat → Bool → Str
  | [], _, _ => []
  | c :: cs, skip + 1, _ => subRmMLGo M cs skip (c == '\n')
  | c :: cs, 0, atLS =>
    if atLS then
      match M (c :: cs) with
      | some k => subRmMLGo M cs (k - 1) (c == '\n')
      | none => c :: subRmMLGo M cs 0 (c == '\n')
    else c :: subRmMLGo M cs 0 (c == '\n')

/-- MULTILINE anchored removal substitution. -/
def subRmML (M : Str → Option Nat) (s : Str) : Str := subRmMLGo M s 0 true

/-!  Matchers for the concrete patterns of `src/notebridge.py`.  Each one
implements the exact backtracking semantics of the Python pattern named in
its doc comment, validated against CPython's `re` on the shapes involved. -/

/-- Literal prefix of `<!-- notebridge_id: ([a-f0-9-]+) -->`. -/
def idPfx : Str := lit "<!-- notebridge_id: "
/-- Literal prefix of `<!-- notebridge_sync_time: ([^>]+) -->`. -/
def timePfx : Str := lit "<!-- notebridge_sync_time: "
/-- Literal prefix of `<!-- notebridge_source: ([^>]+) -->`. -/
def srcPfx : Str := lit "<!-- notebridge_source: "
/-- Literal prefix of `<!-- notebridge_version: ([^>]+) -->`. -/
def verPfx : Str := lit "<!-- notebridge_version: "
/-- Literal prefix of `notebridge_id: ([a-f0-9-]+)`. -/
def yIdPfx : Str := lit "notebridge_id: "
/-- Literal prefix of the YAML sync-time patterns. -/
def yTimePfx : Str := lit "notebridge_sync_time: "
/-- Literal prefix of `notebridge_source: [^\n]+\s*\n`. -/
def ySrcPfx : Str := lit "notebridge_source: "
/-- Literal prefix of `notebridge_version: [^\n]+\s*\n`. -/
def yVerPfx : Str := lit "notebridge_version: "

/-- Matcher for `<!-- notebridge_id: ([a-f0-9-]+) -->`: the literal prefix,
a maximal nonempty run of `[a-f0-9-]` (the class excludes space, so greedy
matching needs no backtracking), then the literal ` -->`. -/
def mId (s : Str) : Option (Str × Nat) :=
  if hasPfx idPfx s then
    let s1 := s.drop idPfx.length
    let cap := s1.takeWhile isHexDash
    if 0 < cap.length && hasPfx (lit " -->") (s1.drop cap.length) then
      some (cap, idPfx.length + cap.length + 4)
    else none
  else none

/-- Matcher for the HTML-comment patterns `pfx([^>]+) -->` (sync time,
source, version).  Let `run` be the maximal run without `>`; Python's
backtracking succeeds exactly when `run` ends in ` --` and is followed by
`>` (the trailing ` -->` must place its `>` on the first `>` of the
content), capturing `run` minus that suffix. -/
def mGt (pfx : Str) (s : Str) : Option (Str × Nat) :=
  if hasPfx pfx s then
    let s1 := s.drop pfx.length
    let run := s1.takeWhile (fun c => !(c == '>'))
    if 4 ≤ run.length && run.drop (run.length - 3) == lit " --" &&
       hasPfx (lit ">") (s1.drop run.length) then
      some (run.take (run.length - 3), pfx.length + run.length + 1)
    else none
  else none

/-- Matcher for `notebridge_id: ([a-f0-9-]+)` (no trailing literal). -/
def yId (s : Str) : Option (Str × Nat) :=
  if hasPfx yIdPfx s then
    let cap := (s.drop yIdPfx.length).takeWhile isHexDash
    if 0 < cap.length then some (cap, yIdPfx.length + cap.length) else none
  else none

/-- Characters allowed inside the YAML time capture class `[^'\n]`. -/
def isYTimeChar (c : Char) : Bool := !(c == quoteChar) && !(c == '\n')

/-- Matcher for `notebridge_sync_time: \'?([^\'\n]+)\'?`: optional leading
quote, maximal nonempty run of non-quote non-newline characters, optional
trailing quote. -/
def yTime (s : Str) : Option (Str × Nat) :=
  if hasPfx yTimePfx s then
    let s1 := s.drop yTimePfx.length
    let q1 : Nat := if hasPfx [quoteChar] s1 then 1 else 0
    let s2 := s1.drop q1
    let cap := s2.takeWhile isYTimeChar
    if 0 < cap.length then
      let q2 : Nat := if hasPfx [quoteChar] (s2.drop cap.length) then 1 else 0
      some (cap, yTimePfx.length + q1 + cap.length + q2)
    else none
  else none

/-!  Removal matchers for the `re.sub(..., '')` calls of
`clean_duplicate_sync_info` and the add functions. -/

/-- A matcher followed by a greedy trailing `\s*` (consumes the maximal
whitespace run after the match). -/
def addTrailWs (M : Str → Option (Str × Nat)) (s : Str) : Option Nat :=
  match M s with
  | some (_, k) => some (k + wsCount (s.drop k))
  | none => none

/-- Removal matcher for `<!-- notebridge_id: [a-f0-9-]+ -->\s*`. -/
def sIdM : Str → Option Nat := addTrailWs mId
/-- Removal matcher for `<!-- notebridge_sync_time: [^>]+ -->\s*`. -/
def sTimeM : Str → Option Nat := addTrailWs (mGt timePfx)
/-- Removal matcher for `<!-- notebridge_source: [^>]+ -->\s*`. -/
def sSrcM : Str → Option Nat := addTrailWs (mGt srcPfx)
/-- Removal matcher for `<!-- notebridge_version: [^>]+ -->\s*`. -/
def sVerM : Str → Option Nat := addTrailWs (mGt verPfx)

/-- Removal matcher for `notebridge_id: [a-f0-9-]+\s*\n`: the id run, then
a greedy `\s*\n` ending at the last newline of the following whitespace
run. -/
def ySubIdM (s : Str) : Option Nat :=
  match yId s with
  | some (_, k) =>
    match wsThroughLastNL (s.drop k) with
    | some w => some (k + w)
    | none => none
  | none => none

/-- Removal matcher for `notebridge_sync_time: \'?[^\'\n]+\'?\s*\n`. -/
def ySubTimeM (s : Str) : Option Nat :=
  match yTime s with
  | some (_, k) =>
    match wsThroughLastNL (s.drop k) with
    | some w => some (k + w)
    | none => none
  | none => none

/-- Removal matcher for `pfx[^\n]+\s*\n` (YAML source / version lines):
maximal nonempty run without newline, then `\s*\n`. -/
def yLineM (pfx : Str) (s : Str) : Option Nat :=
  if hasPfx pfx s then
    let s1 := s.drop pfx.length
    let run := s1.takeWhile (fun c => !(c == '\n'))
    if 0 < run.length then
      match wsThroughLastNL (s1.drop run.length) with
      | some w => some (pfx.length + run.length + w)
      | none => none
    else none
  else none

/-- Removal matcher for `<!--\s*notebridge_[^>]+\s*-->\s*` (the forced
cleanup in the add functions): `<!--`, whitespace, `notebridge_`, then a
maximal run without `>` that must end in `--` followed by `>`, then
trailing whitespace. -/
def forceRmM (s : Str) : Option Nat :=
  if hasPfx (lit "<!--") s then
    let s1 := s.drop 4
    let w := wsCount s1
    let s2 := s1.drop w
    if hasPfx (lit "notebridge_") s2 then
      let s3 := s2.drop 11
      let run := s3.takeWhile (fun c => !(c == '>'))
      if 3 ≤ run.length && run.drop (run.length - 2) == lit "--" &&
         hasPfx (lit ">") (s3.drop run.length) then
        let k := 4 + w + 11 + run.length + 1
        some (k + wsCount (s.drop k))
      else none
    else none
  else none

/-- Count of newlines in a list. -/
def nlCount (s : Str) : Nat := (s.filter (fun c => c == '\n')).length

/-- Matcher for `\n\s*\n\s*\n` (blank-line collapse): a newline whose
maximal whitespace run holds at least three newlines; the greedy match ends
at the last newline of that run. -/
def collapseM (s : Str) : Option Nat :=
  match s with
  | c :: _ =>
    if c == '\n' then
      let run := s.takeWhile isPyWs
      if 3 ≤ nlCount run then
        match lastNLIdx run with
        | some i => some (i + 1)
        | none => none
      else none
    else none
  | [] => none

/-- The `re.sub(r'^\s*\n', '', content)` step: anchored at the string
start only, it removes the leading whitespace run through its last
newline. -/
def stripLeadBlank (s : Str) : Str :=
  match wsThroughLastNL s with
  | some k => s.drop k
  | none => s

/-- MULTILINE matcher for `^-->\s*$` (resp. `^<!--\s*$` via `opener`):
the literal at a line start, then whitespace; `$` matches at the string
end (consuming the whole run) or before the last newline of the run
(consuming the run up to it). -/
def mlLineM (opener : Str) (s : Str) : Option Nat :=
  if hasPfx opener s then
    let s1 := s.drop opener.length
    let run := s1.takeWhile isPyWs
    if run.length == s1.length then some (opener.length + run.length)
    else
      match lastNLIdx run with
      | some i => some (opener.length + i)
      | none => none
  else none

/-- MULTILINE matcher for `^\s*-->\s*\n` (resp. `^\s*<!--\s*\n`): leading
whitespace, the literal, then `\s*\n`. -/
def mlWsLineM (opener : Str) (s : Str) : Option Nat :=
  let w := wsCount s
  let s1 := s.drop w
  if hasPfx opener s1 then
    match wsThroughLastNL (s1.drop opener.length) with
    | some k => some (w + opener.length + k)
    | none => none
  else none

/-- MULTILINE matcher for `^---\s*\n\s*---\s*\n` (the empty-frontmatter
removal of `clean_duplicate_sync_info_keep_oldest`): `---`, a whitespace
run that must hold a newline and is followed directly by `---`, then
`\s*\n`. -/
def mlEmptyFMM (s : Str) : Option Nat :=
  if hasPfx (lit "---") s then
    let s1 := s.drop 3
    let w := s1.takeWhile isPyWs
    if 1 ≤ nlCount w && hasPfx (lit "---") (s1.drop w.length) then
      match wsThroughLastNL (s1.drop (w.length + 3)) with
      | some k => some (3 + w.length + 3 + k)
      | none => none
    else none
  else none

/-!  YAML frontmatter matching: the pattern `^---\s*\n(.*?)\n---\s*\n`
(DOTALL, anchored at the string start by `^` without MULTILINE). -/

/-- Scan for the earliest closing `\n---\s*\n` (the non-greedy `.*?`
grows); returns the group text before the closing newline and the rest
after the full match. -/
def fmScanClose : Str → Option (Str × Str)
  | [] => none
  | c :: cs =>
    if c == '\n' && hasPfx (lit "---") cs then
      match wsThroughLastNL (cs.drop 3) with
      | some k => some ([], cs.drop (3 + k))
      | none =>
        match fmScanClose cs with
        | some (g, r) => some (c :: g, r)
        | none => none
    else
      match fmScanClose cs with
      | some (g, r) => some (c :: g, r)
      | none => none

/-- Newline indices of a list, ascending. -/
def nlIdxs : Str → List Nat
  | [] => []
  | c :: cs => (if c == '\n' then [0] else []) ++ (nlIdxs cs).map (· + 1)

/-- Try the opening-newline candidates (greedy `\s*\n`: largest first). -/
def yamlFMGo : List Nat → Str → Option (Str × Str)
  | [], _ => none
  | i :: is, s1 =>
    match fmScanClose (s1.drop (i + 1)) with
    | some (g, r) => some (g, r)
    | none => yamlFMGo is s1

/-- Full match of `^---\s*\n(.*?)\n---\s*\n` at the string start: returns
`(group 1, text after the match)`.  The greedy opening `\s*\n` is
backtracked from the last newline of the whitespace run after `---`; for
each candidate the earliest closing `\n---\s*\n` is taken. -/
def yamlFMatch (s : Str) : Option (Str × Str) :=
  if hasPfx (lit "---") s then
    let s1 := s.drop 3
    yamlFMGo (nlIdxs (s1.takeWhile isPyWs)).reverse s1
  else none

/-- Whether a content starts with a YAML frontmatter block (the boolean
`has_yaml` test of `clean_duplicate_sync_info`). -/
def hasYamlFM (s : Str) : Bool := (yamlFMatch s).isSome

/-- Python `str.strip()` (whitespace at both ends). -/
def pyStrip (s : Str) : Str :=
  ((s.dropWhile isPyWs).reverse.dropWhile isPyWs).reverse

/-!  The sync-metadata record and the physical Joplin header. -/

/-- The four fields of the embedded sync-metadata record
(`notebridge_id`, `notebridge_sync_time`, `notebridge_source`,
`notebridge_version`). -/
structure SyncInfo where
  nid : Str
  ntime : Str
  nsource : Str
  nversion : Str
deriving Repr, DecidableEq

/-- The HTML-comment header block that `add_sync_info_to_joplin_content`
prepends (four comment lines and a blank line). -/
def jHeader (i : SyncInfo) : Str :=
  idPfx ++ i.nid ++ lit " -->\n" ++
  timePfx ++ i.ntime ++ lit " -->\n" ++
  srcPfx ++ i.nsource ++ lit " -->\n" ++
  verPfx ++ i.nversion ++ lit " -->\n\n"

/-- The latest-sync-time selection loop of `clean_duplicate_sync_info`:
walk the time list, remembering the strictly larger time (Python string
comparison) and the id at the same index.  The id list is aligned with the
time list on all contents the engine produces. -/
def latestGo : List Str → List Str → Str → Str → Str × Str
  | [], _, lt, li => (lt, li)
  | t :: ts, ids, lt, li =>
    if pyStrLt lt t then latestGo ts ids.tail t (ids.headD [])
    else latestGo ts ids.tail lt li

/-!  Model of the PyYAML calls at their use sites.  The engine only ever
writes frontmatter consisting of simple `key: value` scalar lines, so
`yaml.safe_load` is modelled as a line-based mapping parser and
`yaml.dump(..., default_flow_style=False)` as the sorted-key emission of
such lines, quoting the scalars PyYAML would resolve as non-strings
(integers and ISO timestamps).  No theorem below depends on this model on
any other shape of input. -/

/-- Split a key/value line `key: value` at the first `: `. -/
def parseFMLine (l : Str) : Option (Str × Str) :=
  match l.findIdx? (fun c => c == ':') with
  | some i =>
    if hasPfx (lit ": ") (l.drop i) then
      some (l.take i, pyStrip (l.drop (i + 2)))
    else none
  | none => none

/-- Strip one pair of surrounding single quotes from a scalar. -/
def stripQuotes (v : Str) : Str :=
  if 2 ≤ v.length && hasPfx [quoteChar] v && v.getLast? == some quoteChar then
    (v.drop 1).dropLast
  else v

/-- Modelled `yaml.safe_load` of a frontmatter body: every nonblank line
must be a `key: value` pair. -/
def safeLoadFM (g1 : Str) : Option (List (Str × Str)) :=
  let ls := (List.splitOn '\n' g1).filter (fun l => !(pyStrip l == []))
  ls.foldr (fun l acc =>
    match acc, parseFMLine l with
    | some es, some (k, v) => some ((k, stripQuotes v) :: es)
    | _, _ => none) (some [])

/-- Mapping lookup. -/
def yamlGet (es : List (Str × Str)) (k : Str) : Option Str :=
  match es.find? (fun e => e.1 == k) with
  | some e => some e.2
  | none => none

/-- Mapping update (`dict.update` with the four sync fields). -/
def yamlUpdate (es : List (Str × Str)) (i : SyncInfo) : List (Str × Str) :=
  let put := fun (es : List (Str × Str)) (k v : Str) =>
    if (es.find? (fun e => e.1 == k)).isSome then
      es.map (fun e => if e.1 == k then (k, v) else e)
    else es ++ [(k, v)]
  put (put (put (put es (lit "notebridge_id") i.nid)
    (lit "notebridge_sync_time") i.ntime)
    (lit "notebridge_source") i.nsource)
    (lit "notebridge_version") i.nversion

/-- Whether the modelled PyYAML emitter quotes a scalar: all-digit values
(integers) and ISO-timestamp-shaped values resolve as non-strings. -/
def yamlNeedsQuote (v : Str) : Bool :=
  (0 < v.length && v.all (fun c => 48 ≤ c.toNat && c.toNat ≤ 57)) ||
  (5 ≤ v.length && (v.take 4).all (fun c => 48 ≤ c.toNat && c.toNat ≤ 57) &&
    (v.drop 4).headD ' ' == '-')

/-- One emitted `key: value` line. -/
def yamlDumpLine (e : Str × Str) : Str :=
  e.1 ++ lit ": " ++
  (if yamlNeedsQuote e.2 then [quoteChar] ++ e.2 ++ [quoteChar] else e.2) ++
  lit "\n"

/-- Insertion sort of mapping entries by key (PyYAML sorts keys). -/
def yamlSortIns (e : Str × Str) : List (Str × Str) → List (Str × Str)
  | [] => [e]
  | f :: fs => if pyStrLt e.1 f.1 then e :: f :: fs else f :: yamlSortIns e fs

/-- Modelled `yaml.dump` of a mapping (sorted keys, one line each,
trailing newline included). -/
def yamlDumpFM (es : List (Str × Str)) : Str :=
  (es.foldr yamlSortIns []).foldr (fun e acc => yamlDumpLine e ++ acc) []

/-- Modelled `yaml.dump` of the four-field sync record. -/
def yamlDumpSyncInfo (i : SyncInfo) : Str :=
  yamlDumpFM (yamlUpdate [] i)

/-!  The metadata codec: `clean_duplicate_sync_info`,
`add_sync_info_to_joplin_content`, `add_sync_info_to_obsidian_content`.
The three functions are mutually recursive in the source (each add starts
by cleaning, and cleaning re-adds the surviving record); the recursion is
realised with an explicit fuel, set by the entry points high enough that
the base case is unreachable (each nesting level of the recursion removes
at least one embedded `notebridge_id:` occurrence, of which a content of
length `n` holds fewer than `n`). -/

mutual

/-- `clean_duplicate_sync_info` (src/notebridge.py:67): collect all ids
and times in both HTML-comment and YAML form (a single HTML block is
counted by both pattern families), return unchanged unless more than one
id was seen, otherwise select the id paired with the lexicographically
largest time string, strip every sync line, collapse blank runs, and
re-embed a single record in the format matching the content.  The fresh
id and time of its `generate_sync_info` call are overwritten by the
selected id and time, so only the regenerated source (`joplin` or
`obsidian`) and version (`1`) fields survive into the result. -/
def cleanF : Nat → Str → Str
  | 0, content => content
  | fuel + 1, content =>
    let all_ids := findAllCaps mId content ++ findAllCaps yId content
    let all_times := findAllCaps (mGt timePfx) content ++ findAllCaps yTime content
    if all_ids.length ≤ 1 then content
    else
      let sel := latestGo all_times all_ids [] []
      if sel.2 == [] then content
      else
        let c1 := subRm sIdM content
        let c2 := subRm sTimeM c1
        let c3 := subRm sSrcM c2
        let c4 := subRm sVerM c3
        let c5 := subRm ySubIdM c4
        let c6 := subRm ySubTimeM c5
        let c7 := subRm (yLineM ySrcPfx) c6
        let c8 := subRm (yLineM yVerPfx) c7
        let c9 := subRepl collapseM (lit "\n\n") c8
        let c10 := stripLeadBlank c9
        if hasYamlFM c10 then
          addObsF fuel c10 ⟨sel.2, sel.1, lit "obsidian", lit "1"⟩
        else
          addJoplinF fuel c10 ⟨sel.2, sel.1, lit "joplin", lit "1"⟩

/-- `add_sync_info_to_joplin_content` (src/notebridge.py:879): clean,
force-remove any remaining `<!-- notebridge_... -->` comments, remove
stray comment delimiters, drop remaining `notebridge_` frontmatter lines,
then prepend the four-line header. -/
def addJoplinF : Nat → Str → SyncInfo → Str
  | 0, content, info => jHeader info ++ content
  | fuel + 1, content, info =>
    let c0 := cleanF fuel content
    let c1 := if containsSub (lit "<!-- notebridge_") c0 then subRm forceRmM c0 else c0
    let c2 := subRmML (mlLineM (lit "-->")) c1
    let c3 := subRmML (mlLineM (lit "<!--")) c2
    let c4 := subRmML (mlWsLineM (lit "-->")) c3
    let c5 := subRmML (mlWsLineM (lit "<!--")) c4
    let c6 :=
      if containsSub (lit "notebridge_") c5 then
        match yamlFMatch c5 with
        | some (g1, rest) =>
          let kept := (List.splitOn '\n' g1).filter
            (fun l => !(hasPfx (lit "notebridge_") (pyStrip l)))
          if kept.length == 0 then rest
          else lit "---\n" ++ List.intercalate (lit "\n") kept ++ lit "\n---\n\n" ++ rest
        | none => c5
      else c5
    jHeader info ++ c6

/-- `add_sync_info_to_obsidian_content` (src/notebridge.py:923): same
cleanup as the Joplin variant, then the record is merged into an existing
frontmatter mapping or a fresh frontmatter block is created. -/
def addObsF : Nat → Str → SyncInfo → Str
  | 0, content, info => lit "---\n" ++ yamlDumpSyncInfo info ++ lit "---\n\n" ++ content
  | fuel + 1, content, info =>
    let c0 := cleanF fuel content
    let c1 := if containsSub (lit "<!-- notebridge_") c0 then subRm forceRmM c0 else c0
    let c2 := subRmML (mlLineM (lit "-->")) c1
    let c3 := subRmML (mlLineM (lit "<!--")) c2
    let c4 := subRmML (mlWsLineM (lit "-->")) c3
    let c5 := subRmML (mlWsLineM (lit "<!--")) c4
    let c6 :=
      if containsSub (lit "notebridge_") c5 then
        match yamlFMatch c5 with
        | some (g1, rest) =>
          let kept := (List.splitOn '\n' g1).filter
            (fun l => !(hasPfx (lit "notebridge_") (pyStrip l)))
          if kept.length == 0 then rest
          else lit "---\n" ++ List.intercalate (lit "\n") kept ++ lit "\n---\n\n" ++ rest
        | none => c5
      else c5
    if hasPfx (lit "---") c6 then
      match yamlFMatch c6 with
      | some (g1, rest) =>
        match safeLoadFM g1 with
        | some es =>
          lit "---\n" ++ yamlDumpFM (yamlUpdate es info) ++ lit "---\n\n" ++ rest
        | none => lit "---\n" ++ yamlDumpSyncInfo info ++ lit "---\n\n" ++ c6
      | none => lit "---\n" ++ yamlDumpSyncInfo info ++ lit "---\n\n" ++ c6
    else lit "---\n" ++ yamlDumpSyncInfo info ++ lit "---\n\n" ++ c6

end

/-- Fuel bound used by the entry points. -/
def codecFuel (s : Str) : Nat := s.length + 4

/-- Entry point for `clean_duplicate_sync_info`. -/
def clean_duplicate_sync_info (s : Str) : Str := cleanF (codecFuel s) s

/-- Entry point for `add_sync_info_to_joplin_content`. -/
def add_sync_info_to_joplin_content (s : Str) (i : SyncInfo) : Str :=
  addJoplinF (codecFuel s) s i

/-- Entry point for `add_sync_info_to_obsidian_content`. -/
def add_sync_info_to_obsidian_content (s : Str) (i : SyncInfo) : Str :=
  addObsF (codecFuel s) s i

/-- `extract_sync_info_from_joplin` (src/notebridge.py:133): clean first,
then read each field off the first matching HTML comment; the version
defaults to `1`. -/
def extract_sync_info_from_joplin (body : Str) : SyncInfo :=
  let cleaned := clean_duplicate_sync_info body
  { nid := (searchCap mId cleaned).getD []
    ntime := (searchCap (mGt timePfx) cleaned).getD []
    nsource := (searchCap (mGt srcPfx) cleaned).getD []
    nversion := (searchCap (mGt verPfx) cleaned).getD (lit "1") }

/-!  Loose HTML-comment matchers used by the Obsidian-side extractor
(`extract_sync_info_from_obsidian`, src/notebridge.py:166): these patterns
allow `\s*` around the delimiters. -/

/-- ASCII word characters (`\w`). -/
def isWordChar (c : Char) : Bool :=
  (97 ≤ c.toNat && c.toNat ≤ 122) || (65 ≤ c.toNat && c.toNat ≤ 90) ||
  (48 ≤ c.toNat && c.toNat ≤ 57) || c.toNat == 95

/-- ASCII digits (`\d`). -/
def isDigitC (c : Char) : Bool := 48 ≤ c.toNat && c.toNat ≤ 57

/-- Matcher for `<!--\s*key\s*(cls+)\s*-->` where the capture class `cls`
excludes whitespace and `>`, and excludes `-` (so the trailing `-->`
cannot eat into the capture): maximal nonempty run, then whitespace, then
`-->`. -/
def mLooseCls (key : Str) (cls : Char → Bool) (s : Str) : Option (Str × Nat) :=
  if hasPfx (lit "<!--") s then
    let s1 := s.drop 4
    let w1 := wsCount s1
    let s2 := s1.drop w1
    if hasPfx key s2 then
      let s3 := s2.drop key.length
      let w2 := wsCount s3
      let s4 := s3.drop w2
      let cap := s4.takeWhile cls
      if 0 < cap.length then
        let s5 := s4.drop cap.length
        let w3 := wsCount s5
        if hasPfx (lit "-->") (s5.drop w3) then
          some (cap, 4 + w1 + key.length + w2 + cap.length + w3 + 3)
        else none
      else none
    else none
  else none

/-- Matcher for `<!--\s*notebridge_id:\s*([a-f0-9\-]+)\s*-->`.  The class
holds `-`, so when the greedy run swallows the `--` of the closing
delimiter Python backtracks exactly two characters (any shorter split
leaves a class character where `-->` must start). -/
def mIdLoose (s : Str) : Option (Str × Nat) :=
  if hasPfx (lit "<!--") s then
    let s1 := s.drop 4
    let w1 := wsCount s1
    let s2 := s1.drop w1
    if hasPfx (lit "notebridge_id:") s2 then
      let s3 := s2.drop 14
      let w2 := wsCount s3
      let s4 := s3.drop w2
      let run := s4.takeWhile isHexDash
      let s5 := s4.drop run.length
      if 0 < run.length then
        let w3 := wsCount s5
        if hasPfx (lit "-->") (s5.drop w3) then
          some (run, 4 + w1 + 14 + w2 + run.length + w3 + 3)
        else
          if 3 ≤ run.length && run.drop (run.length - 2) == lit "--" &&
             hasPfx (lit ">") s5 then
            some (run.take (run.length - 2), 4 + w1 + 14 + w2 + run.length + 1)
          else none
      else none
    else none
  else none

/-- Matcher for `<!--\s*notebridge_sync_time:\s*([^>]+)\s*-->`: the
maximal run without `>` must end in `--` (those are the closing dashes);
the greedy capture keeps everything before them, whitespace included (the
caller strips it). -/
def mTimeLoose (s : Str) : Option (Str × Nat) :=
  if hasPfx (lit "<!--") s then
    let s1 := s.drop 4
    let w1 := wsCount s1
    let s2 := s1.drop w1
    if hasPfx (lit "notebridge_sync_time:") s2 then
      let s3 := s2.drop 21
      let w2 := wsCount s3
      let s4 := s3.drop w2
      let run := s4.takeWhile (fun c => !(c == '>'))
      if 3 ≤ run.length && run.drop (run.length - 2) == lit "--" &&
         hasPfx (lit ">") (s4.drop run.length) then
        some (run.take (run.length - 2), 4 + w1 + 21 + w2 + run.length + 1)
      else none
    else none
  else none

/-- `extract_sync_info_from_obsidian` (src/notebridge.py:166): first read
the YAML frontmatter (fields set only when truthy), then fall back to the
loose HTML-comment patterns for each still-empty field (for the version:
still equal to the default `1`). -/
def extract_sync_info_from_obsidian (content : Str) : SyncInfo :=
  let fromYaml : SyncInfo :=
    match yamlFMatch content with
    | some (g1, _) =>
      match safeLoadFM g1 with
      | some es =>
        let pick := fun k =>
          match yamlGet es (lit k) with
          | some v => if v == [] then [] else v
          | none => []
        { nid := pick "notebridge_id"
          ntime := pick "notebridge_sync_time"
          nsource := pick "notebridge_source"
          nversion :=
            match yamlGet es (lit "notebridge_version") with
            | some v => if v == [] then lit "1" else v
            | none => lit "1" }
      | none => ⟨[], [], [], lit "1"⟩
    | none => ⟨[], [], [], lit "1"⟩
  let nid :=
    if fromYaml.nid == [] then (searchCap mIdLoose content).getD []
    else fromYaml.nid
  let ntime :=
    if fromYaml.ntime == [] then
      match searchCap mTimeLoose content with
      | some t => pyStrip t
      | none => []
    else fromYaml.ntime
  let nsource :=
    if fromYaml.nsource == [] then
      (searchCap (mLooseCls (lit "notebridge_source:") isWordChar) content).getD []
    else fromYaml.nsource
  let nversion :=
    if fromYaml.nversion == [] || fromYaml.nversion == lit "1" then
      (searchCap (mLooseCls (lit "notebridge_version:") isDigitC) content).getD fromYaml.nversion
    else fromYaml.nversion
  ⟨nid, ntime, nsource, nversion⟩

/-!  MD5 (`hashlib.md5(...).hexdigest()` in `calculate_content_hash`),
implemented over the UTF-8 bytes of the content with `Nat` arithmetic
modulo `2^32`. -/

/-- UTF-8 encoding of one code point. -/
def utf8Bytes1 (n : Nat) : List Nat :=
  if n < 128 then [n]
  else if n < 2048 then [192 + n / 64, 128 + n % 64]
  else if n < 65536 then [224 + n / 4096, 128 + (n / 64) % 64, 128 + n % 64]
  else [240 + n / 262144, 128 + (n / 4096) % 64, 128 + (n / 64) % 64, 128 + n % 64]

/-- UTF-8 encoding of a content. -/
def utf8Bytes (s : Str) : List Nat :=
  s.foldr (fun c acc => utf8Bytes1 c.toNat ++ acc) []

/-- 32-bit truncation. -/
def m32 (n : Nat) : Nat := n % 4294967296

/-- 32-bit left rotation. -/
def rotl (x c : Nat) : Nat := m32 (x * 2 ^ c) + x / 2 ^ (32 - c)

/-- 32-bit complement. -/
def not32 (x : Nat) : Nat := 4294967295 - x

/-- The 64 MD5 sine-derived constants. -/
def md5K : List Nat :=
  [3614090360, 3905402710, 606105819, 3250441966, 4118548399, 1200080426,
   2821735955, 4249261313, 1770035416, 2336552879, 4294925233, 2304563134,
   1804603682, 4254626195, 2792965006, 1236535329, 4129170786, 3225465664,
   643717713, 3921069994, 3593408605, 38016083, 3634488961, 3889429448,
   568446438, 3275163606, 4107603335, 1163531501, 2850285829, 4243563512,
   1735328473, 2368359562, 4294588738, 2272392833, 1839030562, 4259657740,
   2763975236, 1272893353, 4139469664, 3200236656, 681279174, 3936430074,
   3572445317, 76029189, 3654602809, 3873151461, 530742520, 3299628645,
   4096336452, 1126891415, 2878612391, 4237533241, 1700485571, 2399980690,
   4293915773, 2240044497, 1873313359, 4264355552, 2734768916, 1309151649,
   4149444226, 3174756917, 718787259, 3951481745]

/-- The 64 MD5 per-round shift amounts. -/
def md5S : List Nat :=
  [7, 12, 17, 22, 7, 12, 17, 22, 7, 12, 17, 22, 7, 12, 17, 22,
   5, 9, 14, 20, 5, 9, 14, 20, 5, 9, 14, 20, 5, 9, 14, 20,
   4, 11, 16, 23, 4, 11, 16, 23, 4, 11, 16, 23, 4, 11, 16, 23,
   6, 10, 15, 21, 6, 10, 15, 21, 6, 10, 15, 21, 6, 10, 15, 21]

/-- One MD5 round. -/
def md5Round (w : List Nat) (st : Nat × Nat × Nat × Nat) (i : Nat) :
    Nat × Nat × Nat × Nat :=
  let a := st.1
  let b := st.2.1
  let c := st.2.2.1
  let d := st.2.2.2
  let fg : Nat × Nat :=
    if i < 16 then (Nat.lor (Nat.land b c) (Nat.land (not32 b) d), i)
    else if i < 32 then (Nat.lor (Nat.land d b) (Nat.land (not32 d) c), (5 * i + 1) % 16)
    else if i < 48 then (Nat.xor (Nat.xor b c) d, (3 * i + 5) % 16)
    else (Nat.xor c (Nat.lor b (not32 d)), (7 * i) % 16)
  let f := m32 (fg.1 + a + md5K.getD i 0 + w.getD fg.2 0)
  (d, m32 (b + rotl f (md5S.getD i 0)), b, c)

/-- Group a 64-byte block into 16 little-endian 32-bit words. -/
def bytesToWords : List Nat → List Nat
  | b0 :: b1 :: b2 :: b3 :: rest =>
    (b0 + 256 * (b1 + 256 * (b2 + 256 * b3))) :: bytesToWords rest
  | _ => []

/-- Compress one 64-byte block into the state. -/
def md5Compress (st : Nat × Nat × Nat × Nat) (block : List Nat) :
    Nat × Nat × Nat × Nat :=
  let w := bytesToWords block
  let r := (List.range 64).foldl (md5Round w) st
  (m32 (st.1 + r.1), m32 (st.2.1 + r.2.1), m32 (st.2.2.1 + r.2.2.1),
   m32 (st.2.2.2 + r.2.2.2))

/-- Fold over the 64-byte blocks of the padded message (the fuel dominates
the number of blocks). -/
def md5Blocks : Nat → List Nat → Nat × Nat × Nat × Nat → Nat × Nat × Nat × Nat
  | 0, _, st => st
  | _ + 1, [], st => st
  | fuel + 1, msg, st => md5Blocks fuel (msg.drop 64) (md5Compress st (msg.take 64))

/-- Little-endian byte encoding of a 64-bit length. -/
def le8 (n : Nat) : List Nat :=
  [n % 256, n / 256 % 256, n / 65536 % 256, n / 16777216 % 256,
   n / 4294967296 % 256, n / 1099511627776 % 256,
   n / 281474976710656 % 256, n / 72057594037927936 % 256]

/-- MD5 padding: `0x80`, zeros to 56 mod 64, then the bit length. -/
def md5Pad (msg : List Nat) : List Nat :=
  msg ++ [128] ++ List.replicate ((119 - msg.length % 64) % 64) 0 ++
  le8 (8 * msg.length % 18446744073709551616)

/-- Lower-case hex digit. -/
def hexDigit (n : Nat) : Char :=
  if n < 10 then Char.ofNat (48 + n) else Char.ofNat (87 + n)

/-- Little-endian hex rendering of one 32-bit state word. -/
def wordHex (w : Nat) : Str :=
  [hexDigit (w % 256 / 16), hexDigit (w % 16),
   hexDigit (w / 256 % 256 / 16), hexDigit (w / 256 % 16),
   hexDigit (w / 65536 % 256 / 16), hexDigit (w / 65536 % 16),
   hexDigit (w / 16777216 % 256 / 16), hexDigit (w / 16777216 % 16)]

/-- `hashlib.md5(s.encode('utf-8')).hexdigest()`. -/
def md5Hex (s : Str) : Str :=
  let msg := md5Pad (utf8Bytes s)
  let st := md5Blocks msg.length msg (1732584193, 4023233417, 2562383102, 271733878)
  wordHex st.1 ++ wordHex st.2.1 ++ wordHex st.2.2.1 ++ wordHex st.2.2.2

/-- `calculate_content_hash` (src/notebridge.py:517): the md5 of the
duplicate-cleaned content.  The cleanup canonicalizes duplicate metadata
records; it does not strip a single record nor any markup. -/
def calculate_content_hash (content : Str) : Str :=
  md5Hex (clean_duplicate_sync_info content)

/-- `is_empty_note` (src/notebridge.py:507): empty, or nothing left after
removing all whitespace (`re.sub(r'\s+', '', content)` removes exactly the
whitespace characters). -/
def is_empty_note (content : Str) : Bool :=
  content.length == 0 || (content.filter (fun c => !(isPyWs c))).length == 0

/-!  `generate_sync_info` (src/notebridge.py:646) and its clock handling.
The fresh UUID and wall clock are nondeterministic inputs and appear as
parameters. -/

/-- A naive Python `datetime`. -/
structure PyDateTime where
  year : Nat
  month : Nat
  day : Nat
  hour : Nat
  minute : Nat
  second : Nat
  micro : Nat
deriving Repr, DecidableEq

/-- Two zero-padded decimal digits. -/
def pad2 (n : Nat) : Str := [Char.ofNat (48 + n / 10 % 10), Char.ofNat (48 + n % 10)]

/-- Four zero-padded decimal digits. -/
def pad4 (n : Nat) : Str :=
  [Char.ofNat (48 + n / 1000 % 10), Char.ofNat (48 + n / 100 % 10),
   Char.ofNat (48 + n / 10 % 10), Char.ofNat (48 + n % 10)]

/-- Six zero-padded decimal digits. -/
def pad6 (n : Nat) : Str :=
  [Char.ofNat (48 + n / 100000 % 10), Char.ofNat (48 + n / 10000 % 10),
   Char.ofNat (48 + n / 1000 % 10), Char.ofNat (48 + n / 100 % 10),
   Char.ofNat (48 + n / 10 % 10), Char.ofNat (48 + n % 10)]

/-- `datetime.isoformat()` for a naive datetime. -/
def isoformatDT (d : PyDateTime) : Str :=
  pad4 d.year ++ lit "-" ++ pad2 d.month ++ lit "-" ++ pad2 d.day ++ lit "T" ++
  pad2 d.hour ++ lit ":" ++ pad2 d.minute ++ lit ":" ++ pad2 d.second ++
  (if d.micro == 0 then [] else lit "." ++ pad6 d.micro)

/-- The clock value `generate_sync_info` embeds: the current time, except
that any year after 2024 is rewritten to 2024
(`current_time.replace(year=2024)`). -/
def generate_sync_info_time (now : PyDateTime) : PyDateTime :=
  if 2024 < now.year then { now with year := 2024 } else now

/-- `generate_sync_info`: fresh UUID (parameter), the clamped clock, the
given source, version `1`. -/
def generate_sync_info (freshId : Str) (now : PyDateTime) (source : Str) : SyncInfo :=
  ⟨freshId, isoformatDT (generate_sync_info_time now), source, lit "1"⟩

/-- Chronological order of datetimes (field-lexicographic). -/
def dtKey (d : PyDateTime) : Nat :=
  ((((d.year * 13 + d.month) * 32 + d.day) * 24 + d.hour) * 60 + d.minute) *
    61000000 + d.second * 1000000 + d.micro

/-- `clean_duplicate_sync_info_keep_oldest` (src/notebridge.py:2401):
despite its name, it unconditionally strips every sync line (and any
emptied frontmatter) and re-embeds a freshly generated record — the
existing `sync_id` is discarded.  `freshId`/`now` are the UUID and clock
of its `generate_sync_info` call. -/
def clean_duplicate_sync_info_keep_oldest (freshId : Str) (now : PyDateTime)
    (content : Str) : Str :=
  let c1 := subRm sIdM content
  let c2 := subRm sTimeM c1
  let c3 := subRm sSrcM c2
  let c4 := subRm sVerM c3
  let c5 := subRm ySubIdM c4
  let c6 := subRm ySubTimeM c5
  let c7 := subRm (yLineM ySrcPfx) c6
  let c8 := subRm (yLineM yVerPfx) c7
  let c9 := subRmML mlEmptyFMM c8
  if hasYamlFM c9 then
    add_sync_info_to_obsidian_content c9 (generate_sync_info freshId now (lit "obsidian"))
  else
    add_sync_info_to_joplin_content c9 (generate_sync_info freshId now (lit "joplin"))

/-- `check_and_fix_sync_headers` (src/notebridge.py:4528), applied by
`update_obsidian_note` to everything it writes: clean when more than one
id occurrence (HTML and YAML counted together) is present. -/
def check_and_fix_sync_headers (content : Str) : Str :=
  if 1 < (findAllCaps mId content ++ findAllCaps yId content).length then
    clean_duplicate_sync_info content
  else content

/-!  Note snapshots.  `user_updated_time` (Side A) and the file mtime
(Side B) are the per-side native modification clocks, in epoch
milliseconds. -/

/-- A Side-A (Joplin) note as fetched by the engine. -/
structure JNote where
  jid : Str
  title : Str
  body : Str
  notebook : Str
  userUpdatedTime : Int
deriving Repr, DecidableEq, Inhabited

/-- A Side-B (Obsidian) note as read by the engine. -/
structure ONote where
  path : Str
  title : Str
  body : Str
  folder : Str
deriving Repr, DecidableEq, Inhabited

/-- `parse_sync_time` (src/notebridge.py:2739 and 5525): empty strings
parse to 0; otherwise `datetime.fromisoformat` of the string (with `Z`
rewritten to `+00:00`) converted to epoch milliseconds — a
timezone-dependent library call, passed in as the `parseIso` parameter —
with parse failures giving 0. -/
def parse_sync_time (parseIso : Str → Option Int) (s : Str) : Int :=
  if s == [] then 0 else (parseIso s).getD 0

/-- A write issued by the executor against one of the two sides. -/
inductive WriteOp where
  | wObs (path : Str) (content : Str)
  | wJop (jid : Str) (content : Str)
deriving Repr, DecidableEq

/-- Outcome classification of one matched pair in the executors. -/
inductive PairAction where
  | skipDup | skipRule | updObs | updJop | conflict | noop
deriving Repr, DecidableEq

/-- Outcome of a matched pair: its classification and the writes of the
decision block. -/
structure PairOut where
  action : PairAction
  writes : List WriteOp
deriving Repr, DecidableEq

/-- The frontmatter sync-line stripping block (src/notebridge.py:5567 and
1466): remove the `notebridge_` lines of the frontmatter, dropping the
whole block when nothing else is left. -/
def stripFMSyncLines (content : Str) : Str :=
  match yamlFMatch content with
  | some (g1, rest) =>
    let kept := (List.splitOn '\n' g1).filter
      (fun l => !(hasPfx (lit "notebridge_") (pyStrip l)))
    if kept.length == 0 then rest
    else lit "---\n" ++ List.intercalate (lit "\n") kept ++ lit "\n---\n\n" ++ rest
  | none => content

/-- Removal matcher for `<!-- notebridge_[^>]+ -->\s*`
(src/notebridge.py:5550). -/
def rmNBM : Str → Option Nat := addTrailWs (mGt (lit "<!-- notebridge_"))

/-- One matched pair in `perform_sync_with_duplicate_handling`
(src/notebridge.py:5472–5593).  Inputs: the duplicate-report id/path
sets, the direction switches (`SYNC_DIRECTION` membership tests), the
configured one-way rule predicates (`fnmatch` over the pattern lists),
the timestamp parser, the pair, and the mtime value computed for the
Obsidian file.  Writes through `update_obsidian_note` pass through
`check_and_fix_sync_headers`.  All writes are taken as succeeding. -/
def pairStepDup (dupJ dupO : List Str) (dirJO dirOJ : Bool)
    (ruleObsOnly ruleJopOnly : Str → Bool) (parseIso : Str → Option Int)
    (j : JNote) (o : ONote) (omtime : Int) : PairOut :=
  if dupJ.contains j.jid || dupO.contains o.path then ⟨.skipDup, []⟩
  else
    let canJO := dirJO && !(ruleObsOnly j.notebook)
    let canOJ := dirOJ && !(ruleJopOnly o.folder)
    if !canJO && !canOJ then ⟨.skipRule, []⟩
    else
      let jinfo := extract_sync_info_from_joplin j.body
      let oinfo := extract_sync_info_from_obsidian o.body
      let jch := decide (parse_sync_time parseIso jinfo.ntime < j.userUpdatedTime)
      let och := decide (parse_sync_time parseIso oinfo.ntime < omtime)
      if jch && !och && canJO then
        let oc := add_sync_info_to_obsidian_content (subRm rmNBM j.body) jinfo
        ⟨.updObs,
          [.wObs o.path (check_and_fix_sync_headers oc)] ++
          (if jinfo.nid == []
           then [.wJop j.jid (add_sync_info_to_joplin_content j.body jinfo)]
           else [])⟩
      else if och && !jch && canOJ then
        let jc := add_sync_info_to_joplin_content (stripFMSyncLines o.body) oinfo
        ⟨.updJop,
          [.wJop j.jid jc] ++
          (if oinfo.nid == []
           then [.wObs o.path (check_and_fix_sync_headers
                   (add_sync_info_to_obsidian_content o.body oinfo))]
           else [])⟩
      else if jch && och then ⟨.conflict, []⟩
      else ⟨.noop, []⟩

/-- Outcome of a matched pair in `perform_sync_with_skip`: the metadata
backfill writes of the `needs_sync_info_update` block precede the
decision block. -/
structure SkipPairOut where
  action : PairAction
  backfillWrites : List WriteOp
  writes : List WriteOp
deriving Repr, DecidableEq

/-- One matched pair in `perform_sync_with_skip`
(src/notebridge.py:2749–2859).  For a content-matched pair
(`needsUpd = true`) with `nbid` nonempty, a side missing its id first
receives the other side's current metadata verbatim (the `.get` defaults
of the source are dead: the extractors always populate every key); the
decision block then compares each side's clock with its recorded sync
time and copies the changed side's content to the other, through
`check_and_fix_sync_headers` for the Obsidian side. -/
def pairStepSkip (dirJO dirOJ : Bool) (parseIso : Str → Option Int)
    (needsUpd : Bool) (nbid : Str) (j : JNote) (o : ONote) (omtime : Int) :
    SkipPairOut :=
  let jinfo0 := extract_sync_info_from_joplin j.body
  let oinfo0 := extract_sync_info_from_obsidian o.body
  let backO := needsUpd && !(nbid == []) && oinfo0.nid == []
  let oAdd : SyncInfo := ⟨nbid, jinfo0.ntime, jinfo0.nsource, jinfo0.nversion⟩
  let oinfo := if backO then oAdd else oinfo0
  let oContent := if backO
    then check_and_fix_sync_headers (add_sync_info_to_obsidian_content o.body oAdd)
    else o.body
  let backJ := needsUpd && !(nbid == []) && jinfo0.nid == []
  let jAdd : SyncInfo := ⟨nbid, oinfo.ntime, oinfo.nsource, oinfo.nversion⟩
  let jinfo := if backJ then jAdd else jinfo0
  let jContent := if backJ
    then add_sync_info_to_joplin_content j.body jAdd
    else j.body
  let bws := (if backO then [WriteOp.wObs o.path oContent] else []) ++
             (if backJ then [WriteOp.wJop j.jid jContent] else [])
  let jch := decide (parse_sync_time parseIso jinfo.ntime < j.userUpdatedTime)
  let och := decide (parse_sync_time parseIso oinfo.ntime < omtime)
  if jch && !och && dirJO then
    ⟨.updObs, bws, [.wObs o.path (check_and_fix_sync_headers jContent)]⟩
  else if och && !jch && dirOJ then
    ⟨.updJop, bws, [.wJop j.jid oContent]⟩
  else if jch && och then ⟨.conflict, bws, []⟩
  else ⟨.noop, bws, []⟩

/-!  The content-hash fallback of `smart_match_notes`
(src/notebridge.py:789–826). -/

/-- Python dict assignment on an insertion-ordered association list
(assigning to a present key replaces the value in place). -/
def dictPut (m : List (Str × JNote)) (k : Str) (v : JNote) : List (Str × JNote) :=
  if (m.find? (fun e => e.1 == k)).isSome then
    m.map (fun e => if e.1 == k then (k, v) else e)
  else m ++ [(k, v)]

/-- Python dict lookup. -/
def dictGet (m : List (Str × JNote)) (k : Str) : Option JNote :=
  (m.find? (fun e => e.1 == k)).map (fun e => e.2)

/-- Set removal (`set.discard`). -/
def setDiscard (l : List Str) (x : Str) : List Str := l.filter (fun y => !(y == x))

/-- The Joplin hash map: eligible notes (still unmatched, nonempty) keyed
by content hash, later notes overwriting earlier ones with the same
hash. -/
def buildJHashMap (jnotes : List JNote) (unmJ : List Str) : List (Str × JNote) :=
  jnotes.foldl (fun m n =>
    if unmJ.contains n.jid && !(is_empty_note n.body) then
      dictPut m (calculate_content_hash n.body) n
    else m) []

/-- A content-hash matched pair: the two notes, the assigned sync id, and
the backfill flag. -/
structure CHPair where
  jnote : JNote
  onote : ONote
  nbid : Str
  needsUpd : Bool
deriving Repr, DecidableEq

/-- The Obsidian pass of the content-hash fallback: each eligible note
whose hash is in the Joplin map forms a pair; the assigned id reuses the
Joplin side's id, else the Obsidian side's, else the next fresh UUID
(`freshIds k`, the k-th `generate_sync_info` id); both local identifiers
are discarded from the unmatched sets. -/
def contentMatchGo (jmap : List (Str × JNote)) (freshIds : Nat → Str) :
    List ONote → List Str → List Str → Nat → List CHPair × List Str × List Str
  | [], unmJ, unmO, _ => ([], unmJ, unmO)
  | o :: os, unmJ, unmO, k =>
    if unmO.contains o.path && !(is_empty_note o.body) then
      match dictGet jmap (calculate_content_hash o.body) with
      | some jn =>
        let ji := extract_sync_info_from_joplin jn.body
        let oi := extract_sync_info_from_obsidian o.body
        let nbid := if !(ji.nid == []) then ji.nid
          else if !(oi.nid == []) then oi.nid
          else freshIds k
        let fresh : Nat := if ji.nid == [] && oi.nid == [] then 1 else 0
        let rest := contentMatchGo jmap freshIds os (setDiscard unmJ jn.jid)
          (setDiscard unmO o.path) (k + fresh)
        (⟨jn, o, nbid, !((!(ji.nid == [])) && (!(oi.nid == [])))⟩ :: rest.1,
         rest.2.1, rest.2.2)
      | none => contentMatchGo jmap freshIds os unmJ unmO k
    else contentMatchGo jmap freshIds os unmJ unmO k

/-- The whole content-hash fallback phase. -/
def content_hash_match (jnotes : List JNote) (onotes : List ONote)
    (unmJ unmO : List Str) (freshIds : Nat → Str) :
    List CHPair × List Str × List Str :=
  contentMatchGo (buildJHashMap jnotes unmJ) freshIds onotes unmJ unmO 0

/-!  The Content Normalizer as the specification words it (§4.2), used
only as the spec side of the refinement comparison for the content-hash
fallback claim. -/

/-- Replace each match by its capture (capture-substitution driver). -/
def subCapGo (M : Str → Option (Str × Nat)) : Str → Nat → Str
  | [], _ => []
  | _ :: cs, skip + 1 => subCapGo M cs skip
  | c :: cs, 0 =>
    match M (c :: cs) with
    | some (cap, k) => cap ++ subCapGo M cs (k - 1)
    | none => c :: subCapGo M cs 0

/-- Capture substitution. -/
def subCap (M : Str → Option (Str × Nat)) (s : Str) : Str := subCapGo M s 0

/-- Offset just past the next `-->`, if any. -/
def arrowEndLen : Str → Option Nat
  | [] => none
  | c :: cs =>
    if hasPfx (lit "-->") (c :: cs) then some 3
    else (arrowEndLen cs).map (fun n => n + 1)

/-- Matcher for a whole `<!-- ... -->` comment. -/
def specCommentM (s : Str) : Option Nat :=
  if hasPfx (lit "<!--") s then
    match arrowEndLen (s.drop 4) with
    | some k => some (4 + k)
    | none => none
  else none

/-- Remove `<!-- ... -->` comments. -/
def rmHtmlComments (s : Str) : Str := subRm specCommentM s

/-- Matcher for `[label](url)` or `![alt](url)`, capturing the label. -/
def linkM (s : Str) : Option (Str × Nat) :=
  let bang : Nat := if hasPfx (lit "![") s then 1 else 0
  let s0 := s.drop bang
  if hasPfx (lit "[") s0 then
    let label := (s0.drop 1).takeWhile (fun d => !(d == ']'))
    let rest := s0.drop (1 + label.length)
    if hasPfx (lit "](") rest then
      let url := (rest.drop 2).takeWhile (fun d => !(d == ')'))
      if hasPfx (lit ")") (rest.drop (2 + url.length)) then
        some (label, bang + 1 + label.length + 2 + url.length + 1)
      else none
    else none
  else none

/-- Replace `[label](url)` and `![alt](url)` by the label. -/
def rmLinks (s : Str) : Str := subCap linkM s

/-- Markdown marker characters (emphasis, heading, list, table, quote). -/
def isMarkupChar (c : Char) : Bool :=
  c.toNat == 42 || c.toNat == 95 || c.toNat == 96 || c.toNat == 126 ||
  c.toNat == 35 || c.toNat == 124 || c.toNat == 62 || c.toNat == 43

/-- Collapse whitespace runs to single spaces and strip the ends. -/
def collapseWs (s : Str) : Str :=
  let rec go : Str → Bool → Str
    | [], _ => []
    | c :: cs, pend =>
      if isPyWs c then go cs true
      else (if pend then [' '] else []) ++ c :: go cs false
  match s.dropWhile isPyWs with
  | [] => []
  | s1 => go s1 false

/-- Modelled from the spec: `normalize(body)` of §4.2 — "Removes:
embedded metadata blocks, markup emphasis/heading/list/table markers,
hyperlink/image syntax (replacing a link with its visible label), and
collapses whitespace."  This is the spec-side definition for the
refinement comparison of the content-hash fallback; the code's own
normalizer for this purpose is `clean_duplicate_sync_info` inside
`calculate_content_hash`. -/
def specNormalize (body : Str) : Str :=
  let b1 := match yamlFMatch body with
    | some (_, rest) => rest
    | none => body
  let b2 := rmHtmlComments b1
  let b3 := rmLinks b2
  let b4 := b3.filter (fun c => !(isMarkupChar c))
  collapseWs b4

/-!  File-system and persisted-state models for the deletion, move and
create paths.  The Obsidian vault is a flat map from paths to contents
(directory creation has no observable effect on it); paths are joined
with `/`. -/

/-- Generic insertion-ordered association update (Python dict
assignment). -/
def aPut {α : Type} (m : List (Str × α)) (k : Str) (v : α) : List (Str × α) :=
  if (m.find? (fun e => e.1 == k)).isSome then
    m.map (fun e => if e.1 == k then (k, v) else e)
  else m ++ [(k, v)]

/-- Generic association lookup (Python dict `get`). -/
def aGet {α : Type} (m : List (Str × α)) (k : Str) : Option α :=
  (m.find? (fun e => e.1 == k)).map (fun e => e.2)

/-- Whether a path exists in the vault. -/
def fsExists (fs : List (Str × Str)) (p : Str) : Bool :=
  (fs.find? (fun e => e.1 == p)).isSome

/-- Read a file. -/
def fsRead (fs : List (Str × Str)) (p : Str) : Option Str := aGet fs p

/-- `os.rename`: the entry keeps its content under the new path. -/
def fsRename (fs : List (Str × Str)) (old new : Str) : List (Str × Str) :=
  fs.map (fun e => if e.1 == old then (new, e.2) else e)

/-- Index of the last occurrence of a character. -/
def lastIdxOf (c : Char) : Str → Option Nat
  | [] => none
  | x :: xs =>
    match lastIdxOf c xs with
    | some i => some (i + 1)
    | none => if x == c then some 0 else none

/-- `os.path.basename` (with `/` as separator). -/
def basename (p : Str) : Str :=
  match lastIdxOf '/' p with
  | some i => p.drop (i + 1)
  | none => p

/-- `os.path.splitext`: split at the last dot of the final path segment,
unless every character of the segment before it is a dot. -/
def splitExt (p : Str) : Str × Str :=
  let start := match lastIdxOf '/' p with
    | some i => i + 1
    | none => 0
  match lastIdxOf '.' p with
  | some d =>
    if start ≤ d &&
       ((p.drop start).take (d - start)).any (fun c => !(c == '.')) then
      (p.take d, p.drop d)
    else (p, [])
  | none => (p, [])

/-- Decimal digit rendering helper (fuel dominates the digit count). -/
def natDigitsGo : Nat → Nat → Str
  | 0, _ => []
  | f + 1, n =>
    if n == 0 then [] else natDigitsGo f (n / 10) ++ [Char.ofNat (48 + n % 10)]

/-- Python `str(n)` for a natural number. -/
def natDigits (n : Nat) : Str := if n == 0 then lit "0" else natDigitsGo n n

/-- The suffixed candidate path `name_k + ext` of `get_unique_filename`. -/
def uniqueCand (name ext : Str) (k : Nat) : Str :=
  name ++ lit "_" ++ natDigits k ++ ext

/-- The counter loop of `get_unique_filename`; the fuel passed by the
entry point exceeds the number of occupied candidates, so the loop always
returns a free path (proved below). -/
def uniqueGo (fs : List (Str × Str)) (name ext : Str) : Nat → Nat → Str
  | 0, k => uniqueCand name ext k
  | fuel + 1, k =>
    if fsExists fs (uniqueCand name ext k) then uniqueGo fs name ext fuel (k + 1)
    else uniqueCand name ext k

/-- `get_unique_filename` (src/notebridge.py:1023): the path itself when
free, otherwise the first free numeric-suffixed variant. -/
def get_unique_filename (fs : List (Str × Str)) (base : Str) : Str :=
  if fsExists fs base then
    let ne := splitExt base
    uniqueGo fs ne.1 ne.2 (fs.length + 1) 1
  else base

/-- The character set the sanitizer replaces by `_` (Windows-invalid and
listed punctuation, ASCII and fullwidth). -/
def invalidCodes : List Nat :=
  [60, 62, 58, 34, 124, 63, 42, 92, 47, 123, 125, 91, 93, 40, 41, 39, 96,
   126, 33, 64, 35, 36, 37, 94, 38, 61, 59, 44, 65292, 12290, 12289, 65307,
   65306, 8220, 8221, 8216, 8217, 65288, 65289, 12304, 12305, 12298, 12299]

/-- Model of Python's Unicode `\w` at the sanitizer's inputs: ASCII word
characters, and every code point above ASCII (the titles involved use CJK
letters there; the non-word code points above ASCII that the sanitizer
cares about are already replaced by the explicit invalid set). -/
def isWordModel (c : Char) : Bool := isWordChar c || 128 ≤ c.toNat

/-- Run-tracking core of the `[\s_]+` collapse. -/
def collapseWsUnderscoreGo : Str → Bool → Str
  | [], _ => []
  | c :: cs, inRun =>
    if isPyWs c || c == '_' then
      (if inRun then [] else ['_']) ++ collapseWsUnderscoreGo cs true
    else c :: collapseWsUnderscoreGo cs false

/-- Collapse `[\s_]+` runs to a single `_`. -/
def collapseWsUnderscore (s : Str) : Str := collapseWsUnderscoreGo s false

/-- Characters stripped from both ends (`strip(' ._')`). -/
def isStripSet (c : Char) : Bool := c == ' ' || c == '.' || c == '_'

/-- `sanitize_filename` (src/notebridge.py:985). -/
def sanitize_filename (name : Str) (maxLength : Nat) : Str :=
  let s1 := name.map (fun c =>
    if c.toNat == 9 || c.toNat == 10 || c.toNat == 13 then ' ' else c)
  let s2 := s1.map (fun c => if invalidCodes.contains c.toNat then '_' else c)
  let s3 := s2.map (fun c =>
    if isWordModel c || isPyWs c || c == '-' || c == '_' || c == '.' then c
    else '_')
  let s4 := collapseWsUnderscore s3
  let s5 := ((s4.dropWhile isStripSet).reverse.dropWhile isStripSet).reverse
  let s6 := if s5.length == 0 then lit "untitled" else s5
  if maxLength < s6.length then
    let ne := splitExt s6
    if ne.2.length < maxLength then ne.1.take (maxLength - ne.2.length) ++ ne.2
    else lit "untitled" ++ ne.2
  else s6

/-- Sanitize each component of a folder path (`\\` normalised to `/`),
keeping the hierarchy (used by the move and create paths). -/
def sanitizePathParts (folder : Str) : Str :=
  let cleaned := folder.map (fun c => if c.toNat == 92 then '/' else c)
  List.intercalate (lit "/")
    (((List.splitOn '/' cleaned).filter (fun part => !(part == []))).map
      (fun part => sanitize_filename part 100))

/-- `safe_delete_obsidian_file` (src/notebridge.py:1947): move the file
into the `已删除` holding directory under a fresh name; returns the new
vault and the trash path on success. -/
def safe_delete_obsidian_file (vault : Str) (fs : List (Str × Str)) (fp : Str) :
    List (Str × Str) × Option Str :=
  if fsExists fs fp then
    let target := get_unique_filename fs (vault ++ lit "/已删除/" ++ basename fp)
    (fsRename fs fp target, some target)
  else (fs, none)

/-- `safe_delete_joplin_note` (src/notebridge.py:1997): the note is moved
to the `已删除` notebook (its parent is rewritten); nothing is erased. -/
def safe_delete_joplin_note (notes : List JNote) (noteId : Str) : List JNote :=
  notes.map (fun n => if n.jid == noteId then { n with notebook := lit "已删除" } else n)

/-- The persisted sync state (`.sync_cache.json`): per `notebridge_id`,
the saved per-side dictionaries. -/
structure SyncState where
  joplinNotes : List (Str × List (Str × Str))
  obsidianNotes : List (Str × List (Str × Str))
deriving Repr, DecidableEq

/-- The Joplin entry `save_sync_state` records (src/notebridge.py:1659):
exactly the keys `id`, `title`, `notebook`, `path`. -/
def save_sync_state_jentry (n : JNote) : List (Str × Str) :=
  [(lit "id", n.jid), (lit "title", n.title), (lit "notebook", n.notebook),
   (lit "path", n.notebook ++ lit "/" ++ n.title)]

/-- The Obsidian entry `save_sync_state` records (src/notebridge.py:1670):
exactly the keys `path`, `title`, `folder`. -/
def save_sync_state_oentry (n : ONote) : List (Str × Str) :=
  [(lit "path", n.path), (lit "title", n.title), (lit "folder", n.folder)]

/-- `save_sync_state` (src/notebridge.py:1645): record every note whose
body yields a `notebridge_id`. -/
def save_sync_state (js : List JNote) (os : List ONote) : SyncState :=
  { joplinNotes := js.foldl (fun m n =>
      let i := (extract_sync_info_from_joplin n.body).nid
      if i == [] then m else aPut m i (save_sync_state_jentry n)) []
    obsidianNotes := os.foldl (fun m n =>
      let i := (extract_sync_info_from_obsidian n.body).nid
      if i == [] then m else aPut m i (save_sync_state_oentry n)) [] }

/-- `detect_deletions` (src/notebridge.py:1694): previous-state ids
missing from the current Joplin snapshot become `joplin_deletions` (the
saved entry verbatim); previous-state ids missing from the current
Obsidian snapshot become `obsidian_deletions` only when the id still
resolves to a current Joplin note, whose local id is added under the
`id` key. -/
def detect_deletions (prev : Option SyncState) (curJ : List JNote)
    (curO : List ONote) : List (List (Str × Str)) × List (List (Str × Str)) :=
  match prev with
  | none => ([], [])
  | some st =>
    let curJIds := curJ.filterMap (fun n =>
      let i := (extract_sync_info_from_joplin n.body).nid
      if i == [] then none else some i)
    let jIdMap : List (Str × Str) := curJ.foldl (fun m n =>
      let i := (extract_sync_info_from_joplin n.body).nid
      if i == [] then m else aPut m i n.jid) []
    let curOIds := curO.filterMap (fun n =>
      let i := (extract_sync_info_from_obsidian n.body).nid
      if i == [] then none else some i)
    ((st.joplinNotes.filter (fun e => !(curJIds.contains e.1))).map (fun e => e.2),
     st.obsidianNotes.filterMap (fun e =>
       if curOIds.contains e.1 then none
       else
         match aGet jIdMap e.1 with
         | some jid => some (e.2 ++ [(lit "id", jid)])
         | none => none))

/-- The `obsidian_id_to_path` map built by `perform_deletion_sync`
(src/notebridge.py:2036) from the current Obsidian notes. -/
def buildObsIdToPath (curO : List ONote) : List (Str × Str) :=
  curO.foldl (fun m n =>
    let i := (extract_sync_info_from_obsidian n.body).nid
    if i == [] then m else aPut m i n.path) []

/-- String association lookup (alias of `aGet` at the item type). -/
def assocGetStr (m : List (Str × Str)) (k : Str) : Option Str := aGet m k

/-- The notebook path joining of the deletion fallback
(src/notebridge.py:2062): every `/`-separated part sanitized (empty parts
kept, unlike the move path). -/
def sanitizeNotebookParts (nb : Str) : Str :=
  let cleaned := nb.map (fun c => if c.toNat == 92 then '/' else c)
  List.intercalate (lit "/")
    ((List.splitOn '/' cleaned).map (fun part => sanitize_filename part 100))

/-- One `joplin_deletions` item in `perform_deletion_sync`
(src/notebridge.py:2043–2074): resolve by the item's `notebridge_id` key
when present and mapped, otherwise fall back to the path reconstructed
from the sanitized saved title and notebook; delete softly when the file
exists.  Returns the new vault and whether a delete happened. -/
def obsDelItemStep (vault : Str) (fs : List (Str × Str))
    (obsIdToPath : List (Str × Str)) (item : List (Str × Str)) :
    List (Str × Str) × Bool :=
  let nbid := (assocGetStr item (lit "notebridge_id")).getD []
  if !(nbid == []) && (aGet obsIdToPath nbid).isSome then
    match aGet obsIdToPath nbid with
    | some fp =>
      if fsExists fs fp then
        let r := safe_delete_obsidian_file vault fs fp
        (r.1, r.2.isSome)
      else (fs, false)
    | none => (fs, false)
  else
    let safe_title := sanitize_filename ((assocGetStr item (lit "title")).getD []) 100
    let nb := (assocGetStr item (lit "notebook")).getD []
    let fp := if nb == lit "未分类" then vault ++ lit "/" ++ safe_title ++ lit ".md"
      else vault ++ lit "/" ++ sanitizeNotebookParts nb ++ lit "/" ++ safe_title ++ lit ".md"
    if fsExists fs fp then
      let r := safe_delete_obsidian_file vault fs fp
      (r.1, r.2.isSome)
    else (fs, false)

/-- The target-path selection of `sync_joplin_to_obsidian`
(src/notebridge.py:1185–1208): an occupied target is overwritten when its
extractable id equals the note's sync id; otherwise the `_{first 8 id
characters}` variant is used without an existence check (the read-failure
fallback takes a checked unique name). -/
def sync_joplin_to_obsidian_target (fs : List (Str × Str)) (file_path : Str)
    (sid : Str) : Str :=
  if fsExists fs file_path then
    match fsRead fs file_path with
    | some existing =>
      if (extract_sync_info_from_obsidian existing).nid == sid then file_path
      else
        let ne := splitExt file_path
        ne.1 ++ lit "_" ++ sid.take 8 ++ ne.2
    | none => get_unique_filename fs file_path
  else file_path

/-- The target-path selection of `move_obsidian_file`
(src/notebridge.py:1902–1926): the sanitized destination folder plus the
original file name, made unique. -/
def move_obsidian_file_target (vault : Str) (fs : List (Str × Str))
    (old_path new_folder : Str) : Str :=
  let fname := basename old_path
  let np := if new_folder == lit "根目录" then vault ++ lit "/" ++ fname
    else vault ++ lit "/" ++ sanitizePathParts new_folder ++ lit "/" ++ fname
  get_unique_filename fs np

/-!  Scan reasoning infrastructure: `InertP M s r` states that no match of
`M` starts at any position inside `s` when `s` is followed by `r`; the
scan drivers then pass over `s` unchanged. -/

/-- No match starts inside `s` (followed by `r`). -/
def InertP {α : Type} (M : Str → Option α) : Str → Str → Prop
  | [], _ => True
  | c :: s, r => M ((c :: s) ++ r) = none ∧ InertP M s r

theorem inertP_nil {α : Type} {M : Str → Option α} {r : Str} : InertP M [] r :=
  True.intro

theorem inertP_cons {α : Type} {M : Str → Option α} {c : Char} {s r : Str}
    (h1 : M ((c :: s) ++ r) = none) (h2 : InertP M s r) : InertP M (c :: s) r :=
  ⟨h1, h2⟩

theorem inertP_append {α : Type} {M : Str → Option α} {a b r : Str}
    (ha : InertP M a (b ++ r)) (hb : InertP M b r) : InertP M (a ++ b) r := by
  induction a with
  | nil => simpa using hb
  | cons c a ih =>
    obtain ⟨h1, h2⟩ := ha
    exact ⟨by simpa using h1, ih h2⟩

/-- A run of characters each of which blocks the matcher is inert. -/
theorem inertP_run {α : Type} {M : Str → Option α} {p : Char → Bool}
    (hb : ∀ c s, p c = true → M (c :: s) = none) :
    ∀ {v : Str}, v.all p = true → ∀ {r : Str}, InertP M v r := by
  intro v
  induction v with
  | nil => intro _ r; exact inertP_nil
  | cons c v ih =>
    intro hv r
    simp only [List.all_cons, Bool.and_eq_true] at hv
    exact ⟨hb c _ hv.1, ih hv.2⟩

theorem hasPfx_refl_append (p r : Str) : hasPfx p (p ++ r) = true := by
  induction p with
  | nil => rfl
  | cons c p ih => simp [hasPfx, ih]

theorem hasPfx_of_append {p1 p2 s : Str} (h : hasPfx (p1 ++ p2) s = true) :
    hasPfx p1 s = true := by
  induction p1 generalizing s with
  | nil => rfl
  | cons c p ih =>
    cases s with
    | nil => simp [hasPfx] at h
    | cons d s =>
      simp only [List.cons_append, hasPfx, Bool.and_eq_true] at h ⊢
      exact ⟨h.1, ih h.2⟩

theorem containsSub_suffix {p b : Str} (hb : containsSub p b = false) :
    ∀ {s1 s2 : Str}, b = s1 ++ s2 → hasPfx p s2 = false := by
  induction b with
  | nil =>
    intro s1 s2 h
    have : s2 = [] := by
      rcases List.append_eq_nil.mp h.symm with ⟨_, h2⟩; exact h2
    subst this
    simpa [containsSub] using hb
  | cons c b ih =>
    intro s1 s2 h
    simp only [containsSub, Bool.or_eq_false_iff] at hb
    cases s1 with
    | nil =>
      simp only [List.nil_append] at h
      subst h
      exact hb.1
    | cons d s1 =>
      simp only [List.cons_append, List.cons.injEq] at h
      exact ih hb.2 h.2

/-- A matcher that needs a literal prefix is inert on a final segment not
containing that literal. -/
theorem inertP_of_not_contains {α : Type} {M : Str → Option α} {p : Str}
    (hM : ∀ s, hasPfx p s = false → M s = none)
    {b : Str} (hb : containsSub p b = false) : InertP M b [] := by
  induction b with
  | nil => exact inertP_nil
  | cons c b ih =>
    simp only [containsSub, Bool.or_eq_false_iff] at hb
    refine ⟨?_, ih hb.2⟩
    rw [List.append_nil]
    exact hM _ hb.1

theorem findAllGo_cons_none {M : Str → Option (Str × Nat)} {c : Char} {cs : Str}
    (h : M (c :: cs) = none) : findAllGo M (c :: cs) 0 = findAllGo M cs 0 := by
  simp [findAllGo, h]

theorem searchCap_cons_none {M : Str → Option (Str × Nat)} {c : Char} {cs : Str}
    (h : M (c :: cs) = none) : searchCap M (c :: cs) = searchCap M cs := by
  simp [searchCap, h]

theorem subRmGo_cons_none {M : Str → Option Nat} {c : Char} {cs : Str}
    (h : M (c :: cs) = none) : subRmGo M (c :: cs) 0 = c :: subRmGo M cs 0 := by
  simp [subRmGo, h]

theorem subReplGo_cons_none {M : Str → Option Nat} {repl : Str} {c : Char} {cs : Str}
    (h : M (c :: cs) = none) :
    subReplGo M repl (c :: cs) 0 = c :: subReplGo M repl cs 0 := by
  simp [subReplGo, h]

theorem findAllGo_skipAll {M : Str → Option (Str × Nat)} :
    ∀ (n : Nat) (cs : Str), findAllGo M cs n = findAllGo M (cs.drop n) 0 := by
  intro n
  induction n with
  | zero => intro cs; rfl
  | succ n ih =>
    intro cs
    cases cs with
    | nil => simp [findAllGo]
    | cons c cs => simpa [findAllGo] using ih cs

theorem findAllGo_append_inert {M : Str → Option (Str × Nat)} {s r : Str}
    (h : InertP M s r) : findAllGo M (s ++ r) 0 = findAllGo M r 0 := by
  induction s with
  | nil => rfl
  | cons c s ih =>
    obtain ⟨h1, h2⟩ := h
    have h1' : M (c :: (s ++ r)) = none := by simpa using h1
    rw [List.cons_append, findAllGo_cons_none h1']
    exact ih h2

theorem findAllGo_match {M : Str → Option (Str × Nat)} {c : Char} {cs cap : Str}
    {k : Nat} (h : M (c :: cs) = some (cap, k)) :
    findAllGo M (c :: cs) 0 = cap :: findAllGo M (cs.drop (k - 1)) 0 := by
  simp only [findAllGo, h]
  rw [findAllGo_skipAll]

theorem searchCap_append_inert {M : Str → Option (Str × Nat)} {s r : Str}
    (h : InertP M s r) : searchCap M (s ++ r) = searchCap M r := by
  induction s with
  | nil => rfl
  | cons c s ih =>
    obtain ⟨h1, h2⟩ := h
    have h1' : M (c :: (s ++ r)) = none := by simpa using h1
    rw [List.cons_append, searchCap_cons_none h1']
    exact ih h2

theorem searchCap_match {M : Str → Option (Str × Nat)} {c : Char} {cs cap : Str}
    {k : Nat} (h : M (c :: cs) = some (cap, k)) :
    searchCap M (c :: cs) = some cap := by
  simp [searchCap, h]

theorem subRmGo_skipAll {M : Str → Option Nat} :
    ∀ (n : Nat) (cs : Str), subRmGo M cs n = subRmGo M (cs.drop n) 0 := by
  intro n
  induction n with
  | zero => intro cs; rfl
  | succ n ih =>
    intro cs
    cases cs with
    | nil => simp [subRmGo]
    | cons c cs => simpa [subRmGo] using ih cs

theorem subRmGo_append_inert {M : Str → Option Nat} {s r : Str}
    (h : InertP M s r) : subRmGo M (s ++ r) 0 = s ++ subRmGo M r 0 := by
  induction s with
  | nil => rfl
  | cons c s ih =>
    obtain ⟨h1, h2⟩ := h
    have h1' : M (c :: (s ++ r)) = none := by simpa using h1
    rw [List.cons_append, subRmGo_cons_none h1', ih h2]
    rfl

theorem subRmGo_match {M : Str → Option Nat} {c : Char} {cs : Str} {k : Nat}
    (h : M (c :: cs) = some k) :
    subRmGo M (c :: cs) 0 = subRmGo M (cs.drop (k - 1)) 0 := by
  simp only [subRmGo, h]
  rw [subRmGo_skipAll]

theorem subReplGo_skipAll {M : Str → Option Nat} {repl : Str} :
    ∀ (n : Nat) (cs : Str), subReplGo M repl cs n = subReplGo M repl (cs.drop n) 0 := by
  intro n
  induction n with
  | zero => intro cs; rfl
  | succ n ih =>
    intro cs
    cases cs with
    | nil => simp [subReplGo]
    | cons c cs => simpa [subReplGo] using ih cs

theorem subReplGo_append_inert {M : Str → Option Nat} {repl s r : Str}
    (h : InertP M s r) : subReplGo M repl (s ++ r) 0 = s ++ subReplGo M repl r 0 := by
  induction s with
  | nil => rfl
  | cons c s ih =>
    obtain ⟨h1, h2⟩ := h
    have h1' : M (c :: (s ++ r)) = none := by simpa using h1
    rw [List.cons_append, subReplGo_cons_none h1', ih h2]
    rfl

theorem subRmMLGo_inert {M : Str → Option Nat} :
    ∀ {s : Str}, InertP M s [] → ∀ (ls : Bool), subRmMLGo M s 0 ls = s := by
  intro s
  induction s with
  | nil => intro _ ls; rfl
  | cons c s ih =>
    intro h ls
    obtain ⟨h1, h2⟩ := h
    rw [List.append_nil] at h1
    cases ls <;> simp only [subRmMLGo, h1, if_true, if_false] <;>
      rw [ih h2] <;> simp

theorem subRmML_inert {M : Str → Option Nat} {s : Str} (h : InertP M s []) :
    subRmML M s = s := subRmMLGo_inert h true

/-!  List helpers for the semi-concrete computations. -/

theorem takeWhile_append_all {p : Char → Bool} {v : Str} (r : Str)
    (hv : v.all p = true) : (v ++ r).takeWhile p = v ++ r.takeWhile p := by
  induction v with
  | nil => rfl
  | cons c v ih =>
    simp only [List.all_cons, Bool.and_eq_true] at hv
    simp [List.takeWhile, hv.1, ih hv.2]

theorem dropWhile_append_all {p : Char → Bool} {v : Str} (r : Str)
    (hv : v.all p = true) : (v ++ r).dropWhile p = r.dropWhile p := by
  induction v with
  | nil => rfl
  | cons c v ih =>
    simp only [List.all_cons, Bool.and_eq_true] at hv
    simp [List.dropWhile, hv.1, ih hv.2]

theorem drop_len_append (a b : Str) : (a ++ b).drop a.length = b := by
  simp

theorem drop_len_add_append (a b : Str) (n : Nat) :
    (a ++ b).drop (a.length + n) = b.drop n := by
  rw [← List.drop_drop, drop_len_append]

/-!  Validity predicates for the universal codec theorems, and the
matcher-level lemmas the scans need. -/

/-- A decidable certificate that a pattern has no match anywhere in a
final segment. -/
def noMatchIn {α : Type} (M : Str → Option α) : Str → Bool
  | [] => true
  | c :: cs => (M (c :: cs)).isNone && noMatchIn M cs

theorem inertP_of_noMatchIn {α : Type} {M : Str → Option α} :
    ∀ {b : Str}, noMatchIn M b = true → InertP M b [] := by
  intro b
  induction b with
  | nil => intro _; exact inertP_nil
  | cons c cs ih =>
    intro h
    simp only [noMatchIn, Bool.and_eq_true, Option.isNone_iff_eq_none] at h
    exact ⟨by rw [List.append_nil]; exact h.1, ih h.2⟩

/-- A well-formed embedded id: nonempty, over `[a-f0-9-]`. -/
def validId (v : Str) : Bool := 0 < v.length && v.all isHexDash

/-- Characters of an ISO-format timestamp. -/
def isTimeChar (c : Char) : Bool :=
  isDigitC c || c == '-' || c == ':' || c == 'T' || c == '.' || c == '+'

/-- A well-formed embedded sync time: nonempty, over timestamp
characters. -/
def validTime (v : Str) : Bool := 0 < v.length && v.all isTimeChar

/-- A body free of codec-relevant material: no `notebridge_` marker, no
comment delimiters, no `---` run, and no blank-run collapse match. -/
def cleanBody (b : Str) : Bool :=
  !(containsSub (lit "notebridge_") b) && !(containsSub (lit "<!--") b) &&
  !(containsSub (lit "-->") b) && !(containsSub (lit "---") b) &&
  noMatchIn collapseM b

/-!  Matcher `none` lemmas. -/

theorem mId_none {s : Str} (h : hasPfx idPfx s = false) : mId s = none := by
  simp [mId, h]

theorem mGt_none {pfx s : Str} (h : hasPfx pfx s = false) : mGt pfx s = none := by
  simp [mGt, h]

theorem yId_none {s : Str} (h : hasPfx yIdPfx s = false) : yId s = none := by
  simp [yId, h]

theorem yTime_none {s : Str} (h : hasPfx yTimePfx s = false) : yTime s = none := by
  simp [yTime, h]

theorem yLineM_none {pfx s : Str} (h : hasPfx pfx s = false) : yLineM pfx s = none := by
  simp [yLineM, h]

theorem addTrailWs_none {M : Str → Option (Str × Nat)} {s : Str}
    (h : M s = none) : addTrailWs M s = none := by
  simp [addTrailWs, h]

theorem ySubIdM_none {s : Str} (h : yId s = none) : ySubIdM s = none := by
  simp [ySubIdM, h]

theorem ySubTimeM_none {s : Str} (h : yTime s = none) : ySubTimeM s = none := by
  simp [ySubTimeM, h]

theorem forceRmM_none {s : Str} (h : hasPfx (lit "<!--") s = false) :
    forceRmM s = none := by
  simp [forceRmM, h]

theorem mlLineM_none {opener s : Str} (h : hasPfx opener s = false) :
    mlLineM opener s = none := by
  simp [mlLineM, h]

theorem mlWsLineM_none {opener s : Str}
    (h : hasPfx opener (s.drop (wsCount s)) = false) :
    mlWsLineM opener s = none := by
  simp [mlWsLineM, h]

theorem mlEmptyFMM_none {s : Str} (h : hasPfx (lit "---") s = false) :
    mlEmptyFMM s = none := by
  simp [mlEmptyFMM, h]

theorem mIdLoose_none {s : Str} (h : hasPfx (lit "<!--") s = false) :
    mIdLoose s = none := by
  simp [mIdLoose, h]

theorem mTimeLoose_none {s : Str} (h : hasPfx (lit "<!--") s = false) :
    mTimeLoose s = none := by
  simp [mTimeLoose, h]

theorem mLooseCls_none {key s : Str} {cls : Char → Bool}
    (h : hasPfx (lit "<!--") s = false) : mLooseCls key cls s = none := by
  simp [mLooseCls, h]

/-!  First-character blocking facts: each pattern needs a specific first
character, so runs of other characters are inert. -/

theorem hasPfx_cons_mismatch {q : Char} {ps : Str} {c : Char} {s : Str}
    (h : (q == c) = false) : hasPfx (q :: ps) (c :: s) = false := by
  simp [hasPfx, h]

/-- Characters that cannot start any of the HTML-comment patterns
(everything except `<`). -/
def notLt (c : Char) : Bool := !(c == '<')

/-- Characters that cannot start any of the YAML-line patterns
(everything except `n`). -/
def notN (c : Char) : Bool := !(c == 'n')

theorem mId_blocked {c : Char} {s : Str} (h : notLt c = true) : mId (c :: s) = none := by
  refine mId_none ?_
  rw [show idPfx = '<' :: lit "!-- notebridge_id: " from rfl]
  simp only [notLt, Bool.not_eq_true'] at h
  exact hasPfx_cons_mismatch (by simpa [BEq.comm] using h)

theorem mGt_blocked {c q : Char} {rest s : Str} (hp : (q == '<') = true)
    (h : notLt c = true) : mGt (q :: rest) (c :: s) = none := by
  refine mGt_none ?_
  simp only [notLt, Bool.not_eq_true'] at h
  refine hasPfx_cons_mismatch ?_
  have hq : q = '<' := by simpa using hp
  subst hq
  simpa [BEq.comm] using h

theorem yId_blocked {c : Char} {s : Str} (h : notN c = true) : yId (c :: s) = none := by
  refine yId_none ?_
  rw [show yIdPfx = 'n' :: lit "otebridge_id: " from rfl]
  simp only [notN, Bool.not_eq_true'] at h
  exact hasPfx_cons_mismatch (by simpa [BEq.comm] using h)

theorem yTime_blocked {c : Char} {s : Str} (h : notN c = true) : yTime (c :: s) = none := by
  refine yTime_none ?_
  rw [show yTimePfx = 'n' :: lit "otebridge_sync_time: " from rfl]
  simp only [notN, Bool.not_eq_true'] at h
  exact hasPfx_cons_mismatch (by simpa [BEq.comm] using h)

theorem isHexDash_notLt {c : Char} (h : isHexDash c = true) : notLt c = true := by
  simp only [isHexDash, Bool.or_eq_true, Bool.and_eq_true, decide_eq_true_eq,
    Nat.beq_eq] at h
  simp only [notLt, Bool.not_eq_true', beq_eq_false_iff_ne, ne_eq]
  intro hc
  subst hc
  simp at h

theorem isHexDash_notN {c : Char} (h : isHexDash c = true) : notN c = true := by
  simp only [isHexDash, Bool.or_eq_true, Bool.and_eq_true, decide_eq_true_eq,
    Nat.beq_eq] at h
  simp only [notN, Bool.not_eq_true', beq_eq_false_iff_ne, ne_eq]
  intro hc
  subst hc
  simp at h

theorem isTimeChar_notLt {c : Char} (h : isTimeChar c = true) : notLt c = true := by
  simp only [isTimeChar, isDigitC, Bool.or_eq_true, Bool.and_eq_true,
    decide_eq_true_eq] at h
  simp only [notLt, Bool.not_eq_true', beq_eq_false_iff_ne, ne_eq]
  intro hc
  subst hc
  rcases h with (h | h | h | h | h | h) <;> simp_all

theorem isTimeChar_notN {c : Char} (h : isTimeChar c = true) : notN c = true := by
  simp only [isTimeChar, isDigitC, Bool.or_eq_true, Bool.and_eq_true,
    decide_eq_true_eq] at h
  simp only [notN, Bool.not_eq_true', beq_eq_false_iff_ne, ne_eq]
  intro hc
  subst hc
  rcases h with (h | h | h | h | h | h) <;> simp_all

/-!  Composite `none` lemmas keyed to the short delimiters, so that one
`containsSub` hypothesis serves a whole matcher family, and suffix
closure of the hypotheses. -/

theorem hasPfx_false_of_ext {p q s : Str} (hpq : q = p ++ (q.drop p.length))
    (h : hasPfx p s = false) : hasPfx q s = false := by
  cases hqs : hasPfx q s with
  | false => rfl
  | true =>
    rw [hpq] at hqs
    rw [hasPfx_of_append hqs] at h
    exact h

theorem mId_noneC {s : Str} (h : hasPfx (lit "<!--") s = false) : mId s = none :=
  mId_none (hasPfx_false_of_ext (by rfl) h)

theorem mGt_noneC {pfx s : Str} (hp : pfx = lit "<!--" ++ (pfx.drop 4))
    (h : hasPfx (lit "<!--") s = false) : mGt pfx s = none := by
  refine mGt_none ?_
  cases hqs : hasPfx pfx s with
  | false => rfl
  | true =>
    rw [hp] at hqs
    have := hasPfx_of_append hqs
    rw [this] at h
    exact h

theorem yId_noneC {s : Str} (h : hasPfx (lit "notebridge_") s = false) : yId s = none :=
  yId_none (hasPfx_false_of_ext (by rfl) h)

theorem yTime_noneC {s : Str} (h : hasPfx (lit "notebridge_") s = false) : yTime s = none :=
  yTime_none (hasPfx_false_of_ext (by rfl) h)

theorem yLineM_noneC {pfx s : Str} (hp : pfx = lit "notebridge_" ++ (pfx.drop 11))
    (h : hasPfx (lit "notebridge_") s = false) : yLineM pfx s = none := by
  refine yLineM_none ?_
  cases hqs : hasPfx pfx s with
  | false => rfl
  | true =>
    rw [hp] at hqs
    have := hasPfx_of_append hqs
    rw [this] at h
    exact h

/-- Suffix closure of `containsSub _ = false` along `drop`. -/
theorem containsSub_drop {p b : Str} (hb : containsSub p b = false) (n : Nat) :
    containsSub p (b.drop n) = false := by
  induction n generalizing b with
  | zero => simpa using hb
  | succ n ih =>
    cases b with
    | nil => simpa using hb
    | cons c cs =>
      simp only [containsSub, Bool.or_eq_false_iff] at hb
      simpa using ih hb.2

/-- Suffix closure of `containsSub _ = false` along `dropWhile`. -/
theorem containsSub_dropWhile {p b : Str} (q : Char → Bool)
    (hb : containsSub p b = false) : containsSub p (b.dropWhile q) = false := by
  induction b with
  | nil => simpa using hb
  | cons c cs ih =>
    simp only [containsSub, Bool.or_eq_false_iff] at hb
    by_cases hq : q c = true
    · simpa [List.dropWhile, hq] using ih hb.2
    · simp only [List.dropWhile, Bool.not_eq_true] at hq ⊢
      rw [hq]
      simpa [containsSub] using ⟨hb.1, hb.2⟩

/-- Suffix closure of `noMatchIn` along `drop`. -/
theorem noMatchIn_drop {α : Type} {M : Str → Option α} {b : Str}
    (hb : noMatchIn M b = true) (n : Nat) : noMatchIn M (b.drop n) = true := by
  induction n generalizing b with
  | zero => simpa using hb
  | succ n ih =>
    cases b with
    | nil => simpa using hb
    | cons c cs =>
      simp only [noMatchIn, Bool.and_eq_true] at hb
      simpa using ih hb.2

/-- Suffix closure of `noMatchIn` along `dropWhile`. -/
theorem noMatchIn_dropWhile {α : Type} {M : Str → Option α} {b : Str}
    (q : Char → Bool) (hb : noMatchIn M b = true) :
    noMatchIn M (b.dropWhile q) = true := by
  induction b with
  | nil => simpa using hb
  | cons c cs ih =>
    simp only [noMatchIn, Bool.and_eq_true] at hb
    by_cases hq : q c = true
    · simpa [List.dropWhile, hq] using ih hb.2
    · simp only [List.dropWhile, Bool.not_eq_true] at hq ⊢
      rw [hq]
      simp only [noMatchIn, Bool.and_eq_true]
      exact hb

/-- `hasPfx p = false` on any suffix of a `containsSub`-free segment. -/
theorem hasPfx_false_of_not_contains_drop {p b : Str}
    (hb : containsSub p b = false) (n : Nat) : hasPfx p (b.drop n) = false := by
  have h := containsSub_drop hb n
  rcases hdn : b.drop n with _ | ⟨c, cs⟩
  · rw [hdn] at h
    simpa [containsSub] using h
  · rw [hdn] at h
    simp only [containsSub, Bool.or_eq_false_iff] at h
    exact h.1

/-- `findAllCaps` is empty on an inert content. -/
theorem findAllCaps_nil_of_inert {M : Str → Option (Str × Nat)} {s : Str}
    (h : InertP M s []) : findAllCaps M s = [] := by
  have := findAllGo_append_inert h
  simpa [findAllCaps] using this

/-- `subRm` is the identity on an inert content. -/
theorem subRm_id_of_inert {M : Str → Option Nat} {s : Str}
    (h : InertP M s []) : subRm M s = s := by
  have := subRmGo_append_inert h
  simpa [subRm, subRmGo] using this

/-- `subRepl` is the identity on an inert content. -/
theorem subRepl_id_of_inert {M : Str → Option Nat} {repl s : Str}
    (h : InertP M s []) : subRepl M repl s = s := by
  have h2 : subReplGo M repl (s ++ []) 0 = s ++ subReplGo M repl [] 0 :=
    subReplGo_append_inert h
  simpa [subRepl, subReplGo] using h2

/-- `searchCap` is `none` past an inert content. -/
theorem searchCap_none_of_inert {M : Str → Option (Str × Nat)} {s : Str}
    (h : InertP M s []) (hM : M [] = none) : searchCap M s = none := by
  have := searchCap_append_inert h
  simp only [List.append_nil] at this
  simpa [searchCap, hM] using this

/-- Drop through a `takeWhile` prefix is `dropWhile`. -/
theorem drop_wsCount (s : Str) : s.drop (wsCount s) = s.dropWhile isPyWs := by
  induction s with
  | nil => rfl
  | cons c cs ih =>
    by_cases h : isPyWs c = true
    · simpa [wsCount, List.takeWhile, List.dropWhile, h] using ih
    · simp only [Bool.not_eq_true] at h
      simp [wsCount, List.takeWhile, List.dropWhile, h]

/-- `takeWhile` of a `dropWhile` by the same predicate is empty. -/
theorem takeWhile_dropWhile_self (p : Char → Bool) (s : Str) :
    (s.dropWhile p).takeWhile p = [] := by
  induction s with
  | nil => rfl
  | cons c cs ih =>
    by_cases h : p c = true
    · simpa [List.dropWhile, h] using ih
    · simp only [Bool.not_eq_true] at h
      simp [List.dropWhile, List.takeWhile, h]

/-!  Head-match lemmas: each matcher evaluated at the position of its
pattern in the header shapes. -/

theorem validId_elim {I : Str} (h : validId I = true) :
    0 < I.length ∧ I.all isHexDash = true := by
  simpa [validId] using h

theorem validTime_elim {T : Str} (h : validTime T = true) :
    0 < T.length ∧ T.all isTimeChar = true := by
  simpa [validTime] using h

theorem isTimeChar_notGt {c : Char} (h : isTimeChar c = true) : (!(c == '>')) = true := by
  simp only [isTimeChar, isDigitC, Bool.or_eq_true, Bool.and_eq_true,
    decide_eq_true_eq] at h
  simp only [Bool.not_eq_true', beq_eq_false_iff_ne, ne_eq]
  intro hc
  subst hc
  rcases h with (h | h | h | h | h | h) <;> simp_all

theorem isTimeChar_yTimeChar {c : Char} (h : isTimeChar c = true) :
    isYTimeChar c = true := by
  simp only [isTimeChar, isDigitC, Bool.or_eq_true, Bool.and_eq_true,
    decide_eq_true_eq] at h
  simp only [isYTimeChar, quoteChar, Bool.and_eq_true, Bool.not_eq_true',
    beq_eq_false_iff_ne, ne_eq]
  constructor <;> intro hc <;> subst hc <;>
    rcases h with (h | h | h | h | h | h) <;> simp_all

theorem all_imp {p q : Char → Bool} {v : Str} (h : ∀ c, p c = true → q c = true)
    (hv : v.all p = true) : v.all q = true := by
  induction v with
  | nil => rfl
  | cons c cs ih =>
    simp only [List.all_cons, Bool.and_eq_true] at hv ⊢
    exact ⟨h c hv.1, ih hv.2⟩

theorem mId_head {I : Str} (rest : Str) (hI : validId I = true) :
    mId (idPfx ++ (I ++ (lit " -->" ++ rest))) =
      some (I, idPfx.length + I.length + 4) := by
  obtain ⟨h1, h2⟩ := validId_elim hI
  have e1 : (idPfx ++ (I ++ (lit " -->" ++ rest))).drop idPfx.length
      = I ++ (lit " -->" ++ rest) := drop_len_append _ _
  have e2 : (I ++ (lit " -->" ++ rest)).takeWhile isHexDash = I := by
    rw [takeWhile_append_all _ h2,
      show (lit " -->" ++ rest).takeWhile isHexDash = [] from rfl,
      List.append_nil]
  have e3 : (I ++ (lit " -->" ++ rest)).drop I.length = lit " -->" ++ rest :=
    drop_len_append _ _
  simp only [mId, hasPfx_refl_append, if_true, e1, e2, e3]
  simp [h1]

theorem mGt_head {pfx T : Str} (rest : Str) (h1 : 0 < T.length)
    (h2 : T.all (fun c => !(c == '>')) = true) :
    mGt pfx (pfx ++ (T ++ (lit " -->" ++ rest))) =
      some (T, pfx.length + (T.length + 3) + 1) := by
  have e1 : (pfx ++ (T ++ (lit " -->" ++ rest))).drop pfx.length
      = T ++ (lit " -->" ++ rest) := drop_len_append _ _
  have e2 : (T ++ (lit " -->" ++ rest)).takeWhile (fun c => !(c == '>'))
      = T ++ lit " --" := by
    rw [takeWhile_append_all _ h2,
      show (lit " -->" ++ rest).takeWhile (fun c => !(c == '>')) = lit " --" from rfl]
  have hlen : (T ++ lit " --").length = T.length + 3 := by simp [lit]
  have e3 : (T ++ lit " --").drop (T.length + 3 - 3) = lit " --" := by
    rw [Nat.add_sub_cancel, drop_len_append]
  have e4 : (T ++ (lit " -->" ++ rest)).drop (T.length + 3)
      = lit ">" ++ rest := by
    rw [drop_len_add_append,
      show (lit " -->" ++ rest).drop 3 = lit ">" ++ rest from rfl]
  have e5 : (T ++ lit " --").take (T.length + 3 - 3) = T := by
    rw [Nat.add_sub_cancel, List.take_left]
  have h4 : 4 ≤ T.length + 3 := by omega
  simp only [mGt, hasPfx_refl_append, if_true, e1, e2, hlen, e3, e4, e5]
  simp [h4]

theorem yId_head {I : Str} (rest : Str) (hI : validId I = true) :
    yId (yIdPfx ++ (I ++ (lit " -->" ++ rest))) =
      some (I, yIdPfx.length + I.length) := by
  obtain ⟨h1, h2⟩ := validId_elim hI
  have e1 : (yIdPfx ++ (I ++ (lit " -->" ++ rest))).drop yIdPfx.length
      = I ++ (lit " -->" ++ rest) := drop_len_append _ _
  have e2 : (I ++ (lit " -->" ++ rest)).takeWhile isHexDash = I := by
    rw [takeWhile_append_all _ h2,
      show (lit " -->" ++ rest).takeWhile isHexDash = [] from rfl,
      List.append_nil]
  simp only [yId, hasPfx_refl_append, if_true, e1, e2]
  simp [h1]

theorem isTimeChar_notQuote {c : Char} (h : isTimeChar c = true) :
    (quoteChar == c) = false := by
  simp only [isTimeChar, isDigitC, Bool.or_eq_true, Bool.and_eq_true,
    decide_eq_true_eq] at h
  simp only [quoteChar, beq_eq_false_iff_ne, ne_eq]
  intro hc
  rw [← hc] at h
  rcases h with (h | h | h | h | h | h) <;> simp_all

theorem yTime_head {T : Str} (rest : Str) (hT : validTime T = true) :
    yTime (yTimePfx ++ (T ++ (lit " -->\n" ++ rest))) =
      some (T ++ lit " -->", yTimePfx.length + (T.length + 4)) := by
  obtain ⟨h1, h2⟩ := validTime_elim hT
  have hyc : T.all isYTimeChar = true := all_imp (fun _ => isTimeChar_yTimeChar) h2
  have e1 : (yTimePfx ++ (T ++ (lit " -->\n" ++ rest))).drop yTimePfx.length
      = T ++ (lit " -->\n" ++ rest) := drop_len_append _ _
  have hq1 : hasPfx [quoteChar] (T ++ (lit " -->\n" ++ rest)) = false := by
    cases T with
    | nil => simp at h1
    | cons t ts =>
      simp only [List.all_cons, Bool.and_eq_true] at h2
      exact hasPfx_cons_mismatch (isTimeChar_notQuote h2.1)
  have e2 : (T ++ (lit " -->\n" ++ rest)).takeWhile isYTimeChar = T ++ lit " -->" := by
    rw [takeWhile_append_all _ hyc,
      show (lit " -->\n" ++ rest).takeWhile isYTimeChar = lit " -->" from rfl]
  have hlen : (T ++ lit " -->").length = T.length + 4 := by simp [lit]
  have e3 : (T ++ (lit " -->\n" ++ rest)).drop (T ++ lit " -->").length
      = lit "\n" ++ rest := by
    rw [hlen, drop_len_add_append,
      show (lit " -->\n" ++ rest).drop 4 = lit "\n" ++ rest from rfl]
  have hq2 : hasPfx [quoteChar] (lit "\n" ++ rest) = false := rfl
  have hpos : 0 < T.length + 4 := by omega
  simp only [yTime, hasPfx_refl_append, if_true, e1, hq1, Bool.false_eq_true,
    if_false, List.drop_zero, e2, hlen, e3, hq2]
  simp [hpos]
  rw [show (lit " -->\n" ++ rest).drop 4 = lit "\n" ++ rest from rfl]
  exact hq2

/-!  Driver match-step helpers stated on a whole string (not a `cons`),
and further closure lemmas. -/

theorem searchCap_some_of_match {M : Str → Option (Str × Nat)} {s cap : Str}
    {k : Nat} (h : M s = some (cap, k)) : searchCap M s = some cap := by
  cases s with
  | nil => simp [searchCap, h]
  | cons c cs => simp [searchCap, h]

theorem findAllGo_match_drop {M : Str → Option (Str × Nat)} {s cap : Str}
    {k : Nat} (hk : 0 < k) (h : M s = some (cap, k)) (hs : s ≠ []) :
    findAllGo M s 0 = cap :: findAllGo M (s.drop k) 0 := by
  cases s with
  | nil => exact absurd rfl hs
  | cons c cs =>
    rw [findAllGo_match h]
    cases k with
    | zero => exact absurd hk (by omega)
    | succ k => rfl

theorem subRmGo_match_drop {M : Str → Option Nat} {s : Str} {k : Nat}
    (hk : 0 < k) (h : M s = some k) (hs : s ≠ []) :
    subRmGo M s 0 = subRmGo M (s.drop k) 0 := by
  cases s with
  | nil => exact absurd rfl hs
  | cons c cs =>
    rw [subRmGo_match h]
    cases k with
    | zero => exact absurd hk (by omega)
    | succ k => rfl

theorem inertP_addTrailWs {M : Str → Option (Str × Nat)} :
    ∀ {s r : Str}, InertP M s r → InertP (addTrailWs M) s r := by
  intro s
  induction s with
  | nil => intro r _; exact inertP_nil
  | cons c s ih =>
    intro r h
    obtain ⟨h1, h2⟩ := h
    exact ⟨addTrailWs_none h1, ih h2⟩

/-- Inertness from a `containsSub`-style certificate available at every
suffix. -/
theorem inertP_of_none_on_suffixes {α : Type} {M : Str → Option α} {p : Str}
    (hM : ∀ s, containsSub p s = false → M s = none)
    {b : Str} (hb : containsSub p b = false) : InertP M b [] := by
  induction b with
  | nil => exact inertP_nil
  | cons c b ih =>
    have hb2 : containsSub p b = false := by
      simp only [containsSub, Bool.or_eq_false_iff] at hb
      exact hb.2
    refine ⟨?_, ih hb2⟩
    rw [List.append_nil]
    exact hM _ hb

theorem hasPfx_false_of_not_contains {p b : Str}
    (hb : containsSub p b = false) : hasPfx p b = false := by
  simpa using hasPfx_false_of_not_contains_drop hb 0

theorem containsSub_false_of_ext {p q b : Str}
    (hpq : q = p ++ (q.drop p.length)) (h : containsSub p b = false) :
    containsSub q b = false := by
  induction b with
  | nil =>
    simp only [containsSub] at h ⊢
    exact hasPfx_false_of_ext hpq h
  | cons c b ih =>
    simp only [containsSub, Bool.or_eq_false_iff] at h ⊢
    exact ⟨hasPfx_false_of_ext hpq h.1, ih h.2⟩

/-!  Python string-order facts for the latest-time selection. -/

theorem pyStrLt_nil_cons (c : Char) (s : Str) : pyStrLt [] (c :: s) = true := rfl

theorem pyStrLt_self_append (t : Str) {s : Str} (hs : s ≠ []) :
    pyStrLt t (t ++ s) = true := by
  induction t with
  | nil =>
    cases s with
    | nil => exact absurd rfl hs
    | cons c cs => rfl
  | cons a as ih => simpa [pyStrLt] using ih

theorem beq_nil_false {I : Str} (h : 0 < I.length) : (I == ([] : Str)) = false := by
  cases I with
  | nil => simp at h
  | cons c cs => rfl

/-!  Character class of the generated `source` values. -/

/-- Lowercase ASCII letters (the characters of `joplin` / `obsidian`). -/
def isSrcChar (c : Char) : Bool := 97 ≤ c.toNat && c.toNat ≤ 122

theorem isSrcChar_notLt {c : Char} (h : isSrcChar c = true) : notLt c = true := by
  simp only [isSrcChar, Bool.and_eq_true, decide_eq_true_eq] at h
  simp only [notLt, Bool.not_eq_true', beq_eq_false_iff_ne, ne_eq]
  intro hc
  subst hc
  simp at h

theorem isSrcChar_notGt {c : Char} (h : isSrcChar c = true) : (!(c == '>')) = true := by
  simp only [isSrcChar, Bool.and_eq_true, decide_eq_true_eq] at h
  simp only [Bool.not_eq_true', beq_eq_false_iff_ne, ne_eq]
  intro hc
  subst hc
  simp at h

/-- A well-formed source value: nonempty, lowercase letters. -/
def validSrc (v : Str) : Bool := 0 < v.length && v.all isSrcChar

theorem validSrc_elim {S : Str} (h : validSrc S = true) :
    0 < S.length ∧ S.all isSrcChar = true := by
  simpa [validSrc] using h

/-!  `cleanBody` elimination and closure. -/

theorem cleanBody_elim {b : Str} (h : cleanBody b = true) :
    containsSub (lit "notebridge_") b = false ∧
    containsSub (lit "<!--") b = false ∧
    containsSub (lit "-->") b = false ∧
    containsSub (lit "---") b = false ∧
    noMatchIn collapseM b = true := by
  simp only [cleanBody, Bool.and_eq_true, Bool.not_eq_true'] at h
  exact ⟨h.1.1.1.1, h.1.1.1.2, h.1.1.2, h.1.2, h.2⟩

theorem cleanBody_dropWhile {b : Str} (q : Char → Bool)
    (h : cleanBody b = true) : cleanBody (b.dropWhile q) = true := by
  obtain ⟨h1, h2, h3, h4, h5⟩ := cleanBody_elim h
  simp only [cleanBody, Bool.and_eq_true, Bool.not_eq_true']
  exact ⟨⟨⟨⟨containsSub_dropWhile q h1, containsSub_dropWhile q h2⟩,
    containsSub_dropWhile q h3⟩, containsSub_dropWhile q h4⟩,
    noMatchIn_dropWhile q h5⟩

/-- Whitespace-run length across an all-whitespace prefix. -/
theorem wsCount_append_ws {v : Str} (r : Str) (hv : v.all isPyWs = true) :
    wsCount (v ++ r) = v.length + wsCount r := by
  simp [wsCount, takeWhile_append_all r hv]

/-!  The canonical embedded-header shape: the four HTML comment lines of
`jHeader` followed by the body, right-nested for the scan walks. -/

/-- `jHeader ⟨I, T, S, "1"⟩ ++ b`, right-nested. -/
def shape1 (I T S b : Str) : Str :=
  idPfx ++ (I ++ (lit " -->\n" ++ (timePfx ++ (T ++ (lit " -->\n" ++
    (srcPfx ++ (S ++ (lit " -->\n" ++ (verPfx ++ (lit "1 -->\n\n" ++ b))))))))))

theorem shape1_eq_jHeader (I T S b : Str) :
    shape1 I T S b = jHeader ⟨I, T, S, lit "1"⟩ ++ b := by
  simp only [shape1, jHeader, List.append_assoc]
  rfl

/-!  Codec behaviour on clean bodies. -/

theorem cleanF_cleanBody (f : Nat) {b : Str} (hb : cleanBody b = true) :
    cleanF f b = b := by
  cases f with
  | zero => rfl
  | succ f =>
    obtain ⟨hb1, hb2, hb3, hb4, hb5⟩ := cleanBody_elim hb
    have h1 : findAllCaps mId b = [] :=
      findAllCaps_nil_of_inert (inertP_of_not_contains (fun s h => mId_noneC h) hb2)
    have h2 : findAllCaps yId b = [] :=
      findAllCaps_nil_of_inert (inertP_of_not_contains (fun s h => yId_noneC h) hb1)
    simp [cleanF, h1, h2]

theorem addJoplinF_clean (f : Nat) {b : Str} (i : SyncInfo)
    (hb : cleanBody b = true) : addJoplinF f b i = jHeader i ++ b := by
  cases f with
  | zero => rfl
  | succ f =>
    obtain ⟨hb1, hb2, hb3, hb4, hb5⟩ := cleanBody_elim hb
    have hc0 : cleanF f b = b := cleanF_cleanBody f hb
    have hc1 : containsSub (lit "<!-- notebridge_") b = false :=
      containsSub_false_of_ext (p := lit "<!--") rfl hb2
    have h2 : subRmML (mlLineM (lit "-->")) b = b :=
      subRmML_inert (inertP_of_not_contains (fun s h => mlLineM_none h) hb3)
    have h3 : subRmML (mlLineM (lit "<!--")) b = b :=
      subRmML_inert (inertP_of_not_contains (fun s h => mlLineM_none h) hb2)
    have h4 : subRmML (mlWsLineM (lit "-->")) b = b :=
      subRmML_inert (inertP_of_none_on_suffixes
        (fun s hs => mlWsLineM_none (hasPfx_false_of_not_contains_drop hs _)) hb3)
    have h5 : subRmML (mlWsLineM (lit "<!--")) b = b :=
      subRmML_inert (inertP_of_none_on_suffixes
        (fun s hs => mlWsLineM_none (hasPfx_false_of_not_contains_drop hs _)) hb2)
    simp [addJoplinF, hc0, hc1, h2, h3, h4, h5, hb1]

theorem latestGo_pair {T A I : Str} (hT : T ≠ []) (hA : A ≠ []) :
    latestGo [T, T ++ A] [I, I] [] [] = (T ++ A, I) := by
  cases T with
  | nil => exact absurd rfl hT
  | cons c cs =>
    have h2 : pyStrLt (c :: cs) (c :: (cs ++ A)) = true := by
      simpa using pyStrLt_self_append (c :: cs) hA
    simp [latestGo, pyStrLt_nil_cons, h2]

theorem stripLeadBlank_dropWhile (b : Str) :
    stripLeadBlank (b.dropWhile isPyWs) = b.dropWhile isPyWs := by
  simp [stripLeadBlank, wsThroughLastNL, takeWhile_dropWhile_self, lastNLIdx]

theorem hasYamlFM_false_of {s : Str} (h : hasPfx (lit "---") s = false) :
    hasYamlFM s = false := by
  simp [hasYamlFM, yamlFMatch, h]

/-!  Scan walks over the header shape.  `rest1`/`rest2`/`rest3` name the
tails of `shape1` after each comment line. -/

/-- Tail of `shape1` after the id line. -/
def rest1 (T S b : Str) : Str :=
  timePfx ++ (T ++ (lit " -->\n" ++ (srcPfx ++ (S ++ (lit " -->\n" ++
    (verPfx ++ (lit "1 -->\n\n" ++ b)))))))

/-- Tail of `shape1` after the sync-time line. -/
def rest2 (S b : Str) : Str :=
  srcPfx ++ (S ++ (lit " -->\n" ++ (verPfx ++ (lit "1 -->\n\n" ++ b))))

/-- Tail of `shape1` after the source line. -/
def rest3 (b : Str) : Str := verPfx ++ (lit "1 -->\n\n" ++ b)

theorem mGt_blocked_pfx {p : Str} (hp : hasPfx (lit "<") p = true) {c : Char}
    {s : Str} (h : notLt c = true) : mGt p (c :: s) = none := by
  refine mGt_none ?_
  cases p with
  | nil => simp [hasPfx, lit] at hp
  | cons q ps =>
    have hq : ('<' == q) = true := by
      have he : hasPfx (lit "<") (q :: ps) = (('<' == q) && true) := rfl
      rw [he] at hp
      simpa using hp
    have hq2 : '<' = q := by simpa using hq
    subst hq2
    simp only [notLt, Bool.not_eq_true'] at h
    exact hasPfx_cons_mismatch (by simpa [BEq.comm] using h)

theorem inertP_mId_rest1 {T S b : Str} (hT2 : T.all isTimeChar = true)
    (hS2 : S.all isSrcChar = true) (hb2 : containsSub (lit "<!--") b = false) :
    InertP mId (rest1 T S b) [] := by
  refine inertP_append ?_ (inertP_append ?_ (inertP_append ?_ (inertP_append ?_
    (inertP_append ?_ (inertP_append ?_ (inertP_append ?_ (inertP_append ?_
    ?_)))))))
  all_goals first
    | exact inertP_run (fun c s hc => mId_blocked hc)
        (all_imp (fun _ => isTimeChar_notLt) hT2)
    | exact inertP_run (fun c s hc => mId_blocked hc)
        (all_imp (fun _ => isSrcChar_notLt) hS2)
    | exact inertP_of_not_contains (fun s h => mId_noneC h) hb2
    | repeat first | exact inertP_nil | refine inertP_cons (by rfl) ?_

theorem inertP_yId_rest1 {T S b : Str} (hT2 : T.all isTimeChar = true)
    (hS : S = lit "joplin" ∨ S = lit "obsidian")
    (hb1 : containsSub (lit "notebridge_") b = false) :
    InertP yId (rest1 T S b) [] := by
  rcases hS with h | h
  all_goals subst h
  all_goals
    refine inertP_append ?_ (inertP_append ?_ (inertP_append ?_ (inertP_append ?_
      (inertP_append ?_ (inertP_append ?_ (inertP_append ?_ (inertP_append ?_
      ?_)))))))
  all_goals first
    | exact inertP_run (fun c s hc => yId_blocked hc)
        (all_imp (fun _ => isTimeChar_notN) hT2)
    | exact inertP_of_not_contains (fun s h => yId_noneC h) hb1
    | repeat first | exact inertP_nil | refine inertP_cons (by rfl) ?_

theorem inertP_mGtTime_rest2 {S b : Str} (hS2 : S.all isSrcChar = true)
    (hb2 : containsSub (lit "<!--") b = false) :
    InertP (mGt timePfx) (rest2 S b) [] := by
  refine inertP_append ?_ (inertP_append ?_ (inertP_append ?_ (inertP_append ?_
    (inertP_append ?_ ?_))))
  all_goals first
    | exact inertP_run (fun c s hc => mGt_blocked_pfx (by rfl) hc)
        (all_imp (fun _ => isSrcChar_notLt) hS2)
    | exact inertP_of_not_contains (fun s h => mGt_noneC rfl h) hb2
    | repeat first | exact inertP_nil | refine inertP_cons (by rfl) ?_

theorem inertP_yTime_rest2 {S b : Str}
    (hS : S = lit "joplin" ∨ S = lit "obsidian")
    (hb1 : containsSub (lit "notebridge_") b = false) :
    InertP yTime (rest2 S b) [] := by
  rcases hS with h | h
  all_goals subst h
  all_goals
    refine inertP_append ?_ (inertP_append ?_ (inertP_append ?_ (inertP_append ?_
      (inertP_append ?_ ?_))))
  all_goals first
    | exact inertP_of_not_contains (fun s h => yTime_noneC h) hb1
    | repeat first | exact inertP_nil | refine inertP_cons (by rfl) ?_

theorem inertP_mGtSrc_rest3 {b : Str}
    (hb2 : containsSub (lit "<!--") b = false) :
    InertP (mGt srcPfx) (rest3 b) [] := by
  refine inertP_append ?_ (inertP_append ?_ ?_)
  all_goals first
    | exact inertP_of_not_contains (fun s h => mGt_noneC rfl h) hb2
    | repeat first | exact inertP_nil | refine inertP_cons (by rfl) ?_

/-!  The four collection scans of `clean_duplicate_sync_info` on the
header shape: one HTML-comment match each, plus the YAML-pattern matches
inside the same comment lines (the double-count), with the `T -->`
capture artifact of the YAML time pattern. -/

theorem findAll_mId_shape1 {I T S b : Str} (hI : validId I = true)
    (hT2 : T.all isTimeChar = true) (hS2 : S.all isSrcChar = true)
    (hb2 : containsSub (lit "<!--") b = false) :
    findAllCaps mId (shape1 I T S b) = [I] := by
  have hm : mId (shape1 I T S b) = some (I, idPfx.length + I.length + 4) :=
    mId_head (lit "\n" ++ rest1 T S b) hI
  have hne : shape1 I T S b ≠ [] := by
    intro h
    rw [h, show mId ([] : Str) = none from rfl] at hm
    exact Option.noConfusion hm
  have hdrop : (shape1 I T S b).drop (idPfx.length + I.length + 4) =
      lit "\n" ++ rest1 T S b := by
    rw [Nat.add_assoc, shape1, drop_len_add_append, drop_len_add_append]
    rfl
  show findAllGo mId (shape1 I T S b) 0 = [I]
  rw [findAllGo_match_drop (by omega) hm hne, hdrop]
  have hnil : findAllGo mId (lit "\n" ++ rest1 T S b) 0 = [] :=
    findAllCaps_nil_of_inert
      (inertP_append
        (by repeat first | exact inertP_nil | refine inertP_cons (by rfl) ?_)
        (inertP_mId_rest1 hT2 hS2 hb2))
  rw [hnil]

theorem findAll_yId_shape1 {I T S b : Str} (hI : validId I = true)
    (hT2 : T.all isTimeChar = true)
    (hS : S = lit "joplin" ∨ S = lit "obsidian")
    (hb1 : containsSub (lit "notebridge_") b = false) :
    findAllCaps yId (shape1 I T S b) = [I] := by
  have hpre : InertP yId (lit "<!-- ")
      (yIdPfx ++ (I ++ (lit " -->\n" ++ rest1 T S b))) := by
    repeat first | exact inertP_nil | refine inertP_cons (by rfl) ?_
  have hstep : findAllGo yId (shape1 I T S b) 0 =
      findAllGo yId (yIdPfx ++ (I ++ (lit " -->\n" ++ rest1 T S b))) 0 :=
    findAllGo_append_inert hpre
  have hm : yId (yIdPfx ++ (I ++ (lit " -->\n" ++ rest1 T S b))) =
      some (I, yIdPfx.length + I.length) :=
    yId_head (lit "\n" ++ rest1 T S b) hI
  have hne : yIdPfx ++ (I ++ (lit " -->\n" ++ rest1 T S b)) ≠ [] := by
    intro h
    rw [h, show yId ([] : Str) = none from rfl] at hm
    exact Option.noConfusion hm
  have hk : 0 < yIdPfx.length + I.length := by
    rw [show yIdPfx.length = 15 from rfl]
    omega
  have hdrop : (yIdPfx ++ (I ++ (lit " -->\n" ++ rest1 T S b))).drop
      (yIdPfx.length + I.length) = lit " -->\n" ++ rest1 T S b := by
    rw [drop_len_add_append, drop_len_append]
  show findAllGo yId (shape1 I T S b) 0 = [I]
  rw [hstep, findAllGo_match_drop hk hm hne, hdrop]
  have hnil : findAllGo yId (lit " -->\n" ++ rest1 T S b) 0 = [] :=
    findAllCaps_nil_of_inert
      (inertP_append
        (by repeat first | exact inertP_nil | refine inertP_cons (by rfl) ?_)
        (inertP_yId_rest1 hT2 hS hb1))
  rw [hnil]

theorem findAll_mGtTime_shape1 {I T S b : Str} (hI2 : I.all isHexDash = true)
    (hT : validTime T = true) (hS2 : S.all isSrcChar = true)
    (hb2 : containsSub (lit "<!--") b = false) :
    findAllCaps (mGt timePfx) (shape1 I T S b) = [T] := by
  obtain ⟨hT1, hT2⟩ := validTime_elim hT
  have hsplit : shape1 I T S b = (idPfx ++ (I ++ lit " -->\n")) ++ rest1 T S b := by
    simp [shape1, rest1, List.append_assoc]
  have hpre : InertP (mGt timePfx) (idPfx ++ (I ++ lit " -->\n")) (rest1 T S b) := by
    refine inertP_append ?_ (inertP_append ?_ ?_)
    all_goals first
      | exact inertP_run (fun c s hc => mGt_blocked_pfx (by rfl) hc)
          (all_imp (fun _ => isHexDash_notLt) hI2)
      | repeat first | exact inertP_nil | refine inertP_cons (by rfl) ?_
  have hm : mGt timePfx (rest1 T S b) =
      some (T, timePfx.length + (T.length + 3) + 1) :=
    mGt_head (lit "\n" ++ rest2 S b) hT1 (all_imp (fun _ => isTimeChar_notGt) hT2)
  have hne : rest1 T S b ≠ [] := by
    intro h
    rw [h, show mGt timePfx ([] : Str) = none from rfl] at hm
    exact Option.noConfusion hm
  have hdrop : (rest1 T S b).drop (timePfx.length + (T.length + 3) + 1) =
      lit "\n" ++ rest2 S b := by
    have harith : timePfx.length + (T.length + 3) + 1 =
        timePfx.length + (T.length + 4) := by omega
    rw [harith, rest1, drop_len_add_append, drop_len_add_append]
    rfl
  show findAllGo (mGt timePfx) (shape1 I T S b) 0 = [T]
  rw [hsplit, findAllGo_append_inert hpre,
    findAllGo_match_drop (by omega) hm hne, hdrop]
  have hnil : findAllGo (mGt timePfx) (lit "\n" ++ rest2 S b) 0 = [] :=
    findAllCaps_nil_of_inert
      (inertP_append
        (by repeat first | exact inertP_nil | refine inertP_cons (by rfl) ?_)
        (inertP_mGtTime_rest2 hS2 hb2))
  rw [hnil]

theorem findAll_yTime_shape1 {I T S b : Str} (hI2 : I.all isHexDash = true)
    (hT : validTime T = true)
    (hS : S = lit "joplin" ∨ S = lit "obsidian")
    (hb1 : containsSub (lit "notebridge_") b = false) :
    findAllCaps yTime (shape1 I T S b) = [T ++ lit " -->"] := by
  obtain ⟨hT1, hT2⟩ := validTime_elim hT
  have hsplit : shape1 I T S b = (idPfx ++ (I ++ lit " -->\n<!-- ")) ++
      (yTimePfx ++ (T ++ (lit " -->\n" ++ rest2 S b))) := by
    simp [shape1, rest2, List.append_assoc]
    rfl
  have hpre : InertP yTime (idPfx ++ (I ++ lit " -->\n<!-- "))
      (yTimePfx ++ (T ++ (lit " -->\n" ++ rest2 S b))) := by
    refine inertP_append ?_ (inertP_append ?_ ?_)
    all_goals first
      | exact inertP_run (fun c s hc => yTime_blocked hc)
          (all_imp (fun _ => isHexDash_notN) hI2)
      | repeat first | exact inertP_nil | refine inertP_cons (by rfl) ?_
  have hm : yTime (yTimePfx ++ (T ++ (lit " -->\n" ++ rest2 S b))) =
      some (T ++ lit " -->", yTimePfx.length + (T.length + 4)) :=
    yTime_head (rest2 S b) hT
  have hne : yTimePfx ++ (T ++ (lit " -->\n" ++ rest2 S b)) ≠ [] := by
    intro h
    rw [h, show yTime ([] : Str) = none from rfl] at hm
    exact Option.noConfusion hm
  have hdrop : (yTimePfx ++ (T ++ (lit " -->\n" ++ rest2 S b))).drop
      (yTimePfx.length + (T.length + 4)) = lit "\n" ++ rest2 S b := by
    rw [drop_len_add_append, drop_len_add_append]
    rfl
  show findAllGo yTime (shape1 I T S b) 0 = [T ++ lit " -->"]
  rw [hsplit, findAllGo_append_inert hpre,
    findAllGo_match_drop (by omega) hm hne, hdrop]
  have hnil : findAllGo yTime (lit "\n" ++ rest2 S b) 0 = [] :=
    findAllCaps_nil_of_inert
      (inertP_append
        (by repeat first | exact inertP_nil | refine inertP_cons (by rfl) ?_)
        (inertP_yTime_rest2 hS hb1))
  rw [hnil]

/-!  The four HTML-comment removal substitutions of
`clean_duplicate_sync_info` on the header shape: each strips one line
(its trailing `\s*` eating the newline); the version line additionally
eats the blank line and the leading whitespace of the body. -/

theorem subRm_sIdM_shape1 {I T S b : Str} (hI : validId I = true)
    (hT2 : T.all isTimeChar = true) (hS2 : S.all isSrcChar = true)
    (hb2 : containsSub (lit "<!--") b = false) :
    subRm sIdM (shape1 I T S b) = rest1 T S b := by
  have hmid : mId (shape1 I T S b) = some (I, idPfx.length + I.length + 4) :=
    mId_head (lit "\n" ++ rest1 T S b) hI
  have hdrop : (shape1 I T S b).drop (idPfx.length + I.length + 4) =
      lit "\n" ++ rest1 T S b := by
    rw [Nat.add_assoc, shape1, drop_len_add_append, drop_len_add_append]
    rfl
  have hws : wsCount (lit "\n" ++ rest1 T S b) = 1 := rfl
  have hm : sIdM (shape1 I T S b) = some (idPfx.length + I.length + 4 + 1) := by
    simp only [sIdM, addTrailWs, hmid, hdrop, hws]
  have hne : shape1 I T S b ≠ [] := by
    intro h
    rw [h, show sIdM ([] : Str) = none from rfl] at hm
    exact Option.noConfusion hm
  have hdrop2 : (shape1 I T S b).drop (idPfx.length + I.length + 4 + 1) =
      rest1 T S b := by
    rw [show idPfx.length + I.length + 4 + 1 = idPfx.length + (I.length + 5) from
      by omega, shape1, drop_len_add_append, drop_len_add_append]
    rfl
  show subRmGo sIdM (shape1 I T S b) 0 = rest1 T S b
  rw [subRmGo_match_drop (by omega) hm hne, hdrop2]
  exact subRm_id_of_inert (inertP_addTrailWs (inertP_mId_rest1 hT2 hS2 hb2))

theorem subRm_sTimeM_rest1 {T S b : Str} (hT : validTime T = true)
    (hS2 : S.all isSrcChar = true) (hb2 : containsSub (lit "<!--") b = false) :
    subRm sTimeM (rest1 T S b) = rest2 S b := by
  obtain ⟨hT1, hT2⟩ := validTime_elim hT
  have hmgt : mGt timePfx (rest1 T S b) =
      some (T, timePfx.length + (T.length + 3) + 1) :=
    mGt_head (lit "\n" ++ rest2 S b) hT1 (all_imp (fun _ => isTimeChar_notGt) hT2)
  have hdrop : (rest1 T S b).drop (timePfx.length + (T.length + 3) + 1) =
      lit "\n" ++ rest2 S b := by
    rw [show timePfx.length + (T.length + 3) + 1 = timePfx.length + (T.length + 4)
      from by omega, rest1, drop_len_add_append, drop_len_add_append]
    rfl
  have hws : wsCount (lit "\n" ++ rest2 S b) = 1 := rfl
  have hm : sTimeM (rest1 T S b) =
      some (timePfx.length + (T.length + 3) + 1 + 1) := by
    simp only [sTimeM, addTrailWs, hmgt, hdrop, hws]
  have hne : rest1 T S b ≠ [] := by
    intro h
    rw [h, show sTimeM ([] : Str) = none from rfl] at hm
    exact Option.noConfusion hm
  have hdrop2 : (rest1 T S b).drop (timePfx.length + (T.length + 3) + 1 + 1) =
      rest2 S b := by
    rw [show timePfx.length + (T.length + 3) + 1 + 1 = timePfx.length + (T.length + 5)
      from by omega, rest1, drop_len_add_append, drop_len_add_append]
    rfl
  show subRmGo sTimeM (rest1 T S b) 0 = rest2 S b
  rw [subRmGo_match_drop (by omega) hm hne, hdrop2]
  exact subRm_id_of_inert (inertP_addTrailWs (inertP_mGtTime_rest2 hS2 hb2))

theorem subRm_sSrcM_rest2 {S b : Str} (hS : validSrc S = true)
    (hb2 : containsSub (lit "<!--") b = false) :
    subRm sSrcM (rest2 S b) = rest3 b := by
  obtain ⟨hS1, hS2⟩ := validSrc_elim hS
  have hmgt : mGt srcPfx (rest2 S b) =
      some (S, srcPfx.length + (S.length + 3) + 1) :=
    mGt_head (lit "\n" ++ rest3 b) hS1 (all_imp (fun _ => isSrcChar_notGt) hS2)
  have hdrop : (rest2 S b).drop (srcPfx.length + (S.length + 3) + 1) =
      lit "\n" ++ rest3 b := by
    rw [show srcPfx.length + (S.length + 3) + 1 = srcPfx.length + (S.length + 4)
      from by omega, rest2, drop_len_add_append, drop_len_add_append]
    rfl
  have hws : wsCount (lit "\n" ++ rest3 b) = 1 := rfl
  have hm : sSrcM (rest2 S b) =
      some (srcPfx.length + (S.length + 3) + 1 + 1) := by
    simp only [sSrcM, addTrailWs, hmgt, hdrop, hws]
  have hne : rest2 S b ≠ [] := by
    intro h
    rw [h, show sSrcM ([] : Str) = none from rfl] at hm
    exact Option.noConfusion hm
  have hdrop2 : (rest2 S b).drop (srcPfx.length + (S.length + 3) + 1 + 1) =
      rest3 b := by
    rw [show srcPfx.length + (S.length + 3) + 1 + 1 = srcPfx.length + (S.length + 5)
      from by omega, rest2, drop_len_add_append, drop_len_add_append]
    rfl
  show subRmGo sSrcM (rest2 S b) 0 = rest3 b
  rw [subRmGo_match_drop (by omega) hm hne, hdrop2]
  exact subRm_id_of_inert (inertP_addTrailWs (inertP_mGtSrc_rest3 hb2))

theorem subRm_sVerM_rest3 {b : Str} (hb2 : containsSub (lit "<!--") b = false) :
    subRm sVerM (rest3 b) = b.dropWhile isPyWs := by
  have hmgt : mGt verPfx (rest3 b) = some (lit "1", 30) :=
    mGt_head (T := lit "1") (lit "\n\n" ++ b) (by decide) (by decide)
  have hdrop : (rest3 b).drop 30 = lit "\n\n" ++ b := rfl
  have hws : wsCount (lit "\n\n" ++ b) = 2 + wsCount b :=
    wsCount_append_ws b (by decide)
  have hm : sVerM (rest3 b) = some (32 + wsCount b) := by
    simp only [sVerM, addTrailWs, hmgt, hdrop, hws]
    congr 1
    omega
  have hne : rest3 b ≠ [] := by
    intro h
    rw [h, show sVerM ([] : Str) = none from rfl] at hm
    exact Option.noConfusion hm
  have hdrop2 : (rest3 b).drop (32 + wsCount b) = b.dropWhile isPyWs := by
    have h32 : rest3 b = lit "<!-- notebridge_version: 1 -->\n\n" ++ b := rfl
    rw [h32, show (32 : Nat) + wsCount b =
      (lit "<!-- notebridge_version: 1 -->\n\n").length + wsCount b from rfl,
      drop_len_add_append, drop_wsCount]
  show subRmGo sVerM (rest3 b) 0 = b.dropWhile isPyWs
  rw [subRmGo_match_drop (by omega) hm hne, hdrop2]
  exact subRm_id_of_inert (inertP_addTrailWs (inertP_of_not_contains
    (fun s h => mGt_noneC rfl h) (containsSub_dropWhile _ hb2)))

/-!  Full behaviour of `clean_duplicate_sync_info` on a single embedded
header: the double-counted ids trigger the clean, the YAML time capture
`T -->` wins the latest-time comparison (it extends `T`), and the record
is re-embedded with that artifact time and regenerated source/version. -/

theorem cleanF_shape1 (f : Nat) {I T S b : Str} (hI : validId I = true)
    (hT : validTime T = true) (hS : S = lit "joplin" ∨ S = lit "obsidian")
    (hb : cleanBody b = true) :
    cleanF (f + 1) (shape1 I T S b) =
      shape1 I (T ++ lit " -->") (lit "joplin") (b.dropWhile isPyWs) := by
  obtain ⟨hI1, hI2⟩ := validId_elim hI
  obtain ⟨hT1, hT2⟩ := validTime_elim hT
  have hSv : validSrc S = true := by
    rcases hS with h | h
    all_goals subst h
    all_goals decide
  obtain ⟨hS1, hS2⟩ := validSrc_elim hSv
  obtain ⟨hb1, hb2, hb3, hb4, hb5⟩ := cleanBody_elim hb
  have e1 := findAll_mId_shape1 hI hT2 hS2 hb2
  have e2 := findAll_yId_shape1 hI hT2 hS hb1
  have e3 := findAll_mGtTime_shape1 hI2 hT hS2 hb2
  have e4 := findAll_yTime_shape1 hI2 hT hS hb1
  have esel : latestGo [T, T ++ lit " -->"] [I, I] [] [] = (T ++ lit " -->", I) :=
    latestGo_pair (List.length_pos.mp hT1) (by decide)
  have es1 : subRm sIdM (shape1 I T S b) = rest1 T S b :=
    subRm_sIdM_shape1 hI hT2 hS2 hb2
  have es2 : subRm sTimeM (rest1 T S b) = rest2 S b :=
    subRm_sTimeM_rest1 hT hS2 hb2
  have es3 : subRm sSrcM (rest2 S b) = rest3 b := subRm_sSrcM_rest2 hSv hb2
  have es4 : subRm sVerM (rest3 b) = b.dropWhile isPyWs := subRm_sVerM_rest3 hb2
  have hcb2 : cleanBody (b.dropWhile isPyWs) = true := cleanBody_dropWhile _ hb
  obtain ⟨hc1, hc2, hc3, hc4, hc5⟩ := cleanBody_elim hcb2
  have es5 : subRm ySubIdM (b.dropWhile isPyWs) = b.dropWhile isPyWs :=
    subRm_id_of_inert (inertP_of_none_on_suffixes
      (fun s hs => ySubIdM_none (yId_noneC (hasPfx_false_of_not_contains hs))) hc1)
  have es6 : subRm ySubTimeM (b.dropWhile isPyWs) = b.dropWhile isPyWs :=
    subRm_id_of_inert (inertP_of_none_on_suffixes
      (fun s hs => ySubTimeM_none (yTime_noneC (hasPfx_false_of_not_contains hs))) hc1)
  have es7 : subRm (yLineM ySrcPfx) (b.dropWhile isPyWs) = b.dropWhile isPyWs :=
    subRm_id_of_inert (inertP_of_none_on_suffixes
      (fun s hs => yLineM_noneC rfl (hasPfx_false_of_not_contains hs)) hc1)
  have es8 : subRm (yLineM yVerPfx) (b.dropWhile isPyWs) = b.dropWhile isPyWs :=
    subRm_id_of_inert (inertP_of_none_on_suffixes
      (fun s hs => yLineM_noneC rfl (hasPfx_false_of_not_contains hs)) hc1)
  have es9 : subRepl collapseM (lit "\n\n") (b.dropWhile isPyWs) =
      b.dropWhile isPyWs := subRepl_id_of_inert (inertP_of_noMatchIn hc5)
  have es10 : stripLeadBlank (b.dropWhile isPyWs) = b.dropWhile isPyWs :=
    stripLeadBlank_dropWhile b
  have es11 : hasYamlFM (b.dropWhile isPyWs) = false :=
    hasYamlFM_false_of (hasPfx_false_of_not_contains hc4)
  have headd : addJoplinF f (b.dropWhile isPyWs)
      ⟨I, T ++ lit " -->", lit "joplin", lit "1"⟩ =
      jHeader ⟨I, T ++ lit " -->", lit "joplin", lit "1"⟩ ++ b.dropWhile isPyWs :=
    addJoplinF_clean f _ hcb2
  have hbeq : (I == ([] : Str)) = false := beq_nil_false hI1
  simp only [cleanF, e1, e2, e3, e4, List.singleton_append]
  rw [if_neg (by simp)]
  simp only [esel, hbeq, Bool.false_eq_true, if_false,
    es1, es2, es3, es4, es5, es6, es7, es8, es9, es10, es11, headd]
  exact (shape1_eq_jHeader I (T ++ lit " -->") (lit "joplin")
    (b.dropWhile isPyWs)).symm

/-!  Entry-point corollaries and the extraction searches. -/

theorem add_joplin_clean {b : Str} (i : SyncInfo) (hb : cleanBody b = true) :
    add_sync_info_to_joplin_content b i = jHeader i ++ b :=
  addJoplinF_clean _ i hb

theorem clean_shape1 {I T S b : Str} (hI : validId I = true)
    (hT : validTime T = true) (hS : S = lit "joplin" ∨ S = lit "obsidian")
    (hb : cleanBody b = true) :
    clean_duplicate_sync_info (shape1 I T S b) =
      shape1 I (T ++ lit " -->") (lit "joplin") (b.dropWhile isPyWs) :=
  cleanF_shape1 ((shape1 I T S b).length + 3) hI hT hS hb

theorem searchCap_mId_shape1 {I X S b : Str} (hI : validId I = true) :
    searchCap mId (shape1 I X S b) = some I :=
  searchCap_some_of_match (mId_head (lit "\n" ++ rest1 X S b) hI)

theorem searchCap_mGtTime_shape1 {I T S b : Str} (hI2 : I.all isHexDash = true)
    (hT1 : 0 < T.length) (hT2 : T.all isTimeChar = true) :
    searchCap (mGt timePfx) (shape1 I (T ++ lit " -->") S b) = some T := by
  have hsplit : shape1 I (T ++ lit " -->") S b =
      (idPfx ++ (I ++ lit " -->\n")) ++ rest1 (T ++ lit " -->") S b := by
    simp [shape1, rest1, List.append_assoc]
  have hpre : InertP (mGt timePfx) (idPfx ++ (I ++ lit " -->\n"))
      (rest1 (T ++ lit " -->") S b) := by
    refine inertP_append ?_ (inertP_append ?_ ?_)
    all_goals first
      | exact inertP_run (fun c s hc => mGt_blocked_pfx (by rfl) hc)
          (all_imp (fun _ => isHexDash_notLt) hI2)
      | repeat first | exact inertP_nil | refine inertP_cons (by rfl) ?_
  have hr : rest1 (T ++ lit " -->") S b =
      timePfx ++ (T ++ (lit " -->" ++ (lit " -->\n" ++ rest2 S b))) := by
    simp [rest1, rest2, List.append_assoc]
  have hm : mGt timePfx (rest1 (T ++ lit " -->") S b) =
      some (T, timePfx.length + (T.length + 3) + 1) := by
    rw [hr]
    exact mGt_head (lit " -->\n" ++ rest2 S b) hT1
      (all_imp (fun _ => isTimeChar_notGt) hT2)
  rw [hsplit, searchCap_append_inert hpre]
  exact searchCap_some_of_match hm

theorem searchCap_mGtSrc_shape1 {I T S b : Str} (hI2 : I.all isHexDash = true)
    (hT2 : T.all isTimeChar = true) (hS : validSrc S = true) :
    searchCap (mGt srcPfx) (shape1 I (T ++ lit " -->") S b) = some S := by
  obtain ⟨hS1, hS2⟩ := validSrc_elim hS
  have hsplit : shape1 I (T ++ lit " -->") S b =
      (idPfx ++ (I ++ (lit " -->\n" ++ (timePfx ++ (T ++ (lit " -->" ++
        lit " -->\n")))))) ++ rest2 S b := by
    simp [shape1, rest2, List.append_assoc]
  have hpre : InertP (mGt srcPfx) (idPfx ++ (I ++ (lit " -->\n" ++ (timePfx ++
      (T ++ (lit " -->" ++ lit " -->\n")))))) (rest2 S b) := by
    refine inertP_append ?_ (inertP_append ?_ (inertP_append ?_ (inertP_append ?_
      (inertP_append ?_ (inertP_append ?_ ?_)))))
    all_goals first
      | exact inertP_run (fun c s hc => mGt_blocked_pfx (by rfl) hc)
          (all_imp (fun _ => isHexDash_notLt) hI2)
      | exact inertP_run (fun c s hc => mGt_blocked_pfx (by rfl) hc)
          (all_imp (fun _ => isTimeChar_notLt) hT2)
      | repeat first | exact inertP_nil | refine inertP_cons (by rfl) ?_
  have hm : mGt srcPfx (rest2 S b) =
      some (S, srcPfx.length + (S.length + 3) + 1) :=
    mGt_head (lit "\n" ++ rest3 b) hS1 (all_imp (fun _ => isSrcChar_notGt) hS2)
  rw [hsplit, searchCap_append_inert hpre]
  exact searchCap_some_of_match hm

theorem searchCap_mGtVer_shape1 {I T S b : Str} (hI2 : I.all isHexDash = true)
    (hT2 : T.all isTimeChar = true) (hS : validSrc S = true) :
    searchCap (mGt verPfx) (shape1 I (T ++ lit " -->") S b) = some (lit "1") := by
  obtain ⟨hS1, hS2⟩ := validSrc_elim hS
  have hsplit : shape1 I (T ++ lit " -->") S b =
      (idPfx ++ (I ++ (lit " -->\n" ++ (timePfx ++ (T ++ (lit " -->" ++
        (lit " -->\n" ++ (srcPfx ++ (S ++ lit " -->\n"))))))))) ++ rest3 b := by
    simp [shape1, rest3, List.append_assoc]
  have hpre : InertP (mGt verPfx) (idPfx ++ (I ++ (lit " -->\n" ++ (timePfx ++
      (T ++ (lit " -->" ++ (lit " -->\n" ++ (srcPfx ++ (S ++ lit " -->\n")))))))))
      (rest3 b) := by
    refine inertP_append ?_ (inertP_append ?_ (inertP_append ?_ (inertP_append ?_
      (inertP_append ?_ (inertP_append ?_ (inertP_append ?_ (inertP_append ?_
      (inertP_append ?_ ?_))))))))
    all_goals first
      | exact inertP_run (fun c s hc => mGt_blocked_pfx (by rfl) hc)
          (all_imp (fun _ => isHexDash_notLt) hI2)
      | exact inertP_run (fun c s hc => mGt_blocked_pfx (by rfl) hc)
          (all_imp (fun _ => isTimeChar_notLt) hT2)
      | exact inertP_run (fun c s hc => mGt_blocked_pfx (by rfl) hc)
          (all_imp (fun _ => isSrcChar_notLt) hS2)
      | repeat first | exact inertP_nil | refine inertP_cons (by rfl) ?_
  have hm : mGt verPfx (rest3 b) = some (lit "1", 30) :=
    mGt_head (T := lit "1") (lit "\n\n" ++ b) (by decide) (by decide)
  rw [hsplit, searchCap_append_inert hpre]
  exact searchCap_some_of_match hm

theorem extract_joplin_shape1 {I T S b : Str} (hI : validId I = true)
    (hT : validTime T = true) (hS : S = lit "joplin" ∨ S = lit "obsidian")
    (hb : cleanBody b = true) :
    extract_sync_info_from_joplin (shape1 I T S b) =
      ⟨I, T, lit "joplin", lit "1"⟩ := by
  obtain ⟨hI1, hI2⟩ := validId_elim hI
  obtain ⟨hT1, hT2⟩ := validTime_elim hT
  have hclean := clean_shape1 hI hT hS hb
  have hvj : validSrc (lit "joplin") = true := by decide
  have ha := searchCap_mId_shape1 (X := T ++ lit " -->") (S := lit "joplin")
    (b := b.dropWhile isPyWs) hI
  have hb' := searchCap_mGtTime_shape1 (S := lit "joplin")
    (b := b.dropWhile isPyWs) hI2 hT1 hT2
  have hc' := searchCap_mGtSrc_shape1 (b := b.dropWhile isPyWs) hI2 hT2 hvj
  have hd' := searchCap_mGtVer_shape1 (b := b.dropWhile isPyWs) hI2 hT2 hvj
  simp only [extract_sync_info_from_joplin, hclean, ha, hb', hc', hd',
    Option.getD_some]

/-!  Header lines as standalone segments (tail-polymorphic inert walks,
used for contents holding several embedded headers). -/

/-- The id comment line. -/
def hdrA (I : Str) : Str := idPfx ++ (I ++ lit " -->\n")
/-- The sync-time comment line. -/
def hdrB (T : Str) : Str := timePfx ++ (T ++ lit " -->\n")
/-- The source comment line. -/
def hdrC (S : Str) : Str := srcPfx ++ (S ++ lit " -->\n")
/-- The version comment line and the blank line after the header. -/
def hdrD : Str := verPfx ++ lit "1 -->\n\n"

theorem shape1_decomp (I T S b : Str) :
    shape1 I T S b = hdrA I ++ (hdrB T ++ (hdrC S ++ (hdrD ++ b))) := by
  simp only [shape1, hdrA, hdrB, hdrC, hdrD, List.append_assoc]

theorem inertP_mId_hdrB {T : Str} (hT2 : T.all isTimeChar = true) (r : Str) :
    InertP mId (hdrB T) r := by
  refine inertP_append ?_ (inertP_append ?_ ?_)
  all_goals first
    | exact inertP_run (fun c s hc => mId_blocked hc)
        (all_imp (fun _ => isTimeChar_notLt) hT2)
    | repeat first | exact inertP_nil | refine inertP_cons (by rfl) ?_

theorem inertP_mId_hdrC {S : Str} (hS2 : S.all isSrcChar = true) (r : Str) :
    InertP mId (hdrC S) r := by
  refine inertP_append ?_ (inertP_append ?_ ?_)
  all_goals first
    | exact inertP_run (fun c s hc => mId_blocked hc)
        (all_imp (fun _ => isSrcChar_notLt) hS2)
    | repeat first | exact inertP_nil | refine inertP_cons (by rfl) ?_

theorem inertP_mId_hdrD (r : Str) : InertP mId hdrD r := by
  repeat first | exact inertP_nil | refine inertP_cons (by rfl) ?_

theorem inertP_yId_hdrB {T : Str} (hT2 : T.all isTimeChar = true) (r : Str) :
    InertP yId (hdrB T) r := by
  refine inertP_append ?_ (inertP_append ?_ ?_)
  all_goals first
    | exact inertP_run (fun c s hc => yId_blocked hc)
        (all_imp (fun _ => isTimeChar_notN) hT2)
    | repeat first | exact inertP_nil | refine inertP_cons (by rfl) ?_

theorem inertP_yId_hdrC {S : Str}
    (hS : S = lit "joplin" ∨ S = lit "obsidian") (r : Str) :
    InertP yId (hdrC S) r := by
  rcases hS with h | h
  all_goals subst h
  all_goals repeat first | exact inertP_nil | refine inertP_cons (by rfl) ?_

theorem inertP_yId_hdrD (r : Str) : InertP yId hdrD r := by
  repeat first | exact inertP_nil | refine inertP_cons (by rfl) ?_

theorem inertP_mGtTime_hdrA {I : Str} (hI2 : I.all isHexDash = true) (r : Str) :
    InertP (mGt timePfx) (hdrA I) r := by
  refine inertP_append ?_ (inertP_append ?_ ?_)
  all_goals first
    | exact inertP_run (fun c s hc => mGt_blocked_pfx (by rfl) hc)
        (all_imp (fun _ => isHexDash_notLt) hI2)
    | repeat first | exact inertP_nil | refine inertP_cons (by rfl) ?_

theorem inertP_mGtTime_hdrC {S : Str} (hS2 : S.all isSrcChar = true) (r : Str) :
    InertP (mGt timePfx) (hdrC S) r := by
  refine inertP_append ?_ (inertP_append ?_ ?_)
  all_goals first
    | exact inertP_run (fun c s hc => mGt_blocked_pfx (by rfl) hc)
        (all_imp (fun _ => isSrcChar_notLt) hS2)
    | repeat first | exact inertP_nil | refine inertP_cons (by rfl) ?_

theorem inertP_mGtTime_hdrD (r : Str) : InertP (mGt timePfx) hdrD r := by
  repeat first | exact inertP_nil | refine inertP_cons (by rfl) ?_

theorem inertP_yTime_hdrA {I : Str} (hI2 : I.all isHexDash = true) (r : Str) :
    InertP yTime (hdrA I) r := by
  refine inertP_append ?_ (inertP_append ?_ ?_)
  all_goals first
    | exact inertP_run (fun c s hc => yTime_blocked hc)
        (all_imp (fun _ => isHexDash_notN) hI2)
    | repeat first | exact inertP_nil | refine inertP_cons (by rfl) ?_

theorem inertP_yTime_hdrC {S : Str}
    (hS : S = lit "joplin" ∨ S = lit "obsidian") (r : Str) :
    InertP yTime (hdrC S) r := by
  rcases hS with h | h
  all_goals subst h
  all_goals repeat first | exact inertP_nil | refine inertP_cons (by rfl) ?_

theorem inertP_yTime_hdrD (r : Str) : InertP yTime hdrD r := by
  repeat first | exact inertP_nil | refine inertP_cons (by rfl) ?_

theorem inertP_mGtSrc_hdrA {I : Str} (hI2 : I.all isHexDash = true) (r : Str) :
    InertP (mGt srcPfx) (hdrA I) r := by
  refine inertP_append ?_ (inertP_append ?_ ?_)
  all_goals first
    | exact inertP_run (fun c s hc => mGt_blocked_pfx (by rfl) hc)
        (all_imp (fun _ => isHexDash_notLt) hI2)
    | repeat first | exact inertP_nil | refine inertP_cons (by rfl) ?_

theorem inertP_mGtSrc_hdrB {T : Str} (hT2 : T.all isTimeChar = true) (r : Str) :
    InertP (mGt srcPfx) (hdrB T) r := by
  refine inertP_append ?_ (inertP_append ?_ ?_)
  all_goals first
    | exact inertP_run (fun c s hc => mGt_blocked_pfx (by rfl) hc)
        (all_imp (fun _ => isTimeChar_notLt) hT2)
    | repeat first | exact inertP_nil | refine inertP_cons (by rfl) ?_

theorem inertP_mGtSrc_hdrD (r : Str) : InertP (mGt srcPfx) hdrD r := by
  repeat first | exact inertP_nil | refine inertP_cons (by rfl) ?_

/-!  String-order facts for the four-candidate latest-time selection of a
two-header content. -/

theorem pyStrLt_asymm : ∀ {a b : Str}, pyStrLt a b = true → pyStrLt b a = false := by
  intro a
  induction a with
  | nil =>
    intro b h
    cases b with
    | nil => simpa [pyStrLt] using h
    | cons c cs => rfl
  | cons x xs ih =>
    intro b h
    cases b with
    | nil => simp [pyStrLt] at h
    | cons y ys =>
      simp only [pyStrLt] at h ⊢
      by_cases h1 : x.toNat < y.toNat
      · have h2 : ¬ y.toNat < x.toNat := by omega
        simp [h1, h2]
      · by_cases h2 : y.toNat < x.toNat
        · rw [if_pos h2] at h
          exact absurd h (by simp [h1, h2])
        · simp only [h1, h2, if_false] at h ⊢
          exact ih h

theorem pyStrLt_append_left {x : Str} : ∀ {a b : Str}, a.length = b.length →
    pyStrLt a b = true → pyStrLt (a ++ x) b = true := by
  intro a
  induction a with
  | nil =>
    intro b hlen h
    cases b with
    | nil => simp [pyStrLt] at h
    | cons d ds => simp at hlen
  | cons c cs ih =>
    intro b hlen h
    cases b with
    | nil => simp [pyStrLt] at h
    | cons d ds =>
      simp only [List.length_cons] at hlen
      simp only [pyStrLt, List.cons_append] at h ⊢
      by_cases h1 : c.toNat < d.toNat
      · simp [h1]
      · by_cases h2 : d.toNat < c.toNat
        · rw [if_neg h1, if_pos h2] at h
          exact absurd h (by simp)
        · simp only [h1, h2, if_false] at h ⊢
          exact ih (by omega) h

theorem latestGo_quad {T1 T2 A I1 I2 : Str} (h1 : T1 ≠ []) (hA : A ≠ [])
    (hlen : T1.length = T2.length) (hlt : pyStrLt T1 T2 = true) :
    latestGo [T1, T2, T1 ++ A, T2 ++ A] [I1, I2, I1, I2] [] [] = (T2 ++ A, I2) := by
  have s1 : pyStrLt [] T1 = true := by
    cases T1 with
    | nil => exact absurd rfl h1
    | cons c cs => rfl
  have s3 : pyStrLt T2 (T1 ++ A) = false :=
    pyStrLt_asymm (pyStrLt_append_left hlen hlt)
  have s4 : pyStrLt T2 (T2 ++ A) = true := pyStrLt_self_append T2 hA
  simp [latestGo, s1, hlt, s3, s4]

/-!  Scans and substitutions on a two-header content
`shape1 I1 T1 S1 (shape1 I2 T2 S2 b)`. -/

theorem findAll_mId_twoShape {I1 T1 S1 I2 T2 S2 b : Str}
    (hI1 : validId I1 = true) (hI2 : validId I2 = true)
    (hT1a : T1.all isTimeChar = true) (hT2a : T2.all isTimeChar = true)
    (hS1a : S1.all isSrcChar = true) (hS2a : S2.all isSrcChar = true)
    (hb2 : containsSub (lit "<!--") b = false) :
    findAllCaps mId (shape1 I1 T1 S1 (shape1 I2 T2 S2 b)) = [I1, I2] := by
  have hm : mId (shape1 I1 T1 S1 (shape1 I2 T2 S2 b)) =
      some (I1, idPfx.length + I1.length + 4) :=
    mId_head (lit "\n" ++ rest1 T1 S1 (shape1 I2 T2 S2 b)) hI1
  have hne : shape1 I1 T1 S1 (shape1 I2 T2 S2 b) ≠ [] := by
    intro h
    rw [h, show mId ([] : Str) = none from rfl] at hm
    exact Option.noConfusion hm
  have hdrop : (shape1 I1 T1 S1 (shape1 I2 T2 S2 b)).drop
      (idPfx.length + I1.length + 4) =
      lit "\n" ++ rest1 T1 S1 (shape1 I2 T2 S2 b) := by
    rw [Nat.add_assoc, shape1, drop_len_add_append, drop_len_add_append]
    rfl
  have hsplit : lit "\n" ++ rest1 T1 S1 (shape1 I2 T2 S2 b) =
      (lit "\n" ++ (hdrB T1 ++ (hdrC S1 ++ hdrD))) ++ shape1 I2 T2 S2 b := by
    simp [rest1, hdrB, hdrC, hdrD, List.append_assoc]
  have hin : InertP mId (lit "\n" ++ (hdrB T1 ++ (hdrC S1 ++ hdrD)))
      (shape1 I2 T2 S2 b) := by
    refine inertP_append ?_ (inertP_append (inertP_mId_hdrB hT1a _)
      (inertP_append (inertP_mId_hdrC hS1a _) (inertP_mId_hdrD _)))
    repeat first | exact inertP_nil | refine inertP_cons (by rfl) ?_
  show findAllGo mId (shape1 I1 T1 S1 (shape1 I2 T2 S2 b)) 0 = [I1, I2]
  rw [findAllGo_match_drop (by omega) hm hne, hdrop, hsplit,
    findAllGo_append_inert hin,
    show findAllGo mId (shape1 I2 T2 S2 b) 0 =
      findAllCaps mId (shape1 I2 T2 S2 b) from rfl,
    findAll_mId_shape1 hI2 hT2a hS2a hb2]

theorem findAll_yId_twoShape {I1 T1 S1 I2 T2 S2 b : Str}
    (hI1 : validId I1 = true) (hI2 : validId I2 = true)
    (hT1a : T1.all isTimeChar = true) (hT2a : T2.all isTimeChar = true)
    (hS1 : S1 = lit "joplin" ∨ S1 = lit "obsidian")
    (hS2 : S2 = lit "joplin" ∨ S2 = lit "obsidian")
    (hb1 : containsSub (lit "notebridge_") b = false) :
    findAllCaps yId (shape1 I1 T1 S1 (shape1 I2 T2 S2 b)) = [I1, I2] := by
  have hpre : InertP yId (lit "<!-- ")
      (yIdPfx ++ (I1 ++ (lit " -->\n" ++ rest1 T1 S1 (shape1 I2 T2 S2 b)))) := by
    repeat first | exact inertP_nil | refine inertP_cons (by rfl) ?_
  have hstep : findAllGo yId (shape1 I1 T1 S1 (shape1 I2 T2 S2 b)) 0 =
      findAllGo yId (yIdPfx ++ (I1 ++ (lit " -->\n" ++
        rest1 T1 S1 (shape1 I2 T2 S2 b)))) 0 :=
    findAllGo_append_inert hpre
  have hm : yId (yIdPfx ++ (I1 ++ (lit " -->\n" ++ rest1 T1 S1 (shape1 I2 T2 S2 b)))) =
      some (I1, yIdPfx.length + I1.length) :=
    yId_head (lit "\n" ++ rest1 T1 S1 (shape1 I2 T2 S2 b)) hI1
  have hne : yIdPfx ++ (I1 ++ (lit " -->\n" ++ rest1 T1 S1 (shape1 I2 T2 S2 b))) ≠ [] := by
    intro h
    rw [h, show yId ([] : Str) = none from rfl] at hm
    exact Option.noConfusion hm
  have hk : 0 < yIdPfx.length + I1.length := by
    rw [show yIdPfx.length = 15 from rfl]
    omega
  have hdrop : (yIdPfx ++ (I1 ++ (lit " -->\n" ++ rest1 T1 S1 (shape1 I2 T2 S2 b)))).drop
      (yIdPfx.length + I1.length) =
      lit " -->\n" ++ rest1 T1 S1 (shape1 I2 T2 S2 b) := by
    rw [drop_len_add_append, drop_len_append]
  have hsplit : lit " -->\n" ++ rest1 T1 S1 (shape1 I2 T2 S2 b) =
      (lit " -->\n" ++ (hdrB T1 ++ (hdrC S1 ++ hdrD))) ++ shape1 I2 T2 S2 b := by
    simp [rest1, hdrB, hdrC, hdrD, List.append_assoc]
  have hin : InertP yId (lit " -->\n" ++ (hdrB T1 ++ (hdrC S1 ++ hdrD)))
      (shape1 I2 T2 S2 b) := by
    refine inertP_append ?_ (inertP_append (inertP_yId_hdrB hT1a _)
      (inertP_append (inertP_yId_hdrC hS1 _) (inertP_yId_hdrD _)))
    repeat first | exact inertP_nil | refine inertP_cons (by rfl) ?_
  show findAllGo yId (shape1 I1 T1 S1 (shape1 I2 T2 S2 b)) 0 = [I1, I2]
  rw [hstep, findAllGo_match_drop hk hm hne, hdrop, hsplit,
    findAllGo_append_inert hin,
    show findAllGo yId (shape1 I2 T2 S2 b) 0 =
      findAllCaps yId (shape1 I2 T2 S2 b) from rfl,
    findAll_yId_shape1 hI2 hT2a hS2 hb1]

theorem findAll_mGtTime_twoShape {I1 T1 S1 I2 T2 S2 b : Str}
    (hI1a : I1.all isHexDash = true) (hI2a : I2.all isHexDash = true)
    (hT1 : validTime T1 = true) (hT2 : validTime T2 = true)
    (hS1a : S1.all isSrcChar = true) (hS2a : S2.all isSrcChar = true)
    (hb2 : containsSub (lit "<!--") b = false) :
    findAllCaps (mGt timePfx) (shape1 I1 T1 S1 (shape1 I2 T2 S2 b)) = [T1, T2] := by
  obtain ⟨hT11, hT12⟩ := validTime_elim hT1
  have hsplit : shape1 I1 T1 S1 (shape1 I2 T2 S2 b) =
      hdrA I1 ++ rest1 T1 S1 (shape1 I2 T2 S2 b) := by
    simp [shape1, hdrA, rest1, List.append_assoc]
  have hm : mGt timePfx (rest1 T1 S1 (shape1 I2 T2 S2 b)) =
      some (T1, timePfx.length + (T1.length + 3) + 1) :=
    mGt_head (lit "\n" ++ rest2 S1 (shape1 I2 T2 S2 b)) hT11
      (all_imp (fun _ => isTimeChar_notGt) hT12)
  have hne : rest1 T1 S1 (shape1 I2 T2 S2 b) ≠ [] := by
    intro h
    rw [h, show mGt timePfx ([] : Str) = none from rfl] at hm
    exact Option.noConfusion hm
  have hdrop : (rest1 T1 S1 (shape1 I2 T2 S2 b)).drop
      (timePfx.length + (T1.length + 3) + 1) =
      lit "\n" ++ rest2 S1 (shape1 I2 T2 S2 b) := by
    rw [show timePfx.length + (T1.length + 3) + 1 = timePfx.length + (T1.length + 4)
      from by omega, rest1, drop_len_add_append, drop_len_add_append]
    rfl
  have hsplit2 : lit "\n" ++ rest2 S1 (shape1 I2 T2 S2 b) =
      (lit "\n" ++ (hdrC S1 ++ hdrD)) ++ shape1 I2 T2 S2 b := by
    simp [rest2, hdrC, hdrD, List.append_assoc]
  have hin : InertP (mGt timePfx) (lit "\n" ++ (hdrC S1 ++ hdrD))
      (shape1 I2 T2 S2 b) := by
    refine inertP_append ?_ (inertP_append (inertP_mGtTime_hdrC hS1a _)
      (inertP_mGtTime_hdrD _))
    repeat first | exact inertP_nil | refine inertP_cons (by rfl) ?_
  show findAllGo (mGt timePfx) (shape1 I1 T1 S1 (shape1 I2 T2 S2 b)) 0 = [T1, T2]
  rw [hsplit, findAllGo_append_inert (inertP_mGtTime_hdrA hI1a _),
    findAllGo_match_drop (by omega) hm hne, hdrop, hsplit2,
    findAllGo_append_inert hin,
    show findAllGo (mGt timePfx) (shape1 I2 T2 S2 b) 0 =
      findAllCaps (mGt timePfx) (shape1 I2 T2 S2 b) from rfl,
    findAll_mGtTime_shape1 hI2a hT2 hS2a hb2]

theorem findAll_yTime_twoShape {I1 T1 S1 I2 T2 S2 b : Str}
    (hI1a : I1.all isHexDash = true) (hI2a : I2.all isHexDash = true)
    (hT1 : validTime T1 = true) (hT2 : validTime T2 = true)
    (hS1 : S1 = lit "joplin" ∨ S1 = lit "obsidian")
    (hS2 : S2 = lit "joplin" ∨ S2 = lit "obsidian")
    (hb1 : containsSub (lit "notebridge_") b = false) :
    findAllCaps yTime (shape1 I1 T1 S1 (shape1 I2 T2 S2 b)) =
      [T1 ++ lit " -->", T2 ++ lit " -->"] := by
  obtain ⟨hT11, hT12⟩ := validTime_elim hT1
  have hsplit : shape1 I1 T1 S1 (shape1 I2 T2 S2 b) =
      (hdrA I1 ++ lit "<!-- ") ++
      (yTimePfx ++ (T1 ++ (lit " -->\n" ++ rest2 S1 (shape1 I2 T2 S2 b)))) := by
    simp [shape1, hdrA, rest2, List.append_assoc]
    rfl
  have hpre : InertP yTime (hdrA I1 ++ lit "<!-- ")
      (yTimePfx ++ (T1 ++ (lit " -->\n" ++ rest2 S1 (shape1 I2 T2 S2 b)))) := by
    refine inertP_append (inertP_yTime_hdrA hI1a _) ?_
    repeat first | exact inertP_nil | refine inertP_cons (by rfl) ?_
  have hm : yTime (yTimePfx ++ (T1 ++ (lit " -->\n" ++ rest2 S1 (shape1 I2 T2 S2 b)))) =
      some (T1 ++ lit " -->", yTimePfx.length + (T1.length + 4)) :=
    yTime_head (rest2 S1 (shape1 I2 T2 S2 b)) hT1
  have hne : yTimePfx ++ (T1 ++ (lit " -->\n" ++ rest2 S1 (shape1 I2 T2 S2 b))) ≠ [] := by
    intro h
    rw [h, show yTime ([] : Str) = none from rfl] at hm
    exact Option.noConfusion hm
  have hdrop : (yTimePfx ++ (T1 ++ (lit " -->\n" ++ rest2 S1 (shape1 I2 T2 S2 b)))).drop
      (yTimePfx.length + (T1.length + 4)) =
      lit "\n" ++ rest2 S1 (shape1 I2 T2 S2 b) := by
    rw [drop_len_add_append, drop_len_add_append]
    rfl
  have hsplit2 : lit "\n" ++ rest2 S1 (shape1 I2 T2 S2 b) =
      (lit "\n" ++ (hdrC S1 ++ hdrD)) ++ shape1 I2 T2 S2 b := by
    simp [rest2, hdrC, hdrD, List.append_assoc]
  have hin : InertP yTime (lit "\n" ++ (hdrC S1 ++ hdrD))
      (shape1 I2 T2 S2 b) := by
    refine inertP_append ?_ (inertP_append (inertP_yTime_hdrC hS1 _)
      (inertP_yTime_hdrD _))
    repeat first | exact inertP_nil | refine inertP_cons (by rfl) ?_
  show findAllGo yTime (shape1 I1 T1 S1 (shape1 I2 T2 S2 b)) 0 =
    [T1 ++ lit " -->", T2 ++ lit " -->"]
  rw [hsplit, findAllGo_append_inert hpre,
    findAllGo_match_drop (by omega) hm hne, hdrop, hsplit2,
    findAllGo_append_inert hin,
    show findAllGo yTime (shape1 I2 T2 S2 b) 0 =
      findAllCaps yTime (shape1 I2 T2 S2 b) from rfl,
    findAll_yTime_shape1 hI2a hT2 hS2 hb1]

theorem subRm_sIdM_twoShape {I1 T1 S1 I2 T2 S2 b : Str}
    (hI1 : validId I1 = true) (hI2 : validId I2 = true)
    (hT1a : T1.all isTimeChar = true) (hT2a : T2.all isTimeChar = true)
    (hS1a : S1.all isSrcChar = true) (hS2a : S2.all isSrcChar = true)
    (hb2 : containsSub (lit "<!--") b = false) :
    subRm sIdM (shape1 I1 T1 S1 (shape1 I2 T2 S2 b)) =
      (hdrB T1 ++ (hdrC S1 ++ hdrD)) ++ rest1 T2 S2 b := by
  have hmid : mId (shape1 I1 T1 S1 (shape1 I2 T2 S2 b)) =
      some (I1, idPfx.length + I1.length + 4) :=
    mId_head (lit "\n" ++ rest1 T1 S1 (shape1 I2 T2 S2 b)) hI1
  have hdropA : (shape1 I1 T1 S1 (shape1 I2 T2 S2 b)).drop
      (idPfx.length + I1.length + 4) =
      lit "\n" ++ rest1 T1 S1 (shape1 I2 T2 S2 b) := by
    rw [Nat.add_assoc, shape1, drop_len_add_append, drop_len_add_append]
    rfl
  have hws : wsCount (lit "\n" ++ rest1 T1 S1 (shape1 I2 T2 S2 b)) = 1 := rfl
  have hm : sIdM (shape1 I1 T1 S1 (shape1 I2 T2 S2 b)) =
      some (idPfx.length + I1.length + 4 + 1) := by
    simp only [sIdM, addTrailWs, hmid, hdropA, hws]
  have hne : shape1 I1 T1 S1 (shape1 I2 T2 S2 b) ≠ [] := by
    intro h
    rw [h, show sIdM ([] : Str) = none from rfl] at hm
    exact Option.noConfusion hm
  have hdrop2 : (shape1 I1 T1 S1 (shape1 I2 T2 S2 b)).drop
      (idPfx.length + I1.length + 4 + 1) = rest1 T1 S1 (shape1 I2 T2 S2 b) := by
    rw [show idPfx.length + I1.length + 4 + 1 = idPfx.length + (I1.length + 5) from
      by omega, shape1, drop_len_add_append, drop_len_add_append]
    rfl
  have hsplit : rest1 T1 S1 (shape1 I2 T2 S2 b) =
      (hdrB T1 ++ (hdrC S1 ++ hdrD)) ++ shape1 I2 T2 S2 b := by
    simp [rest1, hdrB, hdrC, hdrD, List.append_assoc]
  have hin : InertP sIdM (hdrB T1 ++ (hdrC S1 ++ hdrD)) (shape1 I2 T2 S2 b) :=
    inertP_addTrailWs (inertP_append (inertP_mId_hdrB hT1a _)
      (inertP_append (inertP_mId_hdrC hS1a _) (inertP_mId_hdrD _)))
  show subRmGo sIdM (shape1 I1 T1 S1 (shape1 I2 T2 S2 b)) 0 =
    (hdrB T1 ++ (hdrC S1 ++ hdrD)) ++ rest1 T2 S2 b
  rw [subRmGo_match_drop (by omega) hm hne, hdrop2, hsplit,
    subRmGo_append_inert hin]
  congr 1
  exact subRm_sIdM_shape1 hI2 hT2a hS2a hb2

theorem subRm_sTimeM_twoTail {T1 S1 T2 S2 b : Str} (hT1 : validTime T1 = true)
    (hT2 : validTime T2 = true) (hS1a : S1.all isSrcChar = true)
    (hS2a : S2.all isSrcChar = true)
    (hb2 : containsSub (lit "<!--") b = false) :
    subRm sTimeM ((hdrB T1 ++ (hdrC S1 ++ hdrD)) ++ rest1 T2 S2 b) =
      (hdrC S1 ++ hdrD) ++ rest2 S2 b := by
  obtain ⟨hT11, hT12⟩ := validTime_elim hT1
  have hshape : (hdrB T1 ++ (hdrC S1 ++ hdrD)) ++ rest1 T2 S2 b =
      timePfx ++ (T1 ++ (lit " -->\n" ++ ((hdrC S1 ++ hdrD) ++ rest1 T2 S2 b))) := by
    simp [hdrB, List.append_assoc]
  have hmgt : mGt timePfx (timePfx ++ (T1 ++ (lit " -->\n" ++
      ((hdrC S1 ++ hdrD) ++ rest1 T2 S2 b)))) =
      some (T1, timePfx.length + (T1.length + 3) + 1) :=
    mGt_head (lit "\n" ++ ((hdrC S1 ++ hdrD) ++ rest1 T2 S2 b)) hT11
      (all_imp (fun _ => isTimeChar_notGt) hT12)
  have hdropA : (timePfx ++ (T1 ++ (lit " -->\n" ++
      ((hdrC S1 ++ hdrD) ++ rest1 T2 S2 b)))).drop
      (timePfx.length + (T1.length + 3) + 1) =
      lit "\n" ++ ((hdrC S1 ++ hdrD) ++ rest1 T2 S2 b) := by
    rw [show timePfx.length + (T1.length + 3) + 1 = timePfx.length + (T1.length + 4)
      from by omega, drop_len_add_append, drop_len_add_append]
    rfl
  have hws : wsCount (lit "\n" ++ ((hdrC S1 ++ hdrD) ++ rest1 T2 S2 b)) = 1 := rfl
  have hm : sTimeM (timePfx ++ (T1 ++ (lit " -->\n" ++
      ((hdrC S1 ++ hdrD) ++ rest1 T2 S2 b)))) =
      some (timePfx.length + (T1.length + 3) + 1 + 1) := by
    simp only [sTimeM, addTrailWs, hmgt, hdropA, hws]
  have hne : timePfx ++ (T1 ++ (lit " -->\n" ++
      ((hdrC S1 ++ hdrD) ++ rest1 T2 S2 b))) ≠ [] := by
    intro h
    rw [h, show sTimeM ([] : Str) = none from rfl] at hm
    exact Option.noConfusion hm
  have hdrop2 : (timePfx ++ (T1 ++ (lit " -->\n" ++
      ((hdrC S1 ++ hdrD) ++ rest1 T2 S2 b)))).drop
      (timePfx.length + (T1.length + 3) + 1 + 1) =
      (hdrC S1 ++ hdrD) ++ rest1 T2 S2 b := by
    rw [show timePfx.length + (T1.length + 3) + 1 + 1 = timePfx.length + (T1.length + 5)
      from by omega, drop_len_add_append, drop_len_add_append]
    rfl
  have hin : InertP sTimeM (hdrC S1 ++ hdrD) (rest1 T2 S2 b) :=
    inertP_addTrailWs (inertP_append (inertP_mGtTime_hdrC hS1a _)
      (inertP_mGtTime_hdrD _))
  rw [hshape]
  show subRmGo sTimeM (timePfx ++ (T1 ++ (lit " -->\n" ++
    ((hdrC S1 ++ hdrD) ++ rest1 T2 S2 b)))) 0 = (hdrC S1 ++ hdrD) ++ rest2 S2 b
  rw [subRmGo_match_drop (by omega) hm hne, hdrop2, subRmGo_append_inert hin]
  congr 1
  exact subRm_sTimeM_rest1 hT2 hS2a hb2

theorem subRm_sSrcM_twoTail {S1 S2 b : Str} (hS1 : validSrc S1 = true)
    (hS2 : validSrc S2 = true)
    (hb2 : containsSub (lit "<!--") b = false) :
    subRm sSrcM ((hdrC S1 ++ hdrD) ++ rest2 S2 b) = hdrD ++ rest3 b := by
  obtain ⟨hS11, hS12⟩ := validSrc_elim hS1
  have hshape : (hdrC S1 ++ hdrD) ++ rest2 S2 b =
      srcPfx ++ (S1 ++ (lit " -->\n" ++ (hdrD ++ rest2 S2 b))) := by
    simp [hdrC, List.append_assoc]
  have hmgt : mGt srcPfx (srcPfx ++ (S1 ++ (lit " -->\n" ++ (hdrD ++ rest2 S2 b)))) =
      some (S1, srcPfx.length + (S1.length + 3) + 1) :=
    mGt_head (lit "\n" ++ (hdrD ++ rest2 S2 b)) hS11
      (all_imp (fun _ => isSrcChar_notGt) hS12)
  have hdropA : (srcPfx ++ (S1 ++ (lit " -->\n" ++ (hdrD ++ rest2 S2 b)))).drop
      (srcPfx.length + (S1.length + 3) + 1) =
      lit "\n" ++ (hdrD ++ rest2 S2 b) := by
    rw [show srcPfx.length + (S1.length + 3) + 1 = srcPfx.length + (S1.length + 4)
      from by omega, drop_len_add_append, drop_len_add_append]
    rfl
  have hws : wsCount (lit "\n" ++ (hdrD ++ rest2 S2 b)) = 1 := rfl
  have hm : sSrcM (srcPfx ++ (S1 ++ (lit " -->\n" ++ (hdrD ++ rest2 S2 b)))) =
      some (srcPfx.length + (S1.length + 3) + 1 + 1) := by
    simp only [sSrcM, addTrailWs, hmgt, hdropA, hws]
  have hne : srcPfx ++ (S1 ++ (lit " -->\n" ++ (hdrD ++ rest2 S2 b))) ≠ [] := by
    intro h
    rw [h, show sSrcM ([] : Str) = none from rfl] at hm
    exact Option.noConfusion hm
  have hdrop2 : (srcPfx ++ (S1 ++ (lit " -->\n" ++ (hdrD ++ rest2 S2 b)))).drop
      (srcPfx.length + (S1.length + 3) + 1 + 1) = hdrD ++ rest2 S2 b := by
    rw [show srcPfx.length + (S1.length + 3) + 1 + 1 = srcPfx.length + (S1.length + 5)
      from by omega, drop_len_add_append, drop_len_add_append]
    rfl
  have hin : InertP sSrcM hdrD (rest2 S2 b) :=
    inertP_addTrailWs (inertP_mGtSrc_hdrD _)
  rw [hshape]
  show subRmGo sSrcM (srcPfx ++ (S1 ++ (lit " -->\n" ++ (hdrD ++ rest2 S2 b)))) 0 =
    hdrD ++ rest3 b
  rw [subRmGo_match_drop (by omega) hm hne, hdrop2, subRmGo_append_inert hin]
  congr 1
  exact subRm_sSrcM_rest2 hS2 hb2

theorem subRm_sVerM_twoTail {b : Str}
    (hb2 : containsSub (lit "<!--") b = false) :
    subRm sVerM (hdrD ++ rest3 b) = b.dropWhile isPyWs := by
  have hmgt : mGt verPfx (hdrD ++ rest3 b) = some (lit "1", 30) :=
    mGt_head (T := lit "1") (lit "\n\n" ++ rest3 b) (by decide) (by decide)
  have hdropA : (hdrD ++ rest3 b).drop 30 = lit "\n\n" ++ rest3 b := rfl
  have hws : wsCount (lit "\n\n" ++ rest3 b) = 2 := rfl
  have hm : sVerM (hdrD ++ rest3 b) = some 32 := by
    simp only [sVerM, addTrailWs, hmgt, hdropA, hws]
  have hne : hdrD ++ rest3 b ≠ [] := by
    intro h
    rw [h, show sVerM ([] : Str) = none from rfl] at hm
    exact Option.noConfusion hm
  have hdrop2 : (hdrD ++ rest3 b).drop 32 = rest3 b := rfl
  show subRmGo sVerM (hdrD ++ rest3 b) 0 = b.dropWhile isPyWs
  rw [subRmGo_match_drop (by omega) hm hne, hdrop2]
  exact subRm_sVerM_rest3 hb2

/-- `clean_duplicate_sync_info` on a two-header content (the second header
the more recent): the id of the later record survives, its time captured
with the ` -->` artifact, and the source and version are regenerated. -/
theorem cleanF_twoShape (f : Nat) {I1 T1 S1 I2 T2 S2 b : Str}
    (hI1 : validId I1 = true) (hI2 : validId I2 = true)
    (hT1 : validTime T1 = true) (hT2 : validTime T2 = true)
    (hS1 : S1 = lit "joplin" ∨ S1 = lit "obsidian")
    (hS2 : S2 = lit "joplin" ∨ S2 = lit "obsidian")
    (hb : cleanBody b = true) (hlen : T1.length = T2.length)
    (hlt : pyStrLt T1 T2 = true) :
    cleanF (f + 1) (shape1 I1 T1 S1 (shape1 I2 T2 S2 b)) =
      shape1 I2 (T2 ++ lit " -->") (lit "joplin") (b.dropWhile isPyWs) := by
  obtain ⟨hI11, hI12⟩ := validId_elim hI1
  obtain ⟨hI21, hI22⟩ := validId_elim hI2
  obtain ⟨hT11, hT12⟩ := validTime_elim hT1
  obtain ⟨hT21, hT22⟩ := validTime_elim hT2
  have hS1v : validSrc S1 = true := by
    rcases hS1 with h | h
    all_goals subst h
    all_goals decide
  have hS2v : validSrc S2 = true := by
    rcases hS2 with h | h
    all_goals subst h
    all_goals decide
  obtain ⟨hS11, hS12⟩ := validSrc_elim hS1v
  obtain ⟨hS21, hS22⟩ := validSrc_elim hS2v
  obtain ⟨hb1, hb2, hb3, hb4, hb5⟩ := cleanBody_elim hb
  have e1 := findAll_mId_twoShape hI1 hI2 hT12 hT22 hS12 hS22 hb2
  have e2 := findAll_yId_twoShape hI1 hI2 hT12 hT22 hS1 hS2 hb1
  have e3 := findAll_mGtTime_twoShape hI12 hI22 hT1 hT2 hS12 hS22 hb2
  have e4 := findAll_yTime_twoShape hI12 hI22 hT1 hT2 hS1 hS2 hb1
  have esel : latestGo [T1, T2, T1 ++ lit " -->", T2 ++ lit " -->"]
      [I1, I2, I1, I2] [] [] = (T2 ++ lit " -->", I2) :=
    latestGo_quad (List.length_pos.mp hT11) (by decide) hlen hlt
  have es1 := subRm_sIdM_twoShape hI1 hI2 hT12 hT22 hS12 hS22 hb2
  have es2 := subRm_sTimeM_twoTail hT1 hT2 hS12 hS22 hb2
  have es3 := subRm_sSrcM_twoTail hS1v hS2v hb2
  have es4 := subRm_sVerM_twoTail (b := b) hb2
  have hcb2 : cleanBody (b.dropWhile isPyWs) = true := cleanBody_dropWhile _ hb
  obtain ⟨hc1, hc2, hc3, hc4, hc5⟩ := cleanBody_elim hcb2
  have es5 : subRm ySubIdM (b.dropWhile isPyWs) = b.dropWhile isPyWs :=
    subRm_id_of_inert (inertP_of_none_on_suffixes
      (fun s hs => ySubIdM_none (yId_noneC (hasPfx_false_of_not_contains hs))) hc1)
  have es6 : subRm ySubTimeM (b.dropWhile isPyWs) = b.dropWhile isPyWs :=
    subRm_id_of_inert (inertP_of_none_on_suffixes
      (fun s hs => ySubTimeM_none (yTime_noneC (hasPfx_false_of_not_contains hs))) hc1)
  have es7 : subRm (yLineM ySrcPfx) (b.dropWhile isPyWs) = b.dropWhile isPyWs :=
    subRm_id_of_inert (inertP_of_none_on_suffixes
      (fun s hs => yLineM_noneC rfl (hasPfx_false_of_not_contains hs)) hc1)
  have es8 : subRm (yLineM yVerPfx) (b.dropWhile isPyWs) = b.dropWhile isPyWs :=
    subRm_id_of_inert (inertP_of_none_on_suffixes
      (fun s hs => yLineM_noneC rfl (hasPfx_false_of_not_contains hs)) hc1)
  have es9 : subRepl collapseM (lit "\n\n") (b.dropWhile isPyWs) =
      b.dropWhile isPyWs := subRepl_id_of_inert (inertP_of_noMatchIn hc5)
  have es10 : stripLeadBlank (b.dropWhile isPyWs) = b.dropWhile isPyWs :=
    stripLeadBlank_dropWhile b
  have es11 : hasYamlFM (b.dropWhile isPyWs) = false :=
    hasYamlFM_false_of (hasPfx_false_of_not_contains hc4)
  have headd : addJoplinF f (b.dropWhile isPyWs)
      ⟨I2, T2 ++ lit " -->", lit "joplin", lit "1"⟩ =
      jHeader ⟨I2, T2 ++ lit " -->", lit "joplin", lit "1"⟩ ++ b.dropWhile isPyWs :=
    addJoplinF_clean f _ hcb2
  have hbeq : (I2 == ([] : Str)) = false := beq_nil_false hI21
  simp only [cleanF, e1, e2, e3, e4, List.cons_append, List.nil_append]
  rw [if_neg (by simp)]
  simp only [esel, hbeq, Bool.false_eq_true, if_false, es1, es2, es3, es4,
    es5, es6, es7, es8, es9, es10, es11, headd]
  exact (shape1_eq_jHeader I2 (T2 ++ lit " -->") (lit "joplin")
    (b.dropWhile isPyWs)).symm

theorem clean_twoShape {I1 T1 S1 I2 T2 S2 b : Str}
    (hI1 : validId I1 = true) (hI2 : validId I2 = true)
    (hT1 : validTime T1 = true) (hT2 : validTime T2 = true)
    (hS1 : S1 = lit "joplin" ∨ S1 = lit "obsidian")
    (hS2 : S2 = lit "joplin" ∨ S2 = lit "obsidian")
    (hb : cleanBody b = true) (hlen : T1.length = T2.length)
    (hlt : pyStrLt T1 T2 = true) :
    clean_duplicate_sync_info (shape1 I1 T1 S1 (shape1 I2 T2 S2 b)) =
      shape1 I2 (T2 ++ lit " -->") (lit "joplin") (b.dropWhile isPyWs) :=
  cleanF_twoShape ((shape1 I1 T1 S1 (shape1 I2 T2 S2 b)).length + 3)
    hI1 hI2 hT1 hT2 hS1 hS2 hb hlen hlt

/-!  Double embedding.  `add_sync_info_to_joplin_content` applied to a
content already carrying one embedded header: the cleanup pass rewrites
the header (capture artifact time, regenerated source), the forced
comment removal then strips the whole rewritten header — its trailing
`\s*` stopping at the artifact's dangling `-->` — the stray-delimiter
pass removes that leftover `-->`, and exactly one fresh header is
prepended.  The net result is a single metadata block over the original
body (behind one extra blank line). -/

theorem isHexDash_notGt {c : Char} (h : isHexDash c = true) :
    (!(c == '>')) = true := by
  simp only [isHexDash, Bool.or_eq_true, Bool.and_eq_true, decide_eq_true_eq,
    Nat.beq_eq] at h
  simp only [Bool.not_eq_true', beq_eq_false_iff_ne, ne_eq]
  intro hc
  subst hc
  simp at h

theorem containsSub_of_pfx {p s : Str} (h : hasPfx p s = true) :
    containsSub p s = true := by
  cases s with
  | nil => simpa [containsSub] using h
  | cons c cs => simp [containsSub, h]

theorem containsSub_cons_false {p : Str} {c : Char} {cs : Str}
    (h1 : hasPfx p (c :: cs) = false) (h2 : containsSub p cs = false) :
    containsSub p (c :: cs) = false := by
  simp [containsSub, h1, h2]

theorem dropWhile_idem (p : Char → Bool) (s : Str) :
    (s.dropWhile p).dropWhile p = s.dropWhile p := by
  induction s with
  | nil => rfl
  | cons c cs ih =>
    by_cases h : p c = true
    · simpa [List.dropWhile, h] using ih
    · simp only [Bool.not_eq_true] at h
      simp [List.dropWhile, h]

theorem subRmMLGo_match {M : Str → Option Nat} {c : Char} {cs : Str} {k : Nat}
    (h : M (c :: cs) = some k) :
    subRmMLGo M (c :: cs) 0 true = subRmMLGo M cs (k - 1) (c == '\n') := by
  simp [subRmMLGo, h]

/-- The forced-removal matcher on a full `<!-- notebridge_... -->`
comment: the trailing `\s*` extends into the following content. -/
theorem forceRmM_head {X : Str} (rest : Str)
    (hX : X.all (fun c => !(c == '>')) = true) :
    forceRmM (lit "<!-- notebridge_" ++ (X ++ (lit " -->" ++ rest))) =
      some (4 + 1 + 11 + (X.length + 3) + 1 + wsCount rest) := by
  have e1 : (lit "<!-- notebridge_" ++ (X ++ (lit " -->" ++ rest))).drop 4 =
      lit " notebridge_" ++ (X ++ (lit " -->" ++ rest)) := rfl
  have e2 : wsCount (lit " notebridge_" ++ (X ++ (lit " -->" ++ rest))) = 1 := rfl
  have e3 : (lit " notebridge_" ++ (X ++ (lit " -->" ++ rest))).drop 1 =
      lit "notebridge_" ++ (X ++ (lit " -->" ++ rest)) := rfl
  have e4 : (lit "notebridge_" ++ (X ++ (lit " -->" ++ rest))).drop 11 =
      X ++ (lit " -->" ++ rest) := by
    rw [show (11 : Nat) = (lit "notebridge_").length from rfl]
    exact drop_len_append _ _
  have e5 : (X ++ (lit " -->" ++ rest)).takeWhile (fun c => !(c == '>')) =
      X ++ lit " --" := by
    rw [takeWhile_append_all _ hX,
      show (lit " -->" ++ rest).takeWhile (fun c => !(c == '>')) = lit " --"
        from rfl]
  have hlen : (X ++ lit " --").length = X.length + 3 := by simp [lit]
  have e6 : (X ++ lit " --").drop (X.length + 3 - 2) = lit "--" := by
    rw [show X.length + 3 - 2 = X.length + 1 from by omega]
    rw [show (X ++ lit " --").drop (X.length + 1) = (lit " --").drop 1 from
      drop_len_add_append X (lit " --") 1]
    rfl
  have e7 : (X ++ (lit " -->" ++ rest)).drop (X.length + 3) =
      lit ">" ++ rest := by
    rw [show (X ++ (lit " -->" ++ rest)).drop (X.length + 3) =
      (lit " -->" ++ rest).drop 3 from drop_len_add_append X _ 3]
    rfl
  have e8 : (lit "<!-- notebridge_" ++ (X ++ (lit " -->" ++ rest))).drop
      (4 + 1 + 11 + (X.length + 3) + 1) = rest := by
    rw [show 4 + 1 + 11 + (X.length + 3) + 1 = 16 + (X.length + 4) from by omega,
      show (16 : Nat) + (X.length + 4) =
        (lit "<!-- notebridge_").length + (X.length + 4) from rfl,
      drop_len_add_append]
    rw [show (X ++ (lit " -->" ++ rest)).drop (X.length + 4) =
      (lit " -->" ++ rest).drop 4 from drop_len_add_append X _ 4]
    rfl
  have h3 : (3 : Nat) ≤ X.length + 3 := by omega
  simp only [forceRmM,
    show hasPfx (lit "<!--")
      (lit "<!-- notebridge_" ++ (X ++ (lit " -->" ++ rest))) = true from rfl,
    if_true, e1, e2, e3,
    show hasPfx (lit "notebridge_")
      (lit "notebridge_" ++ (X ++ (lit " -->" ++ rest))) = true from rfl,
    e4, e5, hlen, e6, e7, e8]
  simp [h3, hasPfx_refl_append]

/-- The forced removal on the cleaned single-header shape: the three
plain comment lines are removed whole, the sync-time line up to the
first `-->` of its artifact value, leaving that dangling `-->` and its
newline in front of the body. -/
theorem subRm_forceRm_shape1 {I T b : Str} (hI : validId I = true)
    (hT : validTime T = true) (hb2 : containsSub (lit "<!--") b = false) :
    subRm forceRmM (shape1 I (T ++ lit " -->") (lit "joplin") b) =
      lit "-->\n" ++ b.dropWhile isPyWs := by
  obtain ⟨hI1, hI2⟩ := validId_elim hI
  obtain ⟨hT1, hT2⟩ := validTime_elim hT
  have hX1 : (lit "id: " ++ I).all (fun c => !(c == '>')) = true := by
    rw [List.all_append]
    simp only [Bool.and_eq_true]
    exact ⟨by decide, all_imp (fun _ => isHexDash_notGt) hI2⟩
  have hm1 : forceRmM (shape1 I (T ++ lit " -->") (lit "joplin") b) =
      some (25 + I.length) := by
    rw [show shape1 I (T ++ lit " -->") (lit "joplin") b =
      lit "<!-- notebridge_" ++ ((lit "id: " ++ I) ++ (lit " -->" ++
        (lit "\n" ++ rest1 (T ++ lit " -->") (lit "joplin") b))) from rfl,
      forceRmM_head _ hX1]
    congr 1
    rw [show wsCount (lit "\n" ++ rest1 (T ++ lit " -->") (lit "joplin") b) = 1
      from rfl]
    simp only [List.length_append]
    rw [show (lit "id: ").length = 4 from rfl]
    omega
  have hne1 : shape1 I (T ++ lit " -->") (lit "joplin") b ≠ [] := by
    intro h
    rw [h, show forceRmM ([] : Str) = none from rfl] at hm1
    exact Option.noConfusion hm1
  have hdrop1 : (shape1 I (T ++ lit " -->") (lit "joplin") b).drop
      (25 + I.length) = rest1 (T ++ lit " -->") (lit "joplin") b := by
    rw [show 25 + I.length = idPfx.length + (I.length + 5) from by
      rw [show idPfx.length = 20 from rfl]; omega]
    rw [shape1, drop_len_add_append, drop_len_add_append]
    rfl
  have hX2 : (lit "sync_time: " ++ T).all (fun c => !(c == '>')) = true := by
    rw [List.all_append]
    simp only [Bool.and_eq_true]
    exact ⟨by decide, all_imp (fun _ => isTimeChar_notGt) hT2⟩
  have hsplit2 : rest1 (T ++ lit " -->") (lit "joplin") b =
      lit "<!-- notebridge_" ++ ((lit "sync_time: " ++ T) ++ (lit " -->" ++
        (lit " -->\n" ++ rest2 (lit "joplin") b))) := by
    simp only [rest1, rest2, List.append_assoc]
    rfl
  have hm2 : forceRmM (rest1 (T ++ lit " -->") (lit "joplin") b) =
      some (32 + T.length) := by
    rw [hsplit2, forceRmM_head _ hX2]
    congr 1
    rw [show wsCount (lit " -->\n" ++ rest2 (lit "joplin") b) = 1 from rfl]
    simp only [List.length_append]
    rw [show (lit "sync_time: ").length = 11 from rfl]
    omega
  have hne2 : rest1 (T ++ lit " -->") (lit "joplin") b ≠ [] := by
    intro h
    rw [h, show forceRmM ([] : Str) = none from rfl] at hm2
    exact Option.noConfusion hm2
  have hdrop2 : (rest1 (T ++ lit " -->") (lit "joplin") b).drop
      (32 + T.length) = lit "-->\n" ++ rest2 (lit "joplin") b := by
    rw [show 32 + T.length = timePfx.length + (T.length + 5) from by
      rw [show timePfx.length = 27 from rfl]; omega]
    rw [rest1, drop_len_add_append, List.append_assoc, drop_len_add_append]
    rfl
  have hmid : InertP forceRmM (lit "-->\n") (rest2 (lit "joplin") b) := by
    repeat first | exact inertP_nil | refine inertP_cons (by rfl) ?_
  have hm3 : forceRmM (rest2 (lit "joplin") b) = some 35 := by
    rw [show rest2 (lit "joplin") b =
      lit "<!-- notebridge_" ++ (lit "source: joplin" ++ (lit " -->" ++
        (lit "\n" ++ rest3 b))) from rfl,
      forceRmM_head _ (by decide)]
    rfl
  have hne3 : rest2 (lit "joplin") b ≠ [] := by
    intro h
    rw [h, show forceRmM ([] : Str) = none from rfl] at hm3
    exact Option.noConfusion hm3
  have hdrop3 : (rest2 (lit "joplin") b).drop 35 = rest3 b := rfl
  have hm4 : forceRmM (rest3 b) = some (32 + wsCount b) := by
    rw [show rest3 b = lit "<!-- notebridge_" ++ (lit "version: 1" ++
      (lit " -->" ++ (lit "\n\n" ++ b))) from rfl,
      forceRmM_head _ (by decide)]
    congr 1
    rw [wsCount_append_ws b (by decide)]
    rw [show (lit "version: 1").length = 10 from rfl,
      show (lit "\n\n").length = 2 from rfl]
    omega
  have hne4 : rest3 b ≠ [] := by
    intro h
    rw [h, show forceRmM ([] : Str) = none from rfl] at hm4
    exact Option.noConfusion hm4
  have hdrop4 : (rest3 b).drop (32 + wsCount b) = b.dropWhile isPyWs := by
    rw [show rest3 b = lit "<!-- notebridge_version: 1 -->\n\n" ++ b from rfl,
      show (32 : Nat) + wsCount b =
        (lit "<!-- notebridge_version: 1 -->\n\n").length + wsCount b from rfl,
      drop_len_add_append, drop_wsCount]
  have htail : subRmGo forceRmM (b.dropWhile isPyWs) 0 = b.dropWhile isPyWs :=
    subRm_id_of_inert (inertP_of_none_on_suffixes
      (fun s hs => forceRmM_none (hasPfx_false_of_not_contains hs))
      (containsSub_dropWhile _ hb2))
  show subRmGo forceRmM (shape1 I (T ++ lit " -->") (lit "joplin") b) 0 =
    lit "-->\n" ++ b.dropWhile isPyWs
  rw [subRmGo_match_drop (by omega) hm1 hne1, hdrop1,
    subRmGo_match_drop (by omega) hm2 hne2, hdrop2,
    subRmGo_append_inert hmid,
    subRmGo_match_drop (by omega) hm3 hne3, hdrop3,
    subRmGo_match_drop (by omega) hm4 hne4, hdrop4, htail]

/-- The MULTILINE `^-->\s*$` removal on the dangling `-->` left by the
forced removal: the literal is removed, the `$` matching before the
newline that precedes the nonblank body. -/
theorem subRmML_arrowLine {b : Str} (hb3 : containsSub (lit "-->") b = false)
    (hne : b ≠ []) (htw : b.takeWhile isPyWs = []) :
    subRmML (mlLineM (lit "-->")) (lit "-->\n" ++ b) = lit "\n" ++ b := by
  have e2 : (lit "\n" ++ b).takeWhile isPyWs = lit "\n" := by
    rw [show lit "\n" ++ b = '\n' :: b from rfl, List.takeWhile_cons, htw]
    rfl
  have hlen : ((lit "\n" : Str).length == (lit "\n" ++ b).length) = false := by
    have h0 : 0 < b.length := List.length_pos.mpr hne
    simp only [List.length_append, beq_eq_false_iff_ne, ne_eq]
    omega
  have hm : mlLineM (lit "-->") (lit "-->\n" ++ b) = some 3 := by
    simp only [mlLineM,
      show hasPfx (lit "-->") (lit "-->\n" ++ b) = true from rfl, if_true,
      show (lit "-->\n" ++ b).drop (lit "-->").length = lit "\n" ++ b from rfl,
      e2, hlen, Bool.false_eq_true, if_false]
    rfl
  have hin : subRmMLGo (mlLineM (lit "-->")) b 0 true = b :=
    subRmMLGo_inert (inertP_of_not_contains (fun s h => mlLineM_none h) hb3) true
  calc subRmML (mlLineM (lit "-->")) (lit "-->\n" ++ b)
      = subRmMLGo (mlLineM (lit "-->")) ('-' :: (lit "->\n" ++ b)) 0 true := rfl
    _ = subRmMLGo (mlLineM (lit "-->")) (lit "->\n" ++ b) (3 - 1) ('-' == '\n') :=
        subRmMLGo_match hm
    _ = '\n' :: subRmMLGo (mlLineM (lit "-->")) b 0 true := by rfl
    _ = lit "\n" ++ b := by rw [hin]; rfl

/-- A clean nonblank-headed body stays clean behind one extra leading
newline. -/
theorem cleanBody_cons_nl {b : Str} (hb : cleanBody b = true)
    (htw : b.takeWhile isPyWs = []) : cleanBody ('\n' :: b) = true := by
  obtain ⟨h1, h2, h3, h4, h5⟩ := cleanBody_elim hb
  have hcol : collapseM ('\n' :: b) = none := by
    simp only [collapseM]
    rw [show ('\n' :: b).takeWhile isPyWs = ['\n'] from by
      rw [List.takeWhile_cons, htw]; rfl]
    simp [nlCount]
  have c1 : containsSub (lit "notebridge_") ('\n' :: b) = false :=
    containsSub_cons_false (hasPfx_cons_mismatch (by decide)) h1
  have c2 : containsSub (lit "<!--") ('\n' :: b) = false :=
    containsSub_cons_false (hasPfx_cons_mismatch (by decide)) h2
  have c3 : containsSub (lit "-->") ('\n' :: b) = false :=
    containsSub_cons_false (hasPfx_cons_mismatch (by decide)) h3
  have c4 : containsSub (lit "---") ('\n' :: b) = false :=
    containsSub_cons_false (hasPfx_cons_mismatch (by decide)) h4
  have c5 : noMatchIn collapseM ('\n' :: b) = true := by
    simp [noMatchIn, hcol, h5]
  simp only [cleanBody, Bool.and_eq_true, Bool.not_eq_true']
  exact ⟨⟨⟨⟨c1, c2⟩, c3⟩, c4⟩, c5⟩

set_option maxHeartbeats 2000000 in
/-- `add_sync_info_to_joplin_content` on a content already carrying one
embedded header: the old header disappears entirely and exactly the new
four-line header is prepended, with one extra blank line in front of the
body. -/
theorem addJoplinF_shape1 (f : Nat) {I T S b : Str} (i : SyncInfo)
    (hI : validId I = true) (hT : validTime T = true)
    (hS : S = lit "joplin" ∨ S = lit "obsidian") (hb : cleanBody b = true)
    (hne : b.dropWhile isPyWs ≠ []) :
    addJoplinF (f + 2) (shape1 I T S b) i =
      jHeader i ++ (lit "\n" ++ b.dropWhile isPyWs) := by
  have hcb2 : cleanBody (b.dropWhile isPyWs) = true := cleanBody_dropWhile _ hb
  obtain ⟨hc1, hc2, hc3, hc4, hc5⟩ := cleanBody_elim hcb2
  have hc0 : cleanF (f + 1) (shape1 I T S b) =
      shape1 I (T ++ lit " -->") (lit "joplin") (b.dropWhile isPyWs) :=
    cleanF_shape1 f hI hT hS hb
  have hguard : containsSub (lit "<!-- notebridge_")
      (shape1 I (T ++ lit " -->") (lit "joplin") (b.dropWhile isPyWs)) = true :=
    containsSub_of_pfx (by rfl)
  have hforce : subRm forceRmM
      (shape1 I (T ++ lit " -->") (lit "joplin") (b.dropWhile isPyWs)) =
      lit "-->\n" ++ b.dropWhile isPyWs := by
    rw [subRm_forceRm_shape1 hI hT hc2, dropWhile_idem]
  have htw : (b.dropWhile isPyWs).takeWhile isPyWs = [] :=
    takeWhile_dropWhile_self _ _
  have harrow : subRmML (mlLineM (lit "-->"))
      (lit "-->\n" ++ b.dropWhile isPyWs) = lit "\n" ++ b.dropWhile isPyWs :=
    subRmML_arrowLine hc3 hne htw
  have hnb1 : containsSub (lit "notebridge_")
      (lit "\n" ++ b.dropWhile isPyWs) = false :=
    containsSub_cons_false (hasPfx_cons_mismatch (by decide)) hc1
  have hnb2 : containsSub (lit "<!--") ('\n' :: b.dropWhile isPyWs) = false :=
    containsSub_cons_false (hasPfx_cons_mismatch (by decide)) hc2
  have hnb3 : containsSub (lit "-->") ('\n' :: b.dropWhile isPyWs) = false :=
    containsSub_cons_false (hasPfx_cons_mismatch (by decide)) hc3
  have hml3 : subRmML (mlLineM (lit "<!--")) (lit "\n" ++ b.dropWhile isPyWs) =
      lit "\n" ++ b.dropWhile isPyWs :=
    subRmML_inert (inertP_of_not_contains (fun s h => mlLineM_none h) hnb2)
  have hml4 : subRmML (mlWsLineM (lit "-->")) (lit "\n" ++ b.dropWhile isPyWs) =
      lit "\n" ++ b.dropWhile isPyWs :=
    subRmML_inert (inertP_of_none_on_suffixes
      (fun s hs => mlWsLineM_none (hasPfx_false_of_not_contains_drop hs _)) hnb3)
  have hml5 : subRmML (mlWsLineM (lit "<!--")) (lit "\n" ++ b.dropWhile isPyWs) =
      lit "\n" ++ b.dropWhile isPyWs :=
    subRmML_inert (inertP_of_none_on_suffixes
      (fun s hs => mlWsLineM_none (hasPfx_false_of_not_contains_drop hs _)) hnb2)
  show addJoplinF ((f + 1) + 1) (shape1 I T S b) i =
    jHeader i ++ (lit "\n" ++ b.dropWhile isPyWs)
  simp only [addJoplinF, hc0, hguard, if_true, hforce, harrow, hml3, hml4,
    hml5, hnb1, Bool.false_eq_true, if_false]

/-- Entry-point corollary of `addJoplinF_shape1`. -/
theorem add_joplin_shape1 {I T S b : Str} (i : SyncInfo)
    (hI : validId I = true) (hT : validTime T = true)
    (hS : S = lit "joplin" ∨ S = lit "obsidian") (hb : cleanBody b = true)
    (hne : b.dropWhile isPyWs ≠ []) :
    add_sync_info_to_joplin_content (shape1 I T S b) i =
      jHeader i ++ (lit "\n" ++ b.dropWhile isPyWs) :=
  addJoplinF_shape1 ((shape1 I T S b).length + 2) i hI hT hS hb hne

/-!  Claim C4. -/

/-- C4: counterexample to the original claim.  Embedding a record whose
source is `obsidian` into a plain body and re-extracting does not return
that record: the extracted source is `joplin` (the cleanup pass embedded
in `add_sync_info_to_joplin_content` regenerates the source field by
content format instead of preserving it). -/
theorem C4_counterexample :
    extract_sync_info_from_joplin (add_sync_info_to_joplin_content
      (lit "hello world") ⟨lit "abc123", lit "2024-05-06T07:08:09",
        lit "obsidian", lit "1"⟩) ≠
      ⟨lit "abc123", lit "2024-05-06T07:08:09", lit "obsidian", lit "1"⟩ := by
  decide

/-- C4: amended metadata idempotence.  For a clean nonblank body and a
well-formed record with version `1`: (1) extraction after embedding
preserves the id and sync time exactly but returns source `joplin`
regardless of the embedded value, so `extract(embed(body, m)) = m` holds
only when `m.nsource = "joplin"`; (2) embedding twice with the same
record yields exactly the one freshly prepended header over the stripped
body (behind one extra blank line) — the content holds exactly one
metadata block and embedding never grows additional blocks, though it is
not literally idempotent because of that blank line; (3) re-extracting
the doubly embedded content returns the same record as after a single
embedding. -/
theorem C4_extract_after_embed {I T S b : Str} (hI : validId I = true)
    (hT : validTime T = true) (hS : S = lit "joplin" ∨ S = lit "obsidian")
    (hb : cleanBody b = true) (hne : b.dropWhile isPyWs ≠ []) :
    extract_sync_info_from_joplin
        (add_sync_info_to_joplin_content b ⟨I, T, S, lit "1"⟩) =
      ⟨I, T, lit "joplin", lit "1"⟩ ∧
    add_sync_info_to_joplin_content
        (add_sync_info_to_joplin_content b ⟨I, T, S, lit "1"⟩)
        ⟨I, T, S, lit "1"⟩ =
      jHeader ⟨I, T, S, lit "1"⟩ ++ (lit "\n" ++ b.dropWhile isPyWs) ∧
    extract_sync_info_from_joplin
        (add_sync_info_to_joplin_content
          (add_sync_info_to_joplin_content b ⟨I, T, S, lit "1"⟩)
          ⟨I, T, S, lit "1"⟩) =
      ⟨I, T, lit "joplin", lit "1"⟩ := by
  have h1 : add_sync_info_to_joplin_content b ⟨I, T, S, lit "1"⟩ =
      shape1 I T S b := by
    rw [add_joplin_clean _ hb, shape1_eq_jHeader]
  have h2 : add_sync_info_to_joplin_content (shape1 I T S b)
      ⟨I, T, S, lit "1"⟩ =
      jHeader ⟨I, T, S, lit "1"⟩ ++ (lit "\n" ++ b.dropWhile isPyWs) :=
    add_joplin_shape1 _ hI hT hS hb hne
  have hbNL : cleanBody ('\n' :: b.dropWhile isPyWs) = true :=
    cleanBody_cons_nl (cleanBody_dropWhile _ hb) (takeWhile_dropWhile_self _ _)
  refine ⟨?_, ?_, ?_⟩
  · rw [h1]
    exact extract_joplin_shape1 hI hT hS hb
  · rw [h1]
    exact h2
  · rw [h1, h2, ← shape1_eq_jHeader]
    exact extract_joplin_shape1 hI hT hS hbNL

/-- C4: witness for the amended roundtrip and double embedding at a
concrete body and record. -/
theorem C4_extract_after_embed_witness :
    (extract_sync_info_from_joplin (add_sync_info_to_joplin_content
      (lit "hello world") ⟨lit "abc123", lit "2024-05-06T07:08:09",
        lit "obsidian", lit "1"⟩) =
      ⟨lit "abc123", lit "2024-05-06T07:08:09", lit "joplin", lit "1"⟩ ∧
    add_sync_info_to_joplin_content
        (add_sync_info_to_joplin_content (lit "hello world")
          ⟨lit "abc123", lit "2024-05-06T07:08:09", lit "obsidian", lit "1"⟩)
        ⟨lit "abc123", lit "2024-05-06T07:08:09", lit "obsidian", lit "1"⟩ =
      jHeader ⟨lit "abc123", lit "2024-05-06T07:08:09", lit "obsidian",
        lit "1"⟩ ++ (lit "\n" ++ (lit "hello world").dropWhile isPyWs) ∧
    extract_sync_info_from_joplin
        (add_sync_info_to_joplin_content
          (add_sync_info_to_joplin_content (lit "hello world")
            ⟨lit "abc123", lit "2024-05-06T07:08:09", lit "obsidian", lit "1"⟩)
          ⟨lit "abc123", lit "2024-05-06T07:08:09", lit "obsidian", lit "1"⟩) =
      ⟨lit "abc123", lit "2024-05-06T07:08:09", lit "joplin", lit "1"⟩) :=
  C4_extract_after_embed (by decide) (by decide) (Or.inr rfl) (by decide)
    (by decide)

/-!  Claim C5. -/

/-- C5: counterexample to the original claim.  A content holding two
well-formed metadata blocks, both with source `obsidian`, collapses to a
block whose source is the regenerated `joplin`: no trace of the latest
record's `obsidian` origin survives, so the informational fields are not
taken from the latest record. -/
theorem C5_counterexample :
    containsSub (lit "obsidian") (clean_duplicate_sync_info
      (shape1 (lit "aa") (lit "2024-01-01T00:00:00") (lit "obsidian")
        (shape1 (lit "bb") (lit "2024-06-01T00:00:00") (lit "obsidian")
          (lit "note")))) = false ∧
    containsSub (lit "notebridge_source: joplin") (clean_duplicate_sync_info
      (shape1 (lit "aa") (lit "2024-01-01T00:00:00") (lit "obsidian")
        (shape1 (lit "bb") (lit "2024-06-01T00:00:00") (lit "obsidian")
          (lit "note")))) = true := by
  constructor
  all_goals decide

/-- C5: amended collapse behaviour.  On a two-header content whose later
header carries the lexicographically larger sync time, the collapse
keeps only that record's id; the surviving sync-time string is the
latest time with a spurious ` -->` suffix appended (the YAML pattern's
capture artifact, which also decides the comparison), and the source and
version fields are regenerated to `joplin` / `1` instead of being
preserved from the latest record. -/
theorem C5_collapse_two_headers {I1 T1 S1 I2 T2 S2 b : Str}
    (hI1 : validId I1 = true) (hI2 : validId I2 = true)
    (hT1 : validTime T1 = true) (hT2 : validTime T2 = true)
    (hS1 : S1 = lit "joplin" ∨ S1 = lit "obsidian")
    (hS2 : S2 = lit "joplin" ∨ S2 = lit "obsidian")
    (hb : cleanBody b = true) (hlen : T1.length = T2.length)
    (hlt : pyStrLt T1 T2 = true) :
    clean_duplicate_sync_info (shape1 I1 T1 S1 (shape1 I2 T2 S2 b)) =
      shape1 I2 (T2 ++ lit " -->") (lit "joplin") (b.dropWhile isPyWs) :=
  clean_twoShape hI1 hI2 hT1 hT2 hS1 hS2 hb hlen hlt

/-- C5: witness for the amended collapse at concrete two-header
content. -/
theorem C5_collapse_two_headers_witness :
    clean_duplicate_sync_info
      (shape1 (lit "aa") (lit "2024-01-01T00:00:00") (lit "obsidian")
        (shape1 (lit "bb") (lit "2024-06-01T00:00:00") (lit "obsidian")
          (lit "note"))) =
      shape1 (lit "bb") (lit "2024-06-01T00:00:00" ++ lit " -->")
        (lit "joplin") ((lit "note").dropWhile isPyWs) :=
  C5_collapse_two_headers (by decide) (by decide) (by decide) (by decide)
    (Or.inr rfl) (Or.inr rfl) (by decide) (by decide) (by decide)

/-!  Claim C2. -/

/-- C2: counterexample to the original claim.  A Joplin note that was
assigned sync id `abcd1234` (recoverable by the extractor) loses it when
the unmatched-note re-sync path
(`safe_sync_obsidian_to_joplin_with_retry`, and the cleanup command)
runs `clean_duplicate_sync_info_keep_oldest`: the recoverable id
afterwards is the freshly generated UUID, not `abcd1234`. -/
theorem C2_counterexample :
    (extract_sync_info_from_joplin (add_sync_info_to_joplin_content
      (lit "note body") ⟨lit "abcd1234", lit "2024-03-04T05:06:07",
        lit "joplin", lit "1"⟩)).nid = lit "abcd1234" ∧
    (extract_sync_info_from_joplin (clean_duplicate_sync_info_keep_oldest
      (lit "9f9f9f9f") ⟨2024, 5, 6, 7, 8, 9, 0⟩
      (add_sync_info_to_joplin_content (lit "note body")
        ⟨lit "abcd1234", lit "2024-03-04T05:06:07", lit "joplin", lit "1"⟩))).nid =
      lit "9f9f9f9f" := by
  constructor
  all_goals decide

/-- C2: amended.  `clean_duplicate_sync_info_keep_oldest` — run by the
cleanup command and by every re-sync of an unmatched Obsidian note —
strips the whole embedded record and re-embeds
`generate_sync_info freshId now "joplin"`, whose id is the fresh UUID:
the note's previously assigned sync id `I` does not survive the
operation. -/
theorem C2_keep_oldest_regenerates {I T S b : Str} (freshId : Str)
    (now : PyDateTime) (hI : validId I = true) (hT : validTime T = true)
    (hS : validSrc S = true) (hb : cleanBody b = true) :
    clean_duplicate_sync_info_keep_oldest freshId now (shape1 I T S b) =
      jHeader (generate_sync_info freshId now (lit "joplin")) ++
        b.dropWhile isPyWs := by
  obtain ⟨hT1, hT2⟩ := validTime_elim hT
  obtain ⟨hS1, hS2⟩ := validSrc_elim hS
  obtain ⟨hb1, hb2, hb3, hb4, hb5⟩ := cleanBody_elim hb
  have es1 := subRm_sIdM_shape1 hI hT2 hS2 hb2
  have es2 := subRm_sTimeM_rest1 hT hS2 hb2
  have es3 := subRm_sSrcM_rest2 hS hb2
  have es4 := subRm_sVerM_rest3 (b := b) hb2
  have hcb2 : cleanBody (b.dropWhile isPyWs) = true := cleanBody_dropWhile _ hb
  obtain ⟨hc1, hc2, hc3, hc4, hc5⟩ := cleanBody_elim hcb2
  have es5 : subRm ySubIdM (b.dropWhile isPyWs) = b.dropWhile isPyWs :=
    subRm_id_of_inert (inertP_of_none_on_suffixes
      (fun s hs => ySubIdM_none (yId_noneC (hasPfx_false_of_not_contains hs))) hc1)
  have es6 : subRm ySubTimeM (b.dropWhile isPyWs) = b.dropWhile isPyWs :=
    subRm_id_of_inert (inertP_of_none_on_suffixes
      (fun s hs => ySubTimeM_none (yTime_noneC (hasPfx_false_of_not_contains hs))) hc1)
  have es7 : subRm (yLineM ySrcPfx) (b.dropWhile isPyWs) = b.dropWhile isPyWs :=
    subRm_id_of_inert (inertP_of_none_on_suffixes
      (fun s hs => yLineM_noneC rfl (hasPfx_false_of_not_contains hs)) hc1)
  have es8 : subRm (yLineM yVerPfx) (b.dropWhile isPyWs) = b.dropWhile isPyWs :=
    subRm_id_of_inert (inertP_of_none_on_suffixes
      (fun s hs => yLineM_noneC rfl (hasPfx_false_of_not_contains hs)) hc1)
  have es9 : subRmML mlEmptyFMM (b.dropWhile isPyWs) = b.dropWhile isPyWs :=
    subRmML_inert (inertP_of_none_on_suffixes
      (fun s hs => mlEmptyFMM_none (hasPfx_false_of_not_contains hs)) hc4)
  have es11 : hasYamlFM (b.dropWhile isPyWs) = false :=
    hasYamlFM_false_of (hasPfx_false_of_not_contains hc4)
  have headd := add_joplin_clean
    (generate_sync_info freshId now (lit "joplin")) hcb2
  simp only [clean_duplicate_sync_info_keep_oldest, es1, es2, es3, es4, es5,
    es6, es7, es8, es9, es11, Bool.false_eq_true, if_false, headd]

/-- C2: witness for the amended behaviour at a concrete note. -/
theorem C2_keep_oldest_regenerates_witness :
    clean_duplicate_sync_info_keep_oldest (lit "9f9f9f9f")
      ⟨2024, 5, 6, 7, 8, 9, 0⟩
      (shape1 (lit "abcd1234") (lit "2024-03-04T05:06:07") (lit "joplin")
        (lit "note body")) =
      jHeader (generate_sync_info (lit "9f9f9f9f") ⟨2024, 5, 6, 7, 8, 9, 0⟩
        (lit "joplin")) ++ (lit "note body").dropWhile isPyWs :=
  C2_keep_oldest_regenerates (lit "9f9f9f9f") ⟨2024, 5, 6, 7, 8, 9, 0⟩
    (by decide) (by decide) (by decide) (by decide)

/-!  Claim C3. -/

theorem char_toNat_digit {d : Nat} (h : d < 10) :
    (Char.ofNat (48 + d)).toNat = 48 + d := by
  interval_cases d
  all_goals decide

theorem pyStrLt_pad4 {a y : Nat} (ha : a < y) (hy : y ≤ 9999) :
    pyStrLt (pad4 a) (pad4 y) = true := by
  have d1 := char_toNat_digit (d := a / 1000 % 10) (Nat.mod_lt _ (by omega))
  have d2 := char_toNat_digit (d := a / 100 % 10) (Nat.mod_lt _ (by omega))
  have d3 := char_toNat_digit (d := a / 10 % 10) (Nat.mod_lt _ (by omega))
  have d4 := char_toNat_digit (d := a % 10) (Nat.mod_lt _ (by omega))
  have e1 := char_toNat_digit (d := y / 1000 % 10) (Nat.mod_lt _ (by omega))
  have e2 := char_toNat_digit (d := y / 100 % 10) (Nat.mod_lt _ (by omega))
  have e3 := char_toNat_digit (d := y / 10 % 10) (Nat.mod_lt _ (by omega))
  have e4 := char_toNat_digit (d := y % 10) (Nat.mod_lt _ (by omega))
  simp only [pad4, pyStrLt, d1, d2, d3, d4, e1, e2, e3, e4]
  split_ifs
  all_goals first
    | rfl
    | (exfalso; omega)

theorem pyStrLt_append_both : ∀ {a b : Str}, a.length = b.length →
    pyStrLt a b = true → ∀ (r q : Str), pyStrLt (a ++ r) (b ++ q) = true := by
  intro a
  induction a with
  | nil =>
    intro b hlen h
    cases b with
    | nil => simp [pyStrLt] at h
    | cons d ds => simp at hlen
  | cons c cs ih =>
    intro b hlen h r q
    cases b with
    | nil => simp [pyStrLt] at h
    | cons d ds =>
      simp only [List.length_cons] at hlen
      simp only [pyStrLt, List.cons_append] at h ⊢
      by_cases h1 : c.toNat < d.toNat
      · simp [h1]
      · by_cases h2 : d.toNat < c.toNat
        · rw [if_neg h1, if_pos h2] at h
          exact absurd h (by simp)
        · simp only [h1, h2, if_false] at h ⊢
          exact ih (by omega) h r q

/-- C3: the year clamp of `generate_sync_info`
(`current_time.replace(year=2024)`) back-dates the written sync time:
whenever the clock's year is past 2024, the embedded sync-time string is
strictly below the current time's ISO string in the string order the
engine itself uses to compare sync times. -/
theorem C3_generate_backdates {now : PyDateTime} (h : 2024 < now.year)
    (h4 : now.year ≤ 9999) (f s : Str) :
    pyStrLt (generate_sync_info f now s).ntime (isoformatDT now) = true := by
  have hpad : pyStrLt (pad4 2024) (pad4 now.year) = true := pyStrLt_pad4 h h4
  show pyStrLt (isoformatDT (generate_sync_info_time now)) (isoformatDT now) = true
  rw [generate_sync_info_time, if_pos h]
  have hiso : ∀ (d : PyDateTime), isoformatDT d = pad4 d.year ++
      (lit "-" ++ pad2 d.month ++ lit "-" ++ pad2 d.day ++ lit "T" ++
       pad2 d.hour ++ lit ":" ++ pad2 d.minute ++ lit ":" ++ pad2 d.second ++
       (if d.micro == 0 then [] else lit "." ++ pad6 d.micro)) := by
    intro d
    simp [isoformatDT, List.append_assoc]
  rw [hiso, hiso]
  exact pyStrLt_append_both (by simp [pad4]) hpad _ _

/-- C3: witness — with the clock at 2025-06-01T12:00:00 the generated
sync time is below both the current time and a previously recorded
sync time 2024-12-31T23:59:59. -/
theorem C3_generate_backdates_witness :
    pyStrLt (generate_sync_info (lit "aa") ⟨2025, 6, 1, 12, 0, 0, 0⟩
      (lit "joplin")).ntime (isoformatDT ⟨2025, 6, 1, 12, 0, 0, 0⟩) = true ∧
    pyStrLt (generate_sync_info (lit "aa") ⟨2025, 6, 1, 12, 0, 0, 0⟩
      (lit "joplin")).ntime (lit "2024-12-31T23:59:59") = true :=
  ⟨C3_generate_backdates (by decide) (by decide) (lit "aa") (lit "joplin"),
   by decide⟩

/-!  Claim C1. -/

/-- C1: counterexample to the original claim.  In `perform_sync_with_skip`
a content-matched pair (`needs_sync_info_update`) whose Obsidian side
lacks a sync id receives a metadata-backfill write before the decision
block, even though both sides' clocks exceed their recorded sync times
and the pair is then classified a conflict: a side's note is written
although the pair is a conflict. -/
theorem C1_counterexample :
    (pairStepSkip true true
      (fun s => if s == lit "2024-03-04T05:06:07" then some 1000 else none)
      true (lit "abcd")
      ⟨lit "j1", lit "T", add_sync_info_to_joplin_content (lit "body")
        ⟨lit "abcd", lit "2024-03-04T05:06:07", lit "joplin", lit "1"⟩,
        lit "nb", 2000⟩
      ⟨lit "p.md", lit "T", lit "obody", lit "f"⟩ 2000).action =
      PairAction.conflict ∧
    (pairStepSkip true true
      (fun s => if s == lit "2024-03-04T05:06:07" then some 1000 else none)
      true (lit "abcd")
      ⟨lit "j1", lit "T", add_sync_info_to_joplin_content (lit "body")
        ⟨lit "abcd", lit "2024-03-04T05:06:07", lit "joplin", lit "1"⟩,
        lit "nb", 2000⟩
      ⟨lit "p.md", lit "T", lit "obody", lit "f"⟩ 2000).backfillWrites ≠ [] := by
  constructor
  all_goals decide

/-- C1: amended conflict safety.  When both sides' modification clocks
exceed their recorded sync times, the decision block of either executor
propagates nothing: `perform_sync_with_duplicate_handling` issues no
write at all (the pair is a conflict, or was skipped earlier as a
duplicate or by a one-way rule), and `perform_sync_with_skip` on an
identity-matched pair (no metadata backfill pending) issues no write and
reports the conflict.  Only the metadata-backfill block of
`perform_sync_with_skip` (content-matched pairs missing ids) may still
write a side's note before the decision. -/
theorem C1_conflict_no_propagation (dupJ dupO : List Str) (dirJO dirOJ : Bool)
    (ruleObsOnly ruleJopOnly : Str → Bool) (parseIso : Str → Option Int)
    (j : JNote) (o : ONote) (omtime : Int) (nbid : Str)
    (hj : parse_sync_time parseIso
      (extract_sync_info_from_joplin j.body).ntime < j.userUpdatedTime)
    (ho : parse_sync_time parseIso
      (extract_sync_info_from_obsidian o.body).ntime < omtime) :
    ((pairStepDup dupJ dupO dirJO dirOJ ruleObsOnly ruleJopOnly parseIso j o
        omtime).writes = [] ∧
      ((pairStepDup dupJ dupO dirJO dirOJ ruleObsOnly ruleJopOnly parseIso j o
          omtime).action = PairAction.conflict ∨
       (pairStepDup dupJ dupO dirJO dirOJ ruleObsOnly ruleJopOnly parseIso j o
          omtime).action = PairAction.skipDup ∨
       (pairStepDup dupJ dupO dirJO dirOJ ruleObsOnly ruleJopOnly parseIso j o
          omtime).action = PairAction.skipRule)) ∧
    ((pairStepSkip dirJO dirOJ parseIso false nbid j o omtime).backfillWrites = [] ∧
     (pairStepSkip dirJO dirOJ parseIso false nbid j o omtime).writes = [] ∧
     (pairStepSkip dirJO dirOJ parseIso false nbid j o omtime).action =
       PairAction.conflict) := by
  have hjch : decide (parse_sync_time parseIso
      (extract_sync_info_from_joplin j.body).ntime < j.userUpdatedTime) = true :=
    decide_eq_true hj
  have hoch : decide (parse_sync_time parseIso
      (extract_sync_info_from_obsidian o.body).ntime < omtime) = true :=
    decide_eq_true ho
  constructor
  · simp only [pairStepDup, hjch, hoch, Bool.not_true, Bool.true_and,
      Bool.and_false, Bool.false_and, Bool.false_eq_true, if_false]
    split_ifs
    all_goals first
      | exact ⟨rfl, Or.inl rfl⟩
      | exact ⟨rfl, Or.inr (Or.inl rfl)⟩
      | exact ⟨rfl, Or.inr (Or.inr rfl)⟩
      | (exfalso; simp_all)
  · simp only [pairStepSkip, Bool.false_and, Bool.false_eq_true, if_false,
      hjch, hoch, Bool.not_true, Bool.true_and, Bool.and_false,
      List.nil_append, List.append_nil]
    split_ifs
    all_goals first
      | exact ⟨rfl, rfl, rfl⟩
      | (exfalso; simp_all)

/-- C1: witness for the amended conflict safety at a concrete
both-changed pair. -/
theorem C1_conflict_no_propagation_witness :
    ((pairStepDup [] [] true true (fun _ => false) (fun _ => false)
      (fun s => if s == lit "2024-03-04T05:06:07" then some 1000 else none)
      ⟨lit "j1", lit "T", add_sync_info_to_joplin_content (lit "body")
        ⟨lit "abcd", lit "2024-03-04T05:06:07", lit "joplin", lit "1"⟩,
        lit "nb", 2000⟩
      ⟨lit "p.md", lit "T", lit "obody", lit "f"⟩ 5).writes = [] ∧
      ((pairStepDup [] [] true true (fun _ => false) (fun _ => false)
        (fun s => if s == lit "2024-03-04T05:06:07" then some 1000 else none)
        ⟨lit "j1", lit "T", add_sync_info_to_joplin_content (lit "body")
          ⟨lit "abcd", lit "2024-03-04T05:06:07", lit "joplin", lit "1"⟩,
          lit "nb", 2000⟩
        ⟨lit "p.md", lit "T", lit "obody", lit "f"⟩ 5).action =
          PairAction.conflict ∨
       (pairStepDup [] [] true true (fun _ => false) (fun _ => false)
        (fun s => if s == lit "2024-03-04T05:06:07" then some 1000 else none)
        ⟨lit "j1", lit "T", add_sync_info_to_joplin_content (lit "body")
          ⟨lit "abcd", lit "2024-03-04T05:06:07", lit "joplin", lit "1"⟩,
          lit "nb", 2000⟩
        ⟨lit "p.md", lit "T", lit "obody", lit "f"⟩ 5).action =
          PairAction.skipDup ∨
       (pairStepDup [] [] true true (fun _ => false) (fun _ => false)
        (fun s => if s == lit "2024-03-04T05:06:07" then some 1000 else none)
        ⟨lit "j1", lit "T", add_sync_info_to_joplin_content (lit "body")
          ⟨lit "abcd", lit "2024-03-04T05:06:07", lit "joplin", lit "1"⟩,
          lit "nb", 2000⟩
        ⟨lit "p.md", lit "T", lit "obody", lit "f"⟩ 5).action =
          PairAction.skipRule)) ∧
    ((pairStepSkip true true
      (fun s => if s == lit "2024-03-04T05:06:07" then some 1000 else none)
      false (lit "x")
      ⟨lit "j1", lit "T", add_sync_info_to_joplin_content (lit "body")
        ⟨lit "abcd", lit "2024-03-04T05:06:07", lit "joplin", lit "1"⟩,
        lit "nb", 2000⟩
      ⟨lit "p.md", lit "T", lit "obody", lit "f"⟩ 5).backfillWrites = [] ∧
     (pairStepSkip true true
      (fun s => if s == lit "2024-03-04T05:06:07" then some 1000 else none)
      false (lit "x")
      ⟨lit "j1", lit "T", add_sync_info_to_joplin_content (lit "body")
        ⟨lit "abcd", lit "2024-03-04T05:06:07", lit "joplin", lit "1"⟩,
        lit "nb", 2000⟩
      ⟨lit "p.md", lit "T", lit "obody", lit "f"⟩ 5).writes = [] ∧
     (pairStepSkip true true
      (fun s => if s == lit "2024-03-04T05:06:07" then some 1000 else none)
      false (lit "x")
      ⟨lit "j1", lit "T", add_sync_info_to_joplin_content (lit "body")
        ⟨lit "abcd", lit "2024-03-04T05:06:07", lit "joplin", lit "1"⟩,
        lit "nb", 2000⟩
      ⟨lit "p.md", lit "T", lit "obody", lit "f"⟩ 5).action =
       PairAction.conflict) :=
  C1_conflict_no_propagation [] [] true true (fun _ => false) (fun _ => false)
    (fun s => if s == lit "2024-03-04T05:06:07" then some 1000 else none)
    ⟨lit "j1", lit "T", add_sync_info_to_joplin_content (lit "body")
      ⟨lit "abcd", lit "2024-03-04T05:06:07", lit "joplin", lit "1"⟩,
      lit "nb", 2000⟩
    ⟨lit "p.md", lit "T", lit "obody", lit "f"⟩ 5 (lit "x")
    (by decide) (by decide)

/-!  Claim C8. -/

/-- C8: counterexample to the original claim.  The bodies `# Title` and
`Title` normalize identically under the spec's §4.2 normalizer (heading
marker removed, whitespace collapsed), yet the content-hash fallback
does not match them: the code hashes `md5(clean_duplicate_sync_info
body)`, which removes only embedded metadata, not markup. -/
theorem C8_counterexample :
    specNormalize (lit "# Title") = specNormalize (lit "Title") ∧
    (content_hash_match
      [⟨lit "j1", lit "T", lit "# Title", lit "nb", 0⟩]
      [⟨lit "p.md", lit "T", lit "Title", lit "f"⟩]
      [lit "j1"] [lit "p.md"] (fun _ => lit "u0")).1 = [] := by
  constructor
  all_goals decide

/-- C8: amended content-hash fallback.  For one eligible nonempty note
per side, the fallback matches them exactly when
`calculate_content_hash` — the md5 of `clean_duplicate_sync_info body`,
which strips embedded metadata but performs none of the spec's markup,
link or whitespace normalization — collides across the sides; the
matched pair's sync id reuses the Joplin side's extracted id if
nonempty, else the Obsidian side's, else the freshly generated UUID. -/
theorem C8_hash_match (j : JNote) (o : ONote) (freshIds : Nat → Str)
    (hj : is_empty_note j.body = false) (ho : is_empty_note o.body = false) :
    (content_hash_match [j] [o] [j.jid] [o.path] freshIds).1 =
      (if calculate_content_hash o.body = calculate_content_hash j.body then
        [⟨j, o,
          (if !((extract_sync_info_from_joplin j.body).nid == []) then
            (extract_sync_info_from_joplin j.body).nid
           else if !((extract_sync_info_from_obsidian o.body).nid == []) then
            (extract_sync_info_from_obsidian o.body).nid
           else freshIds 0),
          !((!((extract_sync_info_from_joplin j.body).nid == [])) &&
            (!((extract_sync_info_from_obsidian o.body).nid == [])))⟩]
      else []) := by
  have hmap : buildJHashMap [j] [j.jid] = [(calculate_content_hash j.body, j)] := by
    simp [buildJHashMap, dictPut, hj]
  by_cases heq : calculate_content_hash o.body = calculate_content_hash j.body
  · have hget : dictGet [(calculate_content_hash j.body, j)]
        (calculate_content_hash j.body) = some j := by
      simp [dictGet, List.find?]
    simp [content_hash_match, hmap, contentMatchGo, ho, heq, hget]
  · have hne : (calculate_content_hash j.body ==
        calculate_content_hash o.body) = false := by
      simp only [beq_eq_false_iff_ne, ne_eq]
      exact fun h => heq h.symm
    have hget : dictGet [(calculate_content_hash j.body, j)]
        (calculate_content_hash o.body) = none := by
      simp [dictGet, List.find?, hne]
    simp [content_hash_match, hmap, contentMatchGo, ho, hget, heq]

/-- C8: witness for the amended fallback — two notes with byte-identical
bodies match and receive the Joplin side's embedded id. -/
theorem C8_hash_match_witness :
    (content_hash_match
      [⟨lit "j1", lit "T", add_sync_info_to_joplin_content (lit "same body")
        ⟨lit "abcd", lit "2024-03-04T05:06:07", lit "joplin", lit "1"⟩,
        lit "nb", 0⟩]
      [⟨lit "p.md", lit "T", lit "same body", lit "f"⟩]
      [lit "j1"] [lit "p.md"] (fun _ => lit "u0")).1 =
      (if calculate_content_hash (lit "same body") =
          calculate_content_hash (add_sync_info_to_joplin_content (lit "same body")
            ⟨lit "abcd", lit "2024-03-04T05:06:07", lit "joplin", lit "1"⟩) then
        [⟨⟨lit "j1", lit "T", add_sync_info_to_joplin_content (lit "same body")
            ⟨lit "abcd", lit "2024-03-04T05:06:07", lit "joplin", lit "1"⟩,
            lit "nb", 0⟩,
          ⟨lit "p.md", lit "T", lit "same body", lit "f"⟩,
          (if !((extract_sync_info_from_joplin
              (add_sync_info_to_joplin_content (lit "same body")
                ⟨lit "abcd", lit "2024-03-04T05:06:07", lit "joplin",
                  lit "1"⟩)).nid == []) then
            (extract_sync_info_from_joplin
              (add_sync_info_to_joplin_content (lit "same body")
                ⟨lit "abcd", lit "2024-03-04T05:06:07", lit "joplin",
                  lit "1"⟩)).nid
           else if !((extract_sync_info_from_obsidian (lit "same body")).nid == [])
            then (extract_sync_info_from_obsidian (lit "same body")).nid
           else lit "u0"),
          !((!((extract_sync_info_from_joplin
              (add_sync_info_to_joplin_content (lit "same body")
                ⟨lit "abcd", lit "2024-03-04T05:06:07", lit "joplin",
                  lit "1"⟩)).nid == [])) &&
            (!((extract_sync_info_from_obsidian (lit "same body")).nid == [])))⟩]
      else []) :=
  C8_hash_match
    ⟨lit "j1", lit "T", add_sync_info_to_joplin_content (lit "same body")
      ⟨lit "abcd", lit "2024-03-04T05:06:07", lit "joplin", lit "1"⟩,
      lit "nb", 0⟩
    ⟨lit "p.md", lit "T", lit "same body", lit "f"⟩
    (fun _ => lit "u0") (by decide) (by decide)

/-!  Claim C9. -/

theorem jentry_no_nbid (n : JNote) :
    assocGetStr (save_sync_state_jentry n) (lit "notebridge_id") = none := rfl

theorem aPut_entry_shape {α : Type} {P : α → Prop} {m : List (Str × α)}
    {k : Str} {v : α} (hm : ∀ e ∈ m, P e.2) (hv : P v) :
    ∀ e ∈ aPut m k v, P e.2 := by
  intro e he
  unfold aPut at he
  by_cases hf : ((m.find? (fun e => e.1 == k)).isSome : Bool) = true
  · rw [if_pos hf] at he
    obtain ⟨e0, he0, heq⟩ := List.mem_map.mp he
    by_cases hk : (e0.1 == k) = true
    · rw [if_pos hk] at heq
      subst heq
      exact hv
    · rw [if_neg (by simpa using hk)] at heq
      subst heq
      exact hm e0 he0
  · rw [if_neg hf] at he
    rcases List.mem_append.mp he with h | h
    · exact hm e h
    · simp only [List.mem_singleton] at h
      subst h
      exact hv

theorem foldl_jentries : ∀ (js : List JNote) (m : List (Str × List (Str × Str))),
    (∀ e ∈ m, ∃ n, e.2 = save_sync_state_jentry n) →
    ∀ e ∈ js.foldl (fun m n =>
      let i := (extract_sync_info_from_joplin n.body).nid
      if i == [] then m else aPut m i (save_sync_state_jentry n)) m,
    ∃ n2, e.2 = save_sync_state_jentry n2 := by
  intro js
  induction js with
  | nil =>
    intro m hm e he
    exact hm e he
  | cons n js ih =>
    intro m hm e he
    simp only [List.foldl_cons] at he
    by_cases hi : ((extract_sync_info_from_joplin n.body).nid == ([] : Str)) = true
    · rw [if_pos hi] at he
      exact ih m hm e he
    · rw [if_neg (by simpa using hi)] at he
      exact ih _ (aPut_entry_shape
        (P := fun l => ∃ n2, l = save_sync_state_jentry n2) hm ⟨n, rfl⟩) e he

/-- C9: every item of `joplin_deletions` is a saved `save_sync_state`
entry, which records only the keys `id`, `title`, `notebook` and `path`
— never `notebridge_id`.  The id-based resolution branch of
`perform_deletion_sync` (`deleted_note.get('notebridge_id')`) therefore
never fires, and mirroring a Joplin deletion falls back to a
path-reconstruction from the saved title/notebook, which misses any
counterpart living at a different path even when the sync id still
resolves on the Obsidian side. -/
theorem C9_deletion_items_lack_id (js : List JNote) (os : List ONote)
    (curJ : List JNote) (curO : List ONote) :
    ∀ item ∈ (detect_deletions (some (save_sync_state js os)) curJ curO).1,
      assocGetStr item (lit "notebridge_id") = none := by
  intro item hit
  simp only [detect_deletions] at hit
  obtain ⟨e, he, heq⟩ := List.mem_map.mp hit
  have he2 : e ∈ (save_sync_state js os).joplinNotes := List.mem_of_mem_filter he
  obtain ⟨n, hn⟩ := foldl_jentries js [] (by simp) e he2
  rw [← heq, hn]
  exact jentry_no_nbid n

/-- C9: witness — a concrete deleted Joplin note's deletion item carries
no `notebridge_id` key. -/
theorem C9_deletion_items_lack_id_witness :
    [(lit "id", lit "j1"), (lit "title", lit "Note"),
     (lit "notebook", lit "nb"), (lit "path", lit "nb/Note")] ∈
      (detect_deletions (some (save_sync_state
        [⟨lit "j1", lit "Note", add_sync_info_to_joplin_content (lit "body")
          ⟨lit "abcd", lit "2024-03-04T05:06:07", lit "joplin", lit "1"⟩,
          lit "nb", 0⟩] [])) [] []).1 ∧
    assocGetStr [(lit "id", lit "j1"), (lit "title", lit "Note"),
      (lit "notebook", lit "nb"), (lit "path", lit "nb/Note")]
      (lit "notebridge_id") = none := by
  refine ⟨by decide, ?_⟩
  exact C9_deletion_items_lack_id
    [⟨lit "j1", lit "Note", add_sync_info_to_joplin_content (lit "body")
      ⟨lit "abcd", lit "2024-03-04T05:06:07", lit "joplin", lit "1"⟩,
      lit "nb", 0⟩] [] [] []
    [(lit "id", lit "j1"), (lit "title", lit "Note"),
     (lit "notebook", lit "nb"), (lit "path", lit "nb/Note")] (by decide)

/-!  Claim C10. -/

/-- Decimal digit parsing (left fold). -/
def pN (s : Str) : Nat := s.foldl (fun a c => a * 10 + (c.toNat - 48)) 0

theorem foldl_natDigitsGo : ∀ (f n a : Nat), n < 10 ^ f →
    List.foldl (fun a c => a * 10 + (c.toNat - 48)) a (natDigitsGo f n) =
      a * 10 ^ (natDigitsGo f n).length + n := by
  intro f
  induction f with
  | zero =>
    intro n a h
    interval_cases n
    simp [natDigitsGo]
  | succ f ih =>
    intro n a h
    by_cases h0 : n = 0
    · subst h0
      simp [natDigitsGo]
    · have hne : (n == 0) = false := by simpa using h0
      rw [natDigitsGo, if_neg (by simp [hne])]
      rw [List.foldl_append]
      have hd : n / 10 < 10 ^ f := by
        rw [Nat.div_lt_iff_lt_mul (by omega)]
        calc n < 10 ^ (f + 1) := h
          _ = 10 ^ f * 10 := by rw [Nat.pow_succ]
      rw [ih (n / 10) a hd]
      have hc : (Char.ofNat (48 + n % 10)).toNat = 48 + n % 10 :=
        char_toNat_digit (Nat.mod_lt _ (by omega))
      simp only [List.foldl_cons, List.foldl_nil, hc, List.length_append,
        List.length_cons, List.length_nil]
      have h48 : 48 + n % 10 - 48 = n % 10 := by omega
      rw [h48, Nat.pow_succ, ← Nat.mul_assoc]
      have hm := Nat.div_add_mod n 10
      generalize a * (10 : Nat) ^ (natDigitsGo f (n / 10)).length = Q
      omega

theorem pN_natDigits (n : Nat) : pN (natDigits n) = n := by
  by_cases h0 : n = 0
  · subst h0
    rfl
  · have h1 : natDigits n = natDigitsGo n n := by
      simp [natDigits, h0]
    have h2 := foldl_natDigitsGo n n 0 (Nat.lt_pow_self (by omega) n)
    simpa [pN, h1] using h2

theorem natDigits_inj {a b : Nat} (h : natDigits a = natDigits b) : a = b := by
  have h2 := congrArg pN h
  rwa [pN_natDigits, pN_natDigits] at h2

theorem uniqueCand_inj {name ext : Str} {k1 k2 : Nat}
    (h : uniqueCand name ext k1 = uniqueCand name ext k2) : k1 = k2 := by
  unfold uniqueCand at h
  exact natDigits_inj (List.append_cancel_left (List.append_cancel_right h))

theorem fsExists_iff {fs : List (Str × Str)} {p : Str} :
    fsExists fs p = true ↔ p ∈ fs.map Prod.fst := by
  simp only [fsExists, List.find?_isSome, List.mem_map, beq_iff_eq]

theorem exists_free_cand (fs : List (Str × Str)) (name ext : Str) (k : Nat) :
    ∃ i, i < fs.length + 1 ∧
      fsExists fs (uniqueCand name ext (k + i)) = false := by
  by_contra hall
  push_neg at hall
  have hall2 : ∀ i, i < fs.length + 1 →
      fsExists fs (uniqueCand name ext (k + i)) = true := by
    intro i hi
    have := hall i hi
    simpa [Bool.not_eq_false] using this
  have hnd : ((List.range (fs.length + 1)).map
      (fun i => uniqueCand name ext (k + i))).Nodup := by
    refine List.Nodup.map ?_ (List.nodup_range _)
    intro i1 i2 h
    have := uniqueCand_inj h
    omega
  have hsub : ∀ p ∈ (List.range (fs.length + 1)).map
      (fun i => uniqueCand name ext (k + i)), p ∈ fs.map Prod.fst := by
    intro p hp
    obtain ⟨i, hi, rfl⟩ := List.mem_map.mp hp
    exact fsExists_iff.mp (hall2 i (List.mem_range.mp hi))
  have h1 : ((List.range (fs.length + 1)).map
      (fun i => uniqueCand name ext (k + i))).toFinset.card = fs.length + 1 := by
    rw [List.toFinset_card_of_nodup hnd]
    simp
  have h2 : ((List.range (fs.length + 1)).map
      (fun i => uniqueCand name ext (k + i))).toFinset ⊆
      (fs.map Prod.fst).toFinset := by
    intro x hx
    rw [List.mem_toFinset] at hx ⊢
    exact hsub x hx
  have h3 := Finset.card_le_card h2
  have h4 := List.toFinset_card_le (fs.map Prod.fst)
  simp only [List.length_map] at h4
  omega

theorem uniqueGo_free (fs : List (Str × Str)) (name ext : Str) :
    ∀ (fuel k : Nat),
    (∃ i, i < fuel ∧ fsExists fs (uniqueCand name ext (k + i)) = false) →
    fsExists fs (uniqueGo fs name ext fuel k) = false := by
  intro fuel
  induction fuel with
  | zero =>
    rintro k ⟨i, hi, _⟩
    omega
  | succ fuel ih =>
    rintro k ⟨i, hi, hfree⟩
    rw [uniqueGo]
    by_cases h0 : fsExists fs (uniqueCand name ext k) = true
    · rw [if_pos h0]
      refine ih (k + 1) ?_
      cases i with
      | zero =>
        rw [Nat.add_zero] at hfree
        rw [hfree] at h0
        exact Bool.noConfusion h0
      | succ j =>
        refine ⟨j, by omega, ?_⟩
        have hjk : k + 1 + j = k + (j + 1) := by omega
        rw [hjk]
        exact hfree
    · rw [if_neg h0]
      simpa [Bool.not_eq_true] using h0

theorem get_unique_filename_free (fs : List (Str × Str)) (base : Str) :
    fsExists fs (get_unique_filename fs base) = false := by
  rw [get_unique_filename]
  by_cases hb : fsExists fs base = true
  · rw [if_pos hb]
    obtain ⟨i, hi, hfree⟩ := exists_free_cand fs (splitExt base).1 (splitExt base).2 1
    exact uniqueGo_free fs _ _ _ 1 ⟨i, hi, hfree⟩
  · rw [if_neg hb]
    simpa [Bool.not_eq_true] using hb

/-- C10: counterexample to the original claim.  With a vault holding
both `v/n.md` and `v/n_abcd1234.md` (each belonging to other notes),
creating a note with sync id `abcd1234efgh` at `v/n.md` picks the
id-suffixed path without any existence check: the chosen target already
exists and its extractable sync id differs from the note being
written. -/
theorem C10_counterexample :
    fsExists
      [(lit "v/n.md", add_sync_info_to_obsidian_content (lit "one")
          ⟨lit "zzzz", lit "2024-01-01T00:00:00", lit "obsidian", lit "1"⟩),
       (lit "v/n_abcd1234.md", add_sync_info_to_obsidian_content (lit "two")
          ⟨lit "yyyy", lit "2024-01-01T00:00:00", lit "obsidian", lit "1"⟩)]
      (sync_joplin_to_obsidian_target
        [(lit "v/n.md", add_sync_info_to_obsidian_content (lit "one")
            ⟨lit "zzzz", lit "2024-01-01T00:00:00", lit "obsidian", lit "1"⟩),
         (lit "v/n_abcd1234.md", add_sync_info_to_obsidian_content (lit "two")
            ⟨lit "yyyy", lit "2024-01-01T00:00:00", lit "obsidian", lit "1"⟩)]
        (lit "v/n.md") (lit "abcd1234efgh")) = true ∧
    (extract_sync_info_from_obsidian ((fsRead
      [(lit "v/n.md", add_sync_info_to_obsidian_content (lit "one")
          ⟨lit "zzzz", lit "2024-01-01T00:00:00", lit "obsidian", lit "1"⟩),
       (lit "v/n_abcd1234.md", add_sync_info_to_obsidian_content (lit "two")
          ⟨lit "yyyy", lit "2024-01-01T00:00:00", lit "obsidian", lit "1"⟩)]
      (sync_joplin_to_obsidian_target
        [(lit "v/n.md", add_sync_info_to_obsidian_content (lit "one")
            ⟨lit "zzzz", lit "2024-01-01T00:00:00", lit "obsidian", lit "1"⟩),
         (lit "v/n_abcd1234.md", add_sync_info_to_obsidian_content (lit "two")
            ⟨lit "yyyy", lit "2024-01-01T00:00:00", lit "obsidian", lit "1"⟩)]
        (lit "v/n.md") (lit "abcd1234efgh"))).getD [])).nid ≠
      lit "abcd1234efgh" := by
  constructor
  all_goals decide

/-- C10: amended safety.  The move path and the checked create fallback
are safe: `get_unique_filename` always returns a path that does not
exist in the vault (by pigeonhole, the numeric-suffix loop's budget
exceeds the number of occupied candidates), and in particular the target
`move_obsidian_file` renames onto is always free.  The ordinary create
path of `sync_joplin_to_obsidian`, by contrast, picks its id-suffixed
target without an existence check (see the counterexample). -/
theorem C10_unique_targets_are_free (vault : Str) (fs : List (Str × Str))
    (old_path new_folder base : Str) :
    fsExists fs (move_obsidian_file_target vault fs old_path new_folder) = false ∧
    fsExists fs (get_unique_filename fs base) = false := by
  constructor
  · exact get_unique_filename_free fs _
  · exact get_unique_filename_free fs base

/-!  Claim C6. -/

/-- C6: counterexample to the original claim.  A successful
Joplin→Obsidian propagation in `perform_sync_with_duplicate_handling`
issues exactly one write — the Obsidian side — and the sync time
embedded in the written content is the pre-pass time extracted from the
Joplin note (`2024-03-04T05:06:07`), not a current pass timestamp; the
Joplin side is not refreshed at all (its id was already present). -/
theorem C6_counterexample :
    (pairStepDup [] [] true true (fun _ => false) (fun _ => false)
      (fun s => if s == lit "2024-03-04T05:06:07" then some 1000
        else if s == lit "2024-05-05T05:05:05" then some 5000 else none)
      ⟨lit "j1", lit "T", add_sync_info_to_joplin_content (lit "body")
        ⟨lit "abcd", lit "2024-03-04T05:06:07", lit "joplin", lit "1"⟩,
        lit "nb", 2000⟩
      ⟨lit "p.md", lit "T", add_sync_info_to_obsidian_content (lit "obody")
        ⟨lit "abcd", lit "2024-05-05T05:05:05", lit "obsidian", lit "1"⟩,
        lit "f"⟩ 4000).action = PairAction.updObs ∧
    (pairStepDup [] [] true true (fun _ => false) (fun _ => false)
      (fun s => if s == lit "2024-03-04T05:06:07" then some 1000
        else if s == lit "2024-05-05T05:05:05" then some 5000 else none)
      ⟨lit "j1", lit "T", add_sync_info_to_joplin_content (lit "body")
        ⟨lit "abcd", lit "2024-03-04T05:06:07", lit "joplin", lit "1"⟩,
        lit "nb", 2000⟩
      ⟨lit "p.md", lit "T", add_sync_info_to_obsidian_content (lit "obody")
        ⟨lit "abcd", lit "2024-05-05T05:05:05", lit "obsidian", lit "1"⟩,
        lit "f"⟩ 4000).writes.length = 1 ∧
    ((pairStepDup [] [] true true (fun _ => false) (fun _ => false)
      (fun s => if s == lit "2024-03-04T05:06:07" then some 1000
        else if s == lit "2024-05-05T05:05:05" then some 5000 else none)
      ⟨lit "j1", lit "T", add_sync_info_to_joplin_content (lit "body")
        ⟨lit "abcd", lit "2024-03-04T05:06:07", lit "joplin", lit "1"⟩,
        lit "nb", 2000⟩
      ⟨lit "p.md", lit "T", add_sync_info_to_obsidian_content (lit "obody")
        ⟨lit "abcd", lit "2024-05-05T05:05:05", lit "obsidian", lit "1"⟩,
        lit "f"⟩ 4000).writes.all (fun w =>
        match w with
        | WriteOp.wObs _ c =>
          (extract_sync_info_from_obsidian c).ntime == lit "2024-03-04T05:06:07"
        | WriteOp.wJop _ _ => false)) = true := by
  refine ⟨by decide, by decide, by decide⟩

/-- C6: amended propagation behaviour.  A successful Joplin→Obsidian
propagation of `perform_sync_with_duplicate_handling` (source side
already carrying its id) issues exactly one write: the Obsidian note
receives the source content with the extracted pre-pass metadata
re-embedded verbatim — no pass timestamp is generated anywhere in the
branch — and the Joplin side is not written at all, keeping its own
sync_time stale too. -/
theorem C6_propagation_keeps_stale_time (dupJ dupO : List Str)
    (ruleObsOnly ruleJopOnly : Str → Bool) (parseIso : Str → Option Int)
    (j : JNote) (o : ONote) (omtime : Int)
    (hd1 : dupJ.contains j.jid = false) (hd2 : dupO.contains o.path = false)
    (hrule : ruleObsOnly j.notebook = false)
    (hj : parse_sync_time parseIso
      (extract_sync_info_from_joplin j.body).ntime < j.userUpdatedTime)
    (ho : ¬ parse_sync_time parseIso
      (extract_sync_info_from_obsidian o.body).ntime < omtime)
    (hid : ((extract_sync_info_from_joplin j.body).nid == ([] : Str)) = false) :
    pairStepDup dupJ dupO true true ruleObsOnly ruleJopOnly parseIso j o omtime =
      ⟨PairAction.updObs, [WriteOp.wObs o.path (check_and_fix_sync_headers
        (add_sync_info_to_obsidian_content (subRm rmNBM j.body)
          (extract_sync_info_from_joplin j.body)))]⟩ := by
  have hjch : decide (parse_sync_time parseIso
      (extract_sync_info_from_joplin j.body).ntime < j.userUpdatedTime) = true :=
    decide_eq_true hj
  have hoch : decide (parse_sync_time parseIso
      (extract_sync_info_from_obsidian o.body).ntime < omtime) = false :=
    decide_eq_false ho
  simp only [pairStepDup, hd1, hd2, hrule, hjch, hoch, hid, Bool.or_self,
    Bool.false_eq_true, if_false, Bool.not_false, Bool.not_true, Bool.and_true,
    Bool.true_and, Bool.and_false, Bool.false_and, Bool.and_self,
    Bool.not_eq_true, List.append_nil, if_true]

/-- C6: witness for the amended propagation at a concrete pair. -/
theorem C6_propagation_keeps_stale_time_witness :
    pairStepDup [] [] true true (fun _ => false) (fun _ => false)
      (fun s => if s == lit "2024-03-04T05:06:07" then some 1000
        else if s == lit "2024-05-05T05:05:05" then some 5000 else none)
      ⟨lit "j1", lit "T", add_sync_info_to_joplin_content (lit "body")
        ⟨lit "abcd", lit "2024-03-04T05:06:07", lit "joplin", lit "1"⟩,
        lit "nb", 2000⟩
      ⟨lit "p.md", lit "T", add_sync_info_to_obsidian_content (lit "obody")
        ⟨lit "abcd", lit "2024-05-05T05:05:05", lit "obsidian", lit "1"⟩,
        lit "f"⟩ 4000 =
      ⟨PairAction.updObs, [WriteOp.wObs (lit "p.md") (check_and_fix_sync_headers
        (add_sync_info_to_obsidian_content (subRm rmNBM
          (add_sync_info_to_joplin_content (lit "body")
            ⟨lit "abcd", lit "2024-03-04T05:06:07", lit "joplin", lit "1"⟩))
          (extract_sync_info_from_joplin
            (add_sync_info_to_joplin_content (lit "body")
              ⟨lit "abcd", lit "2024-03-04T05:06:07", lit "joplin",
                lit "1"⟩))))]⟩ :=
  C6_propagation_keeps_stale_time [] [] (fun _ => false) (fun _ => false)
    (fun s => if s == lit "2024-03-04T05:06:07" then some 1000
      else if s == lit "2024-05-05T05:05:05" then some 5000 else none)
    ⟨lit "j1", lit "T", add_sync_info_to_joplin_content (lit "body")
      ⟨lit "abcd", lit "2024-03-04T05:06:07", lit "joplin", lit "1"⟩,
      lit "nb", 2000⟩
    ⟨lit "p.md", lit "T", add_sync_info_to_obsidian_content (lit "obody")
      ⟨lit "abcd", lit "2024-05-05T05:05:05", lit "obsidian", lit "1"⟩,
      lit "f"⟩ 4000
    (by decide) (by decide) (by decide) (by decide) (by decide) (by decide)

end Notebridge
